import Mathlib

/-!
# Verification of the molmass formula parser and mass engine

A shallow embedding in Lean 4 of the core of the `molmass` Python package
(files `molmass/molmass.py`, version 2022.12.8, and `molmass/elements.py`,
version 2021.6.18), together with theorems settling a list of claims about
its behaviour.

Modelling conventions:
* Python strings are `List Char`; only ASCII inputs are considered, so
  `Char.isDigit`, `Char.isUpper`, `Char.isLower` coincide with Python's
  `str.isdigit`, `str.isupper`, `str.islower` on the characters involved.
* Python floats are modelled as exact rational numbers (`Rat`); decimal
  literals of the source are translated to the exact rational they denote.
* Python dicts are modelled as insertion-ordered association lists; updating
  an existing key rewrites its value in place, a new key is appended.
  Python's `dict.__eq__` ignores order, which is expressed through lookups.
* Fallible code (raised exceptions) is modelled with `Except PyErr`.
* Python's regular expression operator `$` (used in `split_charge`) matches
  at the end of the string and also just before a trailing newline; this is
  modelled faithfully (`chopNl`).
-/

namespace Molmass

/-- Characters Python's `str.strip()` removes (ASCII whitespace). -/
def pyIsSpace (c : Char) : Bool :=
  c = ' ' || c = '\t' || c = '\n' || c = '\x0d' || c = '\x0b' || c = '\x0c'

/-- Python errors raised by the modelled code.  Only the kind of error and
its message are modelled; the formula payload and character position that
`FormulaError` additionally carries are diagnostic only and no claim
depends on them. -/
inductive PyErr where
  /-- `FormulaError(message, ...)` of molmass.py. -/
  | formulaError (msg : List Char)
  /-- `ValueError(message)`. -/
  | valueError (msg : List Char)
  /-- `KeyError` (failed dict lookup). -/
  | keyError
  /-- `TypeError` (e.g. calling a function with the wrong number of
  arguments). -/
  | typeError (msg : List Char)
  deriving DecidableEq, Repr

instance exceptDecEq {ε α : Type} [DecidableEq ε] [DecidableEq α] :
    DecidableEq (Except ε α) := fun x y =>
  match x, y with
  | .ok a, .ok b =>
      if h : a = b then isTrue (congrArg Except.ok h)
      else isFalse (fun he => h (Except.ok.inj he))
  | .error a, .error b =>
      if h : a = b then isTrue (congrArg Except.error h)
      else isFalse (fun he => h (Except.error.inj he))
  | .ok _, .error _ => isFalse (fun he => Except.noConfusion he)
  | .error _, .ok _ => isFalse (fun he => Except.noConfusion he)

/-- Association list lookup (Python `d[k]` / `k in d`). -/
def alistGet {α β : Type} [DecidableEq α] : List (α × β) → α → Option β
  | [], _ => none
  | (k, v) :: rest, key => if k = key then some v else alistGet rest key

/-- Association list update (Python `d[k] = v`): rewrite an existing key in
place, append a missing key at the end — Python dict insertion order. -/
def alistSet {α β : Type} [DecidableEq α] : List (α × β) → α → β → List (α × β)
  | [], key, v => [(key, v)]
  | (k, w) :: rest, key, v =>
      if k = key then (k, v) :: rest else (k, w) :: alistSet rest key v

/-- Association list delete (Python `del d[k]`). -/
def alistDel {α β : Type} [DecidableEq α] : List (α × β) → α → List (α × β)
  | [], _ => []
  | (k, w) :: rest, key =>
      if k = key then rest else (k, w) :: alistDel rest key

theorem alistGet_set {α β : Type} [DecidableEq α]
    (l : List (α × β)) (k k' : α) (v : β) :
    alistGet (alistSet l k v) k' = if k = k' then some v else alistGet l k' := by
  induction l with
  | nil =>
      by_cases h : k = k' <;> simp [alistSet, alistGet, h]
  | cons hd tl ih =>
      obtain ⟨a, b⟩ := hd
      by_cases hak : a = k
      · subst hak
        by_cases h : a = k' <;> simp [alistSet, alistGet, h]
      · by_cases h : a = k'
        · subst h
          have : ¬k = a := fun hk => hak hk.symm
          simp [alistSet, alistGet, hak, this]
        · simp [alistSet, alistGet, hak, h, ih]



/-! Kernel-reducible rational arithmetic.  The `Rat` operations of the
ambient library are inconvenient for evaluation inside proofs, so the
embedded code uses these `mkRat`-based operations; the lemmas following
them show they agree with the field operations of `ℚ`, which the
specification-side definitions use. -/

/-- Rational addition via `mkRat`. -/
def qadd (a b : Rat) : Rat := mkRat (a.num * b.den + b.num * a.den) (a.den * b.den)

/-- Rational multiplication via `mkRat`. -/
def qmul (a b : Rat) : Rat := mkRat (a.num * b.num) (a.den * b.den)

/-- Rational subtraction via `mkRat`. -/
def qsub (a b : Rat) : Rat := mkRat (a.num * b.den - b.num * a.den) (a.den * b.den)

/-- Rational division via `mkRat` (0 for a zero divisor; every division the
embedded code performs has a nonzero divisor). -/
def qdiv (a b : Rat) : Rat :=
  mkRat (b.num.sign * a.num * b.den) (a.den * b.num.natAbs)

/-- Embedding of a natural number. -/
def qofNat (n : ℕ) : Rat := mkRat n 1

/-- Embedding of an integer. -/
def qofInt (i : Int) : Rat := mkRat i 1

/-- Rational power by a natural exponent. -/
def qpow (a : Rat) : ℕ → Rat
  | 0 => mkRat 1 1
  | n + 1 => qmul (qpow a n) a

theorem qden_cast_ne {a : Rat} : ((a.den : Rat)) ≠ 0 := by exact_mod_cast a.den_nz

theorem qnum_cast_eq (a : Rat) : ((a.num : Rat)) = a * a.den :=
  (div_eq_iff qden_cast_ne).mp (Rat.num_div_den a)

theorem qadd_eq (a b : Rat) : qadd a b = a + b := by
  rw [qadd, Rat.mkRat_eq_div]
  push_cast
  field_simp
  rw [qnum_cast_eq a, qnum_cast_eq b]
  ring

theorem qmul_eq (a b : Rat) : qmul a b = a * b := by
  rw [qmul, Rat.mkRat_eq_div]
  push_cast
  field_simp
  rw [qnum_cast_eq a, qnum_cast_eq b]
  ring

theorem qsub_eq (a b : Rat) : qsub a b = a - b := by
  rw [qsub, Rat.mkRat_eq_div]
  push_cast
  field_simp
  rw [qnum_cast_eq a, qnum_cast_eq b]
  ring

theorem qofNat_eq (n : ℕ) : qofNat n = (n : Rat) := by
  rw [qofNat, Rat.mkRat_eq_div]
  simp

theorem qofInt_eq (i : Int) : qofInt i = (i : Rat) := by
  rw [qofInt, Rat.mkRat_eq_div]
  simp

theorem qpow_eq (a : Rat) (n : ℕ) : qpow a n = a ^ n := by
  induction n with
  | zero =>
      rw [qpow, pow_zero, Rat.mkRat_eq_div]
      simp
  | succ n ih => rw [qpow, qmul_eq, ih, pow_succ]

theorem qdiv_eq (a b : Rat) (hb : b ≠ 0) : qdiv a b = a / b := by
  rw [qdiv, Rat.mkRat_eq_div]
  have hnum : b.num ≠ 0 := Rat.num_ne_zero.mpr hb
  have hben : ((b.num : Rat)) ≠ 0 := by exact_mod_cast hnum
  rcases Int.lt_or_lt_of_ne hnum with hneg | hpos
  · rw [Int.sign_eq_neg_one_of_neg hneg]
    have hnegQ : ((b.num : Rat)) < 0 := by exact_mod_cast hneg
    push_cast [Int.cast_natAbs]
    rw [abs_of_neg hnegQ]
    rw [div_eq_div_iff (mul_ne_zero qden_cast_ne (neg_ne_zero.mpr hben)) hb]
    rw [qnum_cast_eq a, qnum_cast_eq b]
    ring
  · rw [Int.sign_eq_one_of_pos hpos]
    have hposQ : (0 : Rat) < (b.num : Rat) := by exact_mod_cast hpos
    push_cast [Int.cast_natAbs]
    rw [abs_of_pos hposQ]
    rw [div_eq_div_iff (mul_ne_zero qden_cast_ne hben) hb]
    rw [qnum_cast_eq a, qnum_cast_eq b]
    ring

/-- `Isotope` of elements.py (version 2021.6.18): relative atomic mass,
abundance, and mass number.  `__init__(self, mass=0.0, abundance=1.0,
massnumber=0)` takes exactly these three data arguments. -/
structure IsotopeData where
  mass : Rat
  abundance : Rat
  massnumber : ℕ
  deriving DecidableEq, Repr

/-- The fields of `Element` of elements.py used by the formula engine:
atomic number, symbol, standard atomic weight, and the isotope table
(an insertion-ordered dict keyed by mass number, listed in source order,
which is ascending). -/
structure ElementData where
  number : ℕ
  symbol : List Char
  mass : Rat
  isotopes : List (ℕ × IsotopeData)
  deriving DecidableEq, Repr

/-- The periodic table embedded from elements.py (version 2021.6.18):
for each element its atomic number, symbol, standard atomic weight
`mass`, and the isotope table mapping mass number to
(relative atomic mass, abundance, mass number).  Decimal float literals
of the source are modelled as exact rationals. -/
def ELEMENTS : List ElementData := [
  ElementData.mk 1 ['H'] (mkRat 1007941 1000000) [(1, IsotopeData.mk (mkRat 100782503223 100000000000) (mkRat 199977 200000) 1), (2, IsotopeData.mk (mkRat 50352544453 25000000000) (mkRat 23 200000) 2)],
  ElementData.mk 2 ['H', 'e'] (mkRat 2001301 500000) [(3, IsotopeData.mk (mkRat 30160293201 10000000000) (mkRat 67 50000000) 3), (4, IsotopeData.mk (mkRat 400260325413 100000000000) (mkRat 49999933 50000000) 4)],
  ElementData.mk 3 ['L', 'i'] (mkRat 347 50) [(6, IsotopeData.mk (mkRat 30075614437 5000000000) (mkRat 759 10000) 6), (7, IsotopeData.mk (mkRat 35080017183 5000000000) (mkRat 9241 10000) 7)],
  ElementData.mk 4 ['B', 'e'] (mkRat 90121831 10000000) [(9, IsotopeData.mk (mkRat 1802436613 200000000) (mkRat 1 1) 9)],
  ElementData.mk 5 ['B'] (mkRat 10811 1000) [(10, IsotopeData.mk (mkRat 200258739 20000000) (mkRat 199 1000) 10), (11, IsotopeData.mk (mkRat 137616317 12500000) (mkRat 801 1000) 11)],
  ElementData.mk 6 ['C'] (mkRat 600537 50000) [(12, IsotopeData.mk (mkRat 12 1) (mkRat 9893 10000) 12), (13, IsotopeData.mk (mkRat 1300335483507 100000000000) (mkRat 107 10000) 13)],
  ElementData.mk 7 ['N'] (mkRat 14006703 1000000) [(14, IsotopeData.mk (mkRat 1400307400443 100000000000) (mkRat 24909 25000) 14), (15, IsotopeData.mk (mkRat 46875340309 3125000000) (mkRat 91 25000) 15)],
  ElementData.mk 8 ['O'] (mkRat 3199881 200000) [(16, IsotopeData.mk (mkRat 1599491461957 100000000000) (mkRat 99757 100000) 16), (17, IsotopeData.mk (mkRat 33998263513 2000000000) (mkRat 19 50000) 17), (18, IsotopeData.mk (mkRat 899957980643 50000000000) (mkRat 41 20000) 18)],
  ElementData.mk 9 ['F'] (mkRat 18998403163 1000000000) [(19, IsotopeData.mk (mkRat 1899840316273 100000000000) (mkRat 1 1) 19)],
  ElementData.mk 10 ['N', 'e'] (mkRat 201797 10000) [(20, IsotopeData.mk (mkRat 99962200881 5000000000) (mkRat 1131 1250) 20), (21, IsotopeData.mk (mkRat 4198769337 200000000) (mkRat 27 10000) 21), (22, IsotopeData.mk (mkRat 10995692557 500000000) (mkRat 37 400) 22)],
  ElementData.mk 11 ['N', 'a'] (mkRat 71843029 3125000) [(23, IsotopeData.mk (mkRat 11494884641 500000000) (mkRat 1 1) 23)],
  ElementData.mk 12 ['M', 'g'] (mkRat 243051 10000) [(24, IsotopeData.mk (mkRat 23985041697 1000000000) (mkRat 7899 10000) 24), (25, IsotopeData.mk (mkRat 1561614811 62500000) (mkRat 1 10) 25), (26, IsotopeData.mk (mkRat 3247824121 125000000) (mkRat 1101 10000) 26)],
  ElementData.mk 13 ['A', 'l'] (mkRat 53963077 2000000) [(27, IsotopeData.mk (mkRat 2698153853 100000000) (mkRat 1 1) 27)],
  ElementData.mk 14 ['S', 'i'] (mkRat 56171 2000) [(28, IsotopeData.mk (mkRat 559538530693 20000000000) (mkRat 92223 100000) 28), (29, IsotopeData.mk (mkRat 289764946649 10000000000) (mkRat 937 20000) 29), (30, IsotopeData.mk (mkRat 3746721267 125000000) (mkRat 773 25000) 30)],
  ElementData.mk 15 ['P'] (mkRat 15486880999 500000000) [(31, IsotopeData.mk (mkRat 1548688099921 50000000000) (mkRat 1 1) 31)],
  ElementData.mk 16 ['S'] (mkRat 40081 1250) [(32, IsotopeData.mk (mkRat 4995636121 156250000) (mkRat 9499 10000) 32), (33, IsotopeData.mk (mkRat 164857294549 5000000000) (mkRat 3 400) 33), (34, IsotopeData.mk (mkRat 8491966751 250000000) (mkRat 17 400) 34), (36, IsotopeData.mk (mkRat 3596708071 100000000) (mkRat 1 10000) 36)],
  ElementData.mk 17 ['C', 'l'] (mkRat 354529 10000) [(35, IsotopeData.mk (mkRat 17484426341 500000000) (mkRat 947 1250) 35), (37, IsotopeData.mk (mkRat 18482951301 500000000) (mkRat 303 1250) 37)],
  ElementData.mk 18 ['A', 'r'] (mkRat 9987 250) [(36, IsotopeData.mk (mkRat 7193509021 200000000) (mkRat 417 125000) 36), (38, IsotopeData.mk (mkRat 3796273211 100000000) (mkRat 629 1000000) 38), (40, IsotopeData.mk (mkRat 399623831237 10000000000) (mkRat 199207 200000) 40)],
  ElementData.mk 19 ['K'] (mkRat 390983 10000) [(39, IsotopeData.mk (mkRat 12176158277 312500000) (mkRat 932581 1000000) 39), (40, IsotopeData.mk (mkRat 19981999083 500000000) (mkRat 117 1000000) 40), (41, IsotopeData.mk (mkRat 409618252579 10000000000) (mkRat 33651 500000) 41)],
  ElementData.mk 20 ['C', 'a'] (mkRat 20039 500) [(40, IsotopeData.mk (mkRat 39962590863 1000000000) (mkRat 96941 100000) 40), (42, IsotopeData.mk (mkRat 4195861783 100000000) (mkRat 647 100000) 42), (43, IsotopeData.mk (mkRat 1073969161 25000000) (mkRat 27 20000) 43), (44, IsotopeData.mk (mkRat 1098887039 25000000) (mkRat 1043 50000) 44), (46, IsotopeData.mk (mkRat 45953689 1000000) (mkRat 1 25000) 46), (48, IsotopeData.mk (mkRat 1198813069 25000000) (mkRat 187 100000) 48)],
  ElementData.mk 21 ['S', 'c'] (mkRat 11238977 250000) [(45, IsotopeData.mk (mkRat 1123897707 25000000) (mkRat 1 1) 45)],
  ElementData.mk 22 ['T', 'i'] (mkRat 47867 1000) [(46, IsotopeData.mk (mkRat 1148815693 25000000) (mkRat 33 400) 46), (47, IsotopeData.mk (mkRat 4695175879 100000000) (mkRat 93 1250) 47), (48, IsotopeData.mk (mkRat 2397397099 50000000) (mkRat 1843 2500) 48), (49, IsotopeData.mk (mkRat 611848321 12500000) (mkRat 541 10000) 49), (50, IsotopeData.mk (mkRat 4994478689 100000000) (mkRat 259 5000) 50)],
  ElementData.mk 23 ['V'] (mkRat 101883 2000) [(50, IsotopeData.mk (mkRat 4994715601 100000000) (mkRat 1 400) 50), (51, IsotopeData.mk (mkRat 636799463 12500000) (mkRat 399 400) 51)],
  ElementData.mk 24 ['C', 'r'] (mkRat 519961 10000) [(50, IsotopeData.mk (mkRat 4994604183 100000000) (mkRat 869 20000) 50), (52, IsotopeData.mk (mkRat 5194050623 100000000) (mkRat 83789 100000) 52), (53, IsotopeData.mk (mkRat 1058812963 20000000) (mkRat 9501 100000) 53), (54, IsotopeData.mk (mkRat 1348471979 25000000) (mkRat 473 20000) 54)],
  ElementData.mk 25 ['M', 'n'] (mkRat 13734511 250000) [(55, IsotopeData.mk (mkRat 5493804391 100000000) (mkRat 1 1) 55)],
  ElementData.mk 26 ['F', 'e'] (mkRat 11169 200) [(54, IsotopeData.mk (mkRat 5393960899 100000000) (mkRat 1169 20000) 54), (56, IsotopeData.mk (mkRat 5593493633 100000000) (mkRat 45877 50000) 56), (57, IsotopeData.mk (mkRat 1423384821 25000000) (mkRat 2119 100000) 57), (58, IsotopeData.mk (mkRat 5793327443 100000000) (mkRat 141 50000) 58)],
  ElementData.mk 27 ['C', 'o'] (mkRat 29466597 500000) [(59, IsotopeData.mk (mkRat 5893319429 100000000) (mkRat 1 1) 59)],
  ElementData.mk 28 ['N', 'i'] (mkRat 293467 5000) [(58, IsotopeData.mk (mkRat 5793534241 100000000) (mkRat 68077 100000) 58), (60, IsotopeData.mk (mkRat 1498269647 25000000) (mkRat 26223 100000) 60), (61, IsotopeData.mk (mkRat 6093105557 100000000) (mkRat 11399 1000000) 61), (62, IsotopeData.mk (mkRat 6192834537 100000000) (mkRat 18173 500000) 62), (64, IsotopeData.mk (mkRat 3196398341 50000000) (mkRat 1851 200000) 64)],
  ElementData.mk 29 ['C', 'u'] (mkRat 31773 500) [(63, IsotopeData.mk (mkRat 1573239943 25000000) (mkRat 1383 2000) 63), (65, IsotopeData.mk (mkRat 649277897 10000000) (mkRat 617 2000) 65)],
  ElementData.mk 30 ['Z', 'n'] (mkRat 3269 50) [(64, IsotopeData.mk (mkRat 6392914201 100000000) (mkRat 4917 10000) 64), (66, IsotopeData.mk (mkRat 6592603381 100000000) (mkRat 2773 10000) 66), (67, IsotopeData.mk (mkRat 267708511 4000000) (mkRat 101 2500) 67), (68, IsotopeData.mk (mkRat 1358496891 20000000) (mkRat 369 2000) 68), (70, IsotopeData.mk (mkRat 87406649 1250000) (mkRat 61 10000) 70)],
  ElementData.mk 31 ['G', 'a'] (mkRat 69723 1000) [(69, IsotopeData.mk (mkRat 137851147 2000000) (mkRat 15027 25000) 69), (71, IsotopeData.mk (mkRat 3546235129 50000000) (mkRat 9973 25000) 71)],
  ElementData.mk 32 ['G', 'e'] (mkRat 7263 100) [(70, IsotopeData.mk (mkRat 55939399 800000) (mkRat 2057 10000) 70), (72, IsotopeData.mk (mkRat 35961037913 500000000) (mkRat 549 2000) 72), (73, IsotopeData.mk (mkRat 18230864739 250000000) (mkRat 31 400) 73), (74, IsotopeData.mk (mkRat 73921177761 1000000000) (mkRat 73 200) 74), (76, IsotopeData.mk (mkRat 37960701363 500000000) (mkRat 773 10000) 76)],
  ElementData.mk 33 ['A', 's'] (mkRat 14984319 200000) [(75, IsotopeData.mk (mkRat 7492159457 100000000) (mkRat 1 1) 75)],
  ElementData.mk 34 ['S', 'e'] (mkRat 78971 1000) [(74, IsotopeData.mk (mkRat 36961237967 500000000) (mkRat 89 10000) 74), (76, IsotopeData.mk (mkRat 9489901713 125000000) (mkRat 937 10000) 76), (77, IsotopeData.mk (mkRat 38459957077 500000000) (mkRat 763 10000) 77), (78, IsotopeData.mk (mkRat 486983183 6250000) (mkRat 2377 10000) 78), (80, IsotopeData.mk (mkRat 399582609 5000000) (mkRat 4961 10000) 80), (82, IsotopeData.mk (mkRat 163833399 2000000) (mkRat 873 10000) 82)],
  ElementData.mk 35 ['B', 'r'] (mkRat 159807 2000) [(79, IsotopeData.mk (mkRat 49323961 625000) (mkRat 5069 10000) 79), (81, IsotopeData.mk (mkRat 809162897 10000000) (mkRat 4931 10000) 81)],
  ElementData.mk 36 ['K', 'r'] (mkRat 41899 500) [(78, IsotopeData.mk (mkRat 3896018247 50000000) (mkRat 71 20000) 78), (80, IsotopeData.mk (mkRat 499477363 6250000) (mkRat 1143 50000) 80), (82, IsotopeData.mk (mkRat 8191348273 100000000) (mkRat 11593 100000) 82), (83, IsotopeData.mk (mkRat 2072853179 25000000) (mkRat 23 200) 83), (84, IsotopeData.mk (mkRat 419557488641 5000000000) (mkRat 56987 100000) 84), (86, IsotopeData.mk (mkRat 859106106269 10000000000) (mkRat 17279 100000) 86)],
  ElementData.mk 37 ['R', 'b'] (mkRat 427339 5000) [(85, IsotopeData.mk (mkRat 849117897379 10000000000) (mkRat 7217 10000) 85), (87, IsotopeData.mk (mkRat 86909180531 1000000000) (mkRat 2783 10000) 87)],
  ElementData.mk 38 ['S', 'r'] (mkRat 4381 50) [(84, IsotopeData.mk (mkRat 839134191 10000000) (mkRat 7 1250) 84), (86, IsotopeData.mk (mkRat 429546303 5000000) (mkRat 493 5000) 86), (87, IsotopeData.mk (mkRat 34763551 400000) (mkRat 7 100) 87), (88, IsotopeData.mk (mkRat 7032449 80000) (mkRat 4129 5000) 88)],
  ElementData.mk 39 ['Y'] (mkRat 1111323 12500) [(89, IsotopeData.mk (mkRat 889058403 10000000) (mkRat 1 1) 89)],
  ElementData.mk 40 ['Z', 'r'] (mkRat 11403 125) [(90, IsotopeData.mk (mkRat 899046977 10000000) (mkRat 1029 2000) 90), (91, IsotopeData.mk (mkRat 227264099 2500000) (mkRat 561 5000) 91), (92, IsotopeData.mk (mkRat 919050347 10000000) (mkRat 343 2000) 92), (94, IsotopeData.mk (mkRat 234765777 2500000) (mkRat 869 5000) 94), (96, IsotopeData.mk (mkRat 479541357 5000000) (mkRat 7 250) 96)],
  ElementData.mk 41 ['N', 'b'] (mkRat 9290637 100000) [(93, IsotopeData.mk (mkRat 92906373 1000000) (mkRat 1 1) 93)],
  ElementData.mk 42 ['M', 'o'] (mkRat 1919 20) [(92, IsotopeData.mk (mkRat 2297670199 25000000) (mkRat 1453 10000) 92), (94, IsotopeData.mk (mkRat 939050849 10000000) (mkRat 183 2000) 94), (95, IsotopeData.mk (mkRat 9490583877 100000000) (mkRat 99 625) 95), (96, IsotopeData.mk (mkRat 2397616903 25000000) (mkRat 1667 10000) 96), (97, IsotopeData.mk (mkRat 2422650453 25000000) (mkRat 12 125) 97), (98, IsotopeData.mk (mkRat 4895270241 50000000) (mkRat 2439 10000) 98), (100, IsotopeData.mk (mkRat 499537359 5000000) (mkRat 491 5000) 100)],
  ElementData.mk 43 ['T', 'c'] (mkRat 61192 625) [(98, IsotopeData.mk (mkRat 244768031 2500000) (mkRat 1 1) 98)],
  ElementData.mk 44 ['R', 'u'] (mkRat 10107 100) [(96, IsotopeData.mk (mkRat 383630361 4000000) (mkRat 277 5000) 96), (98, IsotopeData.mk (mkRat 244763217 2500000) (mkRat 187 10000) 98), (99, IsotopeData.mk (mkRat 989059341 10000000) (mkRat 319 2500) 99), (100, IsotopeData.mk (mkRat 999042143 10000000) (mkRat 63 500) 100), (101, IsotopeData.mk (mkRat 1009055769 10000000) (mkRat 853 5000) 101), (102, IsotopeData.mk (mkRat 1019043441 10000000) (mkRat 631 2000) 102), (104, IsotopeData.mk (mkRat 41562171 400000) (mkRat 931 5000) 104)],
  ElementData.mk 45 ['R', 'h'] (mkRat 205811 2000) [(103, IsotopeData.mk (mkRat 51452749 500000) (mkRat 1 1) 103)],
  ElementData.mk 46 ['P', 'd'] (mkRat 5321 50) [(102, IsotopeData.mk (mkRat 509528011 5000000) (mkRat 51 5000) 102), (104, IsotopeData.mk (mkRat 207808061 2000000) (mkRat 557 5000) 104), (105, IsotopeData.mk (mkRat 262262699 2500000) (mkRat 2233 10000) 105), (106, IsotopeData.mk (mkRat 264758701 2500000) (mkRat 2733 10000) 106), (108, IsotopeData.mk (mkRat 269759729 2500000) (mkRat 1323 5000) 108), (110, IsotopeData.mk (mkRat 549525861 5000000) (mkRat 293 2500) 110)],
  ElementData.mk 47 ['A', 'g'] (mkRat 539341 5000) [(107, IsotopeData.mk (mkRat 267262729 2500000) (mkRat 51839 100000) 107), (109, IsotopeData.mk (mkRat 1089047553 10000000) (mkRat 48161 100000) 109)],
  ElementData.mk 48 ['C', 'd'] (mkRat 56207 500) [(106, IsotopeData.mk (mkRat 1059064599 10000000) (mkRat 1 80) 106), (108, IsotopeData.mk (mkRat 539520917 5000000) (mkRat 89 10000) 108), (110, IsotopeData.mk (mkRat 10990300661 100000000) (mkRat 1249 10000) 110), (111, IsotopeData.mk (mkRat 11090418287 100000000) (mkRat 16 125) 111), (112, IsotopeData.mk (mkRat 11190276287 100000000) (mkRat 2413 10000) 112), (113, IsotopeData.mk (mkRat 11290440813 100000000) (mkRat 611 5000) 113), (114, IsotopeData.mk (mkRat 11390336509 100000000) (mkRat 2873 10000) 114), (116, IsotopeData.mk (mkRat 2318095263 20000000) (mkRat 749 10000) 116)],
  ElementData.mk 49 ['I', 'n'] (mkRat 57409 500) [(113, IsotopeData.mk (mkRat 1411300773 12500000) (mkRat 429 10000) 113), (115, IsotopeData.mk (mkRat 14362984847 125000000) (mkRat 9571 10000) 115)],
  ElementData.mk 50 ['S', 'n'] (mkRat 11871 100) [(112, IsotopeData.mk (mkRat 11190482387 100000000) (mkRat 97 10000) 112), (114, IsotopeData.mk (mkRat 1139027827 10000000) (mkRat 33 5000) 114), (115, IsotopeData.mk (mkRat 114903344699 1000000000) (mkRat 17 5000) 115), (116, IsotopeData.mk (mkRat 289754357 2500000) (mkRat 727 5000) 116), (117, IsotopeData.mk (mkRat 5845147699 50000000) (mkRat 48 625) 117), (118, IsotopeData.mk (mkRat 11790160657 100000000) (mkRat 1211 5000) 118), (119, IsotopeData.mk (mkRat 11890331117 100000000) (mkRat 859 10000) 119), (120, IsotopeData.mk (mkRat 11990220163 100000000) (mkRat 1629 5000) 120), (122, IsotopeData.mk (mkRat 609517219 5000000) (mkRat 463 10000) 122), (124, IsotopeData.mk (mkRat 619526383 5000000) (mkRat 579 10000) 124)],
  ElementData.mk 51 ['S', 'b'] (mkRat 3044 25) [(121, IsotopeData.mk (mkRat 30225953 250000) (mkRat 5721 10000) 121), (123, IsotopeData.mk (mkRat 307260533 2500000) (mkRat 4279 10000) 123)],
  ElementData.mk 52 ['T', 'e'] (mkRat 638 5) [(120, IsotopeData.mk (mkRat 1199040593 10000000) (mkRat 9 10000) 120), (122, IsotopeData.mk (mkRat 243806087 2000000) (mkRat 51 2000) 122), (123, IsotopeData.mk (mkRat 614521349 5000000) (mkRat 89 10000) 123), (124, IsotopeData.mk (mkRat 1239028171 10000000) (mkRat 237 5000) 124), (125, IsotopeData.mk (mkRat 1249044299 10000000) (mkRat 707 10000) 125), (126, IsotopeData.mk (mkRat 1259033109 10000000) (mkRat 471 2500) 126), (128, IsotopeData.mk (mkRat 799402883 6250000) (mkRat 1587 5000) 128), (130, IsotopeData.mk (mkRat 32476555687 250000000) (mkRat 213 625) 130)],
  ElementData.mk 53 ['I'] (mkRat 12690447 100000) [(127, IsotopeData.mk (mkRat 1269044719 10000000) (mkRat 1 1) 127)],
  ElementData.mk 54 ['X', 'e'] (mkRat 131293 1000) [(124, IsotopeData.mk (mkRat 30976473 250000) (mkRat 119 125000) 124), (126, IsotopeData.mk (mkRat 1259042983 10000000) (mkRat 89 100000) 126), (128, IsotopeData.mk (mkRat 127903531 1000000) (mkRat 9551 500000) 128), (129, IsotopeData.mk (mkRat 1289047808611 10000000000) (mkRat 132003 500000) 129), (130, IsotopeData.mk (mkRat 129903509349 1000000000) (mkRat 4071 100000) 130), (131, IsotopeData.mk (mkRat 6545254203 50000000) (mkRat 53081 250000) 131), (132, IsotopeData.mk (mkRat 164880193857 1250000000) (mkRat 134543 500000) 132), (134, IsotopeData.mk (mkRat 6695269733 50000000) (mkRat 104357 1000000) 134), (136, IsotopeData.mk (mkRat 33976803621 250000000) (mkRat 88573 1000000) 136)],
  ElementData.mk 55 ['C', 's'] (mkRat 3322636299 25000000) [(133, IsotopeData.mk (mkRat 132905451961 1000000000) (mkRat 1 1) 133)],
  ElementData.mk 56 ['B', 'a'] (mkRat 137327 1000) [(130, IsotopeData.mk (mkRat 1299063207 10000000) (mkRat 53 50000) 130), (132, IsotopeData.mk (mkRat 1319050611 10000000) (mkRat 101 100000) 132), (134, IsotopeData.mk (mkRat 6695225409 50000000) (mkRat 2417 100000) 134), (135, IsotopeData.mk (mkRat 6745284419 50000000) (mkRat 206 3125) 135), (136, IsotopeData.mk (mkRat 13590457573 100000000) (mkRat 3927 50000) 136), (137, IsotopeData.mk (mkRat 6845291357 50000000) (mkRat 351 3125) 137), (138, IsotopeData.mk (mkRat 137905247 1000000) (mkRat 35849 50000) 138)],
  ElementData.mk 57 ['L', 'a'] (mkRat 13890547 100000) [(138, IsotopeData.mk (mkRat 1379071149 10000000) (mkRat 8881 10000000) 138), (139, IsotopeData.mk (mkRat 1389063563 10000000) (mkRat 9991119 10000000) 139)],
  ElementData.mk 58 ['C', 'e'] (mkRat 35029 250) [(136, IsotopeData.mk (mkRat 13590712921 100000000) (mkRat 37 20000) 136), (138, IsotopeData.mk (mkRat 137905991 1000000) (mkRat 251 100000) 138), (140, IsotopeData.mk (mkRat 1399054431 10000000) (mkRat 1769 2000) 140), (142, IsotopeData.mk (mkRat 177386563 1250000) (mkRat 5557 50000) 142)],
  ElementData.mk 59 ['P', 'r'] (mkRat 7045383 50000) [(141, IsotopeData.mk (mkRat 44033643 312500) (mkRat 1 1) 141)],
  ElementData.mk 60 ['N', 'd'] (mkRat 72121 500) [(142, IsotopeData.mk (mkRat 141907729 1000000) (mkRat 1697 6250) 142), (143, IsotopeData.mk (mkRat 7145491 50000) (mkRat 6087 50000) 143), (144, IsotopeData.mk (mkRat 143910093 1000000) (mkRat 11899 50000) 144), (145, IsotopeData.mk (mkRat 1449125793 10000000) (mkRat 8293 100000) 145), (146, IsotopeData.mk (mkRat 729565613 5000000) (mkRat 17189 100000) 146), (148, IsotopeData.mk (mkRat 1479168993 10000000) (mkRat 1439 25000) 148), (150, IsotopeData.mk (mkRat 749604511 5000000) (mkRat 2819 50000) 150)],
  ElementData.mk 61 ['P', 'm'] (mkRat 181141 1250) [(145, IsotopeData.mk (mkRat 1449127559 10000000) (mkRat 1 1) 145)],
  ElementData.mk 62 ['S', 'm'] (mkRat 3759 25) [(144, IsotopeData.mk (mkRat 287824013 2000000) (mkRat 307 10000) 144), (147, IsotopeData.mk (mkRat 367287261 2500000) (mkRat 1499 10000) 147), (148, IsotopeData.mk (mkRat 369787073 2500000) (mkRat 281 2500) 148), (149, IsotopeData.mk (mkRat 1489171921 10000000) (mkRat 691 5000) 149), (150, IsotopeData.mk (mkRat 1499172829 10000000) (mkRat 369 5000) 150), (152, IsotopeData.mk (mkRat 1519197397 10000000) (mkRat 107 400) 152), (154, IsotopeData.mk (mkRat 1539222169 10000000) (mkRat 91 400) 154)],
  ElementData.mk 63 ['E', 'u'] (mkRat 37991 250) [(151, IsotopeData.mk (mkRat 754599289 5000000) (mkRat 4781 10000) 151), (153, IsotopeData.mk (mkRat 76460619 500000) (mkRat 5219 10000) 153)],
  ElementData.mk 64 ['G', 'd'] (mkRat 629 4) [(152, IsotopeData.mk (mkRat 303839599 2000000) (mkRat 1 500) 152), (154, IsotopeData.mk (mkRat 1539208741 10000000) (mkRat 109 5000) 154), (155, IsotopeData.mk (mkRat 309845261 2000000) (mkRat 37 250) 155), (156, IsotopeData.mk (mkRat 24362833 156250) (mkRat 2047 10000) 156), (157, IsotopeData.mk (mkRat 784619843 5000000) (mkRat 313 2000) 157), (158, IsotopeData.mk (mkRat 1579241123 10000000) (mkRat 621 2500) 158), (160, IsotopeData.mk (mkRat 49977207 312500) (mkRat 1093 5000) 160)],
  ElementData.mk 65 ['T', 'b'] (mkRat 3178507 20000) [(159, IsotopeData.mk (mkRat 1589253547 10000000) (mkRat 1 1) 159)],
  ElementData.mk 66 ['D', 'y'] (mkRat 325 2) [(156, IsotopeData.mk (mkRat 1559242847 10000000) (mkRat 7 12500) 156), (158, IsotopeData.mk (mkRat 1579244159 10000000) (mkRat 19 20000) 158), (160, IsotopeData.mk (mkRat 799626023 5000000) (mkRat 2329 100000) 160), (161, IsotopeData.mk (mkRat 321853881 2000000) (mkRat 18889 100000) 161), (162, IsotopeData.mk (mkRat 202408507 1250000) (mkRat 1019 4000) 162), (163, IsotopeData.mk (mkRat 1629287383 10000000) (mkRat 778 3125) 163), (164, IsotopeData.mk (mkRat 1639291819 10000000) (mkRat 1413 5000) 164)],
  ElementData.mk 67 ['H', 'o'] (mkRat 16493033 100000) [(165, IsotopeData.mk (mkRat 206162911 1250000) (mkRat 1 1) 165)],
  ElementData.mk 68 ['E', 'r'] (mkRat 167259 1000) [(162, IsotopeData.mk (mkRat 404821971 2500000) (mkRat 139 100000) 162), (164, IsotopeData.mk (mkRat 204911511 1250000) (mkRat 1601 100000) 164), (166, IsotopeData.mk (mkRat 331860599 2000000) (mkRat 33503 100000) 166), (167, IsotopeData.mk (mkRat 834660273 5000000) (mkRat 22869 100000) 167), (168, IsotopeData.mk (mkRat 1679323767 10000000) (mkRat 13489 50000) 168), (170, IsotopeData.mk (mkRat 849677351 5000000) (mkRat 1491 10000) 170)],
  ElementData.mk 69 ['T', 'm'] (mkRat 8446711 50000) [(169, IsotopeData.mk (mkRat 1689342179 10000000) (mkRat 1 1) 169)],
  ElementData.mk 70 ['Y', 'b'] (mkRat 86527 500) [(168, IsotopeData.mk (mkRat 104958681 625000) (mkRat 123 100000) 168), (170, IsotopeData.mk (mkRat 106209229 625000) (mkRat 1491 50000) 170), (171, IsotopeData.mk (mkRat 854681651 5000000) (mkRat 1409 10000) 171), (172, IsotopeData.mk (mkRat 1719363859 10000000) (mkRat 271 1250) 172), (173, IsotopeData.mk (mkRat 1729382151 10000000) (mkRat 16103 100000) 173), (174, IsotopeData.mk (mkRat 217423583 1250000) (mkRat 16013 50000) 174), (176, IsotopeData.mk (mkRat 439856441 2500000) (mkRat 3249 25000) 176)],
  ElementData.mk 71 ['L', 'u'] (mkRat 437417 2500) [(175, IsotopeData.mk (mkRat 218675969 1250000) (mkRat 97401 100000) 175), (176, IsotopeData.mk (mkRat 1759426897 10000000) (mkRat 2599 100000) 176)],
  ElementData.mk 72 ['H', 'f'] (mkRat 17849 100) [(174, IsotopeData.mk (mkRat 1739400461 10000000) (mkRat 1 625) 174), (176, IsotopeData.mk (mkRat 439853519 2500000) (mkRat 263 5000) 176), (177, IsotopeData.mk (mkRat 1769432277 10000000) (mkRat 93 500) 177), (178, IsotopeData.mk (mkRat 889718529 5000000) (mkRat 341 1250) 178), (179, IsotopeData.mk (mkRat 223682279 1250000) (mkRat 681 5000) 179), (180, IsotopeData.mk (mkRat 179946557 1000000) (mkRat 877 2500) 180)],
  ElementData.mk 73 ['T', 'a'] (mkRat 4523697 25000) [(180, IsotopeData.mk (mkRat 224934331 1250000) (mkRat 1201 10000000) 180), (181, IsotopeData.mk (mkRat 904739979 5000000) (mkRat 9998799 10000000) 181)],
  ElementData.mk 74 ['W'] (mkRat 4596 25) [(180, IsotopeData.mk (mkRat 449866777 2500000) (mkRat 3 2500) 180), (182, IsotopeData.mk (mkRat 9097410197 50000000) (mkRat 53 200) 182), (183, IsotopeData.mk (mkRat 731800891 4000000) (mkRat 1431 10000) 183), (184, IsotopeData.mk (mkRat 4598773273 25000000) (mkRat 383 1250) 184), (186, IsotopeData.mk (mkRat 464885907 2500000) (mkRat 2843 10000) 186)],
  ElementData.mk 75 ['R', 'e'] (mkRat 186207 1000) [(185, IsotopeData.mk (mkRat 369905909 2000000) (mkRat 187 500) 185), (187, IsotopeData.mk (mkRat 1869557501 10000000) (mkRat 313 500) 187)],
  ElementData.mk 76 ['O', 's'] (mkRat 19023 100) [(184, IsotopeData.mk (mkRat 367904977 2000000) (mkRat 1 5000) 184), (186, IsotopeData.mk (mkRat 37190767 200000) (mkRat 159 10000) 186), (187, IsotopeData.mk (mkRat 934778737 5000000) (mkRat 49 2500) 187), (188, IsotopeData.mk (mkRat 117472397 625000) (mkRat 331 2500) 188), (189, IsotopeData.mk (mkRat 944790721 5000000) (mkRat 323 2000) 189), (190, IsotopeData.mk (mkRat 1899584437 10000000) (mkRat 1313 5000) 190), (192, IsotopeData.mk (mkRat 191961477 1000000) (mkRat 2039 5000) 192)],
  ElementData.mk 77 ['I', 'r'] (mkRat 192217 1000) [(191, IsotopeData.mk (mkRat 1909605893 10000000) (mkRat 373 1000) 191), (193, IsotopeData.mk (mkRat 60300913 312500) (mkRat 627 1000) 193)],
  ElementData.mk 78 ['P', 't'] (mkRat 48771 250) [(190, IsotopeData.mk (mkRat 1899599297 10000000) (mkRat 3 25000) 190), (192, IsotopeData.mk (mkRat 1919610387 10000000) (mkRat 391 50000) 192), (194, IsotopeData.mk (mkRat 1939626809 10000000) (mkRat 1643 5000) 194), (195, IsotopeData.mk (mkRat 1949647917 10000000) (mkRat 1689 5000) 195), (196, IsotopeData.mk (mkRat 19596495209 100000000) (mkRat 2521 10000) 196), (198, IsotopeData.mk (mkRat 1979678949 10000000) (mkRat 1839 25000) 198)],
  ElementData.mk 79 ['A', 'u'] (mkRat 196966569 1000000) [(197, IsotopeData.mk (mkRat 19696656879 100000000) (mkRat 1 1) 197)],
  ElementData.mk 80 ['H', 'g'] (mkRat 25074 125) [(196, IsotopeData.mk (mkRat 979829163 5000000) (mkRat 3 2000) 196), (198, IsotopeData.mk (mkRat 989833843 5000000) (mkRat 997 10000) 198), (199, IsotopeData.mk (mkRat 621775877 3125000) (mkRat 1687 10000) 199), (200, IsotopeData.mk (mkRat 19996832659 100000000) (mkRat 231 1000) 200), (201, IsotopeData.mk (mkRat 5024257571 25000000) (mkRat 659 5000) 201), (202, IsotopeData.mk (mkRat 1009853217 5000000) (mkRat 1493 5000) 202), (204, IsotopeData.mk (mkRat 10198674699 50000000) (mkRat 687 10000) 204)],
  ElementData.mk 81 ['T', 'l'] (mkRat 1021917 5000) [(203, IsotopeData.mk (mkRat 1014861723 5000000) (mkRat 369 1250) 203), (205, IsotopeData.mk (mkRat 1024872139 5000000) (mkRat 881 1250) 205)],
  ElementData.mk 82 ['P', 'b'] (mkRat 1036 5) [(204, IsotopeData.mk (mkRat 50993261 250000) (mkRat 7 500) 204), (206, IsotopeData.mk (mkRat 2059744657 10000000) (mkRat 241 1000) 206), (207, IsotopeData.mk (mkRat 2069758973 10000000) (mkRat 221 1000) 207), (208, IsotopeData.mk (mkRat 83190661 400000) (mkRat 131 250) 208)],
  ElementData.mk 83 ['B', 'i'] (mkRat 522451 2500) [(209, IsotopeData.mk (mkRat 2089803991 10000000) (mkRat 1 1) 209)],
  ElementData.mk 84 ['P', 'o'] (mkRat 130614 625) [(209, IsotopeData.mk (mkRat 522456077 2500000) (mkRat 1 1) 209)],
  ElementData.mk 85 ['A', 't'] (mkRat 2099871 10000) [(210, IsotopeData.mk (mkRat 2099871479 10000000) (mkRat 1 1) 210)],
  ElementData.mk 86 ['R', 'n'] (mkRat 138761 625) [(222, IsotopeData.mk (mkRat 1110087891 5000000) (mkRat 1 1) 222)],
  ElementData.mk 87 ['F', 'r'] (mkRat 2230197 10000) [(223, IsotopeData.mk (mkRat 27877467 125000) (mkRat 1 1) 223)],
  ElementData.mk 88 ['R', 'a'] (mkRat 1130127 5000) [(226, IsotopeData.mk (mkRat 2260254103 10000000) (mkRat 1 1) 226)],
  ElementData.mk 89 ['A', 'c'] (mkRat 1135139 5000) [(227, IsotopeData.mk (mkRat 2270277523 10000000) (mkRat 1 1) 227)],
  ElementData.mk 90 ['T', 'h'] (mkRat 2320377 10000) [(232, IsotopeData.mk (mkRat 1160190279 5000000) (mkRat 1 1) 232)],
  ElementData.mk 91 ['P', 'a'] (mkRat 5775897 25000) [(231, IsotopeData.mk (mkRat 1155179421 5000000) (mkRat 1 1) 231)],
  ElementData.mk 92 ['U'] (mkRat 23802891 100000) [(234, IsotopeData.mk (mkRat 2340409523 10000000) (mkRat 27 500000) 234), (235, IsotopeData.mk (mkRat 2350439301 10000000) (mkRat 1801 250000) 235), (238, IsotopeData.mk (mkRat 595126971 2500000) (mkRat 496371 500000) 238)],
  ElementData.mk 93 ['N', 'p'] (mkRat 1185241 5000) [(237, IsotopeData.mk (mkRat 296310217 1250000) (mkRat 1 1) 237)],
  ElementData.mk 94 ['P', 'u'] (mkRat 1220321 5000) [(244, IsotopeData.mk (mkRat 2440642053 10000000) (mkRat 1 1) 244)],
  ElementData.mk 95 ['A', 'm'] (mkRat 1215307 5000) [(243, IsotopeData.mk (mkRat 2430613813 10000000) (mkRat 1 1) 243)],
  ElementData.mk 96 ['C', 'm'] (mkRat 154419 625) [(247, IsotopeData.mk (mkRat 2470703541 10000000) (mkRat 1 1) 247)],
  ElementData.mk 97 ['B', 'k'] (mkRat 2470703 10000) [(247, IsotopeData.mk (mkRat 2470703073 10000000) (mkRat 1 1) 247)],
  ElementData.mk 98 ['C', 'f'] (mkRat 627699 2500) [(251, IsotopeData.mk (mkRat 1255397943 5000000) (mkRat 1 1) 251)],
  ElementData.mk 99 ['E', 's'] (mkRat 252083 1000) [(252, IsotopeData.mk (mkRat 12604149 50000) (mkRat 1 1) 252)],
  ElementData.mk 100 ['F', 'm'] (mkRat 2570951 10000) [(257, IsotopeData.mk (mkRat 2570951061 10000000) (mkRat 1 1) 257)],
  ElementData.mk 101 ['M', 'd'] (mkRat 322623 1250) [(258, IsotopeData.mk (mkRat 516196863 2000000) (mkRat 1 1) 258)],
  ElementData.mk 102 ['N', 'o'] (mkRat 259101 1000) [(259, IsotopeData.mk (mkRat 25910103 100000) (mkRat 1 1) 259)],
  ElementData.mk 103 ['L', 'r'] (mkRat 327637 1250) [(262, IsotopeData.mk (mkRat 26210961 100000) (mkRat 1 1) 262)],
  ElementData.mk 104 ['R', 'f'] (mkRat 1335609 5000) [(267, IsotopeData.mk (mkRat 26712179 100000) (mkRat 1 1) 267)],
  ElementData.mk 105 ['D', 'b'] (mkRat 2681257 10000) [(268, IsotopeData.mk (mkRat 26812567 100000) (mkRat 1 1) 268)],
  ElementData.mk 106 ['S', 'g'] (mkRat 2711339 10000) [(271, IsotopeData.mk (mkRat 27113393 100000) (mkRat 1 1) 271)],
  ElementData.mk 107 ['B', 'h'] (mkRat 2721383 10000) [(272, IsotopeData.mk (mkRat 13606913 50000) (mkRat 1 1) 272)],
  ElementData.mk 108 ['H', 's'] (mkRat 2701343 10000) [(270, IsotopeData.mk (mkRat 27013429 100000) (mkRat 1 1) 270)],
  ElementData.mk 109 ['M', 't'] (mkRat 690379 2500) [(276, IsotopeData.mk (mkRat 27615159 100000) (mkRat 1 1) 276)]
]

/-- Abbreviations of common chemical groups (GROUPS of molmass.py),
in source (insertion) order. -/
def GROUPS : List (List Char × List Char) := [
  (['A', 'b', 'u'], ['C', '4', 'H', '7', 'N', 'O']),
  (['A', 'c', 'e', 't'], ['C', '2', 'H', '3', 'O']),
  (['A', 'c', 'm'], ['C', '3', 'H', '6', 'N', 'O']),
  (['A', 'd', 'a', 'o'], ['C', '1', '0', 'H', '1', '5', 'O']),
  (['A', 'd', 'e'], ['C', '5', 'H', '5', 'N', '5']),
  (['A', 'i', 'b'], ['C', '4', 'H', '7', 'N', 'O']),
  (['A', 'l', 'a'], ['C', '3', 'H', '5', 'N', 'O']),
  (['A', 'r', 'g'], ['C', '6', 'H', '1', '2', 'N', '4', 'O']),
  (['A', 'r', 'g', 'p'], ['C', '6', 'H', '1', '1', 'N', '4', 'O']),
  (['A', 's', 'n'], ['C', '4', 'H', '6', 'N', '2', 'O', '2']),
  (['A', 's', 'n', 'p'], ['C', '4', 'H', '5', 'N', '2', 'O', '2']),
  (['A', 's', 'p'], ['C', '4', 'H', '5', 'N', 'O', '3']),
  (['A', 's', 'p', 'p'], ['C', '4', 'H', '4', 'N', 'O', '3']),
  (['A', 's', 'u'], ['C', '8', 'H', '1', '3', 'N', 'O', '3']),
  (['A', 's', 'u', 'p'], ['C', '8', 'H', '1', '2', 'N', 'O', '3']),
  (['B', 'o', 'c'], ['C', '5', 'H', '9', 'O', '2']),
  (['B', 'o', 'm'], ['C', '8', 'H', '9', 'O']),
  (['B', 'p', 'y'], ['C', '1', '0', 'H', '8', 'N', '2']),
  (['B', 'r', 'z'], ['C', '8', 'H', '6', 'B', 'r', 'O', '2']),
  (['B', 'u'], ['C', '4', 'H', '9']),
  (['B', 'u', 'm'], ['C', '5', 'H', '1', '1', 'O']),
  (['B', 'z'], ['C', '7', 'H', '5', 'O']),
  (['B', 'z', 'l'], ['C', '7', 'H', '7']),
  (['B', 'z', 'l', 'o'], ['C', '7', 'H', '7', 'O']),
  (['C', 'h', 'a'], ['C', '9', 'H', '1', '5', 'N', 'O']),
  (['C', 'h', 'x', 'o'], ['C', '6', 'H', '1', '1', 'O']),
  (['C', 'i', 't'], ['C', '6', 'H', '1', '1', 'N', '3', 'O', '2']),
  (['C', 'i', 't', 'p'], ['C', '6', 'H', '1', '0', 'N', '3', 'O', '2']),
  (['C', 'l', 'z'], ['C', '8', 'H', '6', 'C', 'l', 'O', '2']),
  (['C', 'p'], ['C', '5', 'H', '5']),
  (['C', 'y'], ['C', '6', 'H', '1', '1']),
  (['C', 'y', 's'], ['C', '3', 'H', '5', 'N', 'O', 'S']),
  (['C', 'y', 's', 'p'], ['C', '3', 'H', '4', 'N', 'O', 'S']),
  (['C', 'y', 't'], ['C', '4', 'H', '5', 'N', '3', 'O']),
  (['D', 'd', 'e'], ['C', '1', '0', 'H', '1', '3', 'O', '2']),
  (['D', 'n', 'p'], ['C', '6', 'H', '3', 'N', '2', 'O', '4']),
  (['E', 't'], ['C', '2', 'H', '5']),
  (['F', 'm', 'o', 'c'], ['C', '1', '5', 'H', '1', '1', 'O', '2']),
  (['F', 'o', 'r'], ['C', 'H', 'O']),
  (['G', 'l', 'n'], ['C', '5', 'H', '8', 'N', '2', 'O', '2']),
  (['G', 'l', 'n', 'p'], ['C', '5', 'H', '7', 'N', '2', 'O', '2']),
  (['G', 'l', 'p'], ['C', '5', 'H', '5', 'N', 'O', '2']),
  (['G', 'l', 'u'], ['C', '5', 'H', '7', 'N', 'O', '3']),
  (['G', 'l', 'u', 'p'], ['C', '5', 'H', '6', 'N', 'O', '3']),
  (['G', 'l', 'y'], ['C', '2', 'H', '3', 'N', 'O']),
  (['G', 'u', 'a'], ['C', '5', 'H', '5', 'N', '5', 'O']),
  (['H', 'c', 'i'], ['C', '7', 'H', '1', '3', 'N', '3', 'O', '2']),
  (['H', 'c', 'i', 'p'], ['C', '7', 'H', '1', '2', 'N', '3', 'O', '2']),
  (['H', 'i', 's'], ['C', '6', 'H', '7', 'N', '3', 'O']),
  (['H', 'i', 's', 'p'], ['C', '6', 'H', '6', 'N', '3', 'O']),
  (['H', 's', 'e', 'r'], ['C', '4', 'H', '7', 'N', 'O', '2']),
  (['H', 's', 'e', 'r', 'p'], ['C', '4', 'H', '6', 'N', 'O', '2']),
  (['H', 'x'], ['C', '6', 'H', '1', '1']),
  (['H', 'y', 'p'], ['C', '5', 'H', '7', 'N', 'O', '2']),
  (['H', 'y', 'p', 'p'], ['C', '5', 'H', '6', 'N', 'O', '2']),
  (['I', 'l', 'e'], ['C', '6', 'H', '1', '1', 'N', 'O']),
  (['I', 'v', 'd', 'd', 'e'], ['C', '1', '4', 'H', '2', '1', 'O', '2']),
  (['L', 'e', 'u'], ['C', '6', 'H', '1', '1', 'N', 'O']),
  (['L', 'y', 's'], ['C', '6', 'H', '1', '2', 'N', '2', 'O']),
  (['L', 'y', 's', 'p'], ['C', '6', 'H', '1', '1', 'N', '2', 'O']),
  (['M', 'b', 'h'], ['C', '1', '5', 'H', '1', '5', 'O', '2']),
  (['M', 'e'], ['C', 'H', '3']),
  (['M', 'e', 'b', 'z', 'l'], ['C', '8', 'H', '9']),
  (['M', 'e', 'o', 'b', 'z', 'l'], ['C', '8', 'H', '9', 'O']),
  (['M', 'e', 't'], ['C', '5', 'H', '9', 'N', 'O', 'S']),
  (['M', 'm', 't'], ['C', '2', '0', 'H', '1', '7', 'O']),
  (['M', 't', 'c'], ['C', '1', '4', 'H', '1', '9', 'O', '3', 'S']),
  (['M', 't', 'r'], ['C', '1', '0', 'H', '1', '3', 'O', '3', 'S']),
  (['M', 't', 's'], ['C', '9', 'H', '1', '1', 'O', '2', 'S']),
  (['M', 't', 't'], ['C', '2', '0', 'H', '1', '7']),
  (['N', 'l', 'e'], ['C', '6', 'H', '1', '1', 'N', 'O']),
  (['N', 'p', 'y', 's'], ['C', '5', 'H', '3', 'N', '2', 'O', '2', 'S']),
  (['N', 'v', 'a'], ['C', '5', 'H', '9', 'N', 'O']),
  (['O', 'd', 'm', 'a', 'b'], ['C', '2', '0', 'H', '2', '6', 'N', 'O', '3']),
  (['O', 'r', 'n'], ['C', '5', 'H', '1', '0', 'N', '2', 'O']),
  (['O', 'r', 'n', 'p'], ['C', '5', 'H', '9', 'N', '2', 'O']),
  (['P', 'b', 'f'], ['C', '1', '3', 'H', '1', '7', 'O', '3', 'S']),
  (['P', 'e', 'n'], ['C', '5', 'H', '9', 'N', 'O', 'S']),
  (['P', 'e', 'n', 'p'], ['C', '5', 'H', '8', 'N', 'O', 'S']),
  (['P', 'h'], ['C', '6', 'H', '5']),
  (['P', 'h', 'e'], ['C', '9', 'H', '9', 'N', 'O']),
  (['P', 'h', 'e', 'p', 'c', 'l'], ['C', '9', 'H', '8', 'C', 'l', 'N', 'O']),
  (['P', 'h', 'g'], ['C', '8', 'H', '7', 'N', 'O']),
  (['P', 'm', 'c'], ['C', '1', '4', 'H', '1', '9', 'O', '3', 'S']),
  (['P', 'p', 'a'], ['C', '8', 'H', '7', 'O', '2']),
  (['P', 'r', 'o'], ['C', '5', 'H', '7', 'N', 'O']),
  (['P', 'r', 'o', 'p'], ['C', '3', 'H', '7']),
  (['P', 'y'], ['C', '5', 'H', '5', 'N']),
  (['P', 'y', 'r'], ['C', '5', 'H', '5', 'N', 'O', '2']),
  (['S', 'a', 'r'], ['C', '3', 'H', '5', 'N', 'O']),
  (['S', 'e', 'r'], ['C', '3', 'H', '5', 'N', 'O', '2']),
  (['S', 'e', 'r', 'p'], ['C', '3', 'H', '4', 'N', 'O', '2']),
  (['S', 't', 'a'], ['C', '8', 'H', '1', '5', 'N', 'O', '2']),
  (['S', 't', 'a', 'p'], ['C', '8', 'H', '1', '4', 'N', 'O', '2']),
  (['T', 'a', 'c', 'm'], ['C', '6', 'H', '1', '2', 'N', 'O']),
  (['T', 'b', 'd', 'm', 's'], ['C', '6', 'H', '1', '5', 'S', 'i']),
  (['T', 'b', 'u'], ['C', '4', 'H', '9']),
  (['T', 'b', 'u', 'o'], ['C', '4', 'H', '9', 'O']),
  (['T', 'b', 'u', 't', 'h', 'i', 'o'], ['C', '4', 'H', '9', 'S']),
  (['T', 'f', 'a'], ['C', '2', 'F', '3', 'O']),
  (['T', 'h', 'i'], ['C', '7', 'H', '7', 'N', 'O', 'S']),
  (['T', 'h', 'r'], ['C', '4', 'H', '7', 'N', 'O', '2']),
  (['T', 'h', 'r', 'p'], ['C', '4', 'H', '6', 'N', 'O', '2']),
  (['T', 'h', 'y'], ['C', '5', 'H', '6', 'N', '2', 'O', '2']),
  (['T', 'i', 'p', 's'], ['C', '9', 'H', '2', '1', 'S', 'i']),
  (['T', 'm', 's'], ['C', '3', 'H', '9', 'S', 'i']),
  (['T', 'o', 's'], ['C', '7', 'H', '7', 'O', '2', 'S']),
  (['T', 'r', 'p'], ['C', '1', '1', 'H', '1', '0', 'N', '2', 'O']),
  (['T', 'r', 'p', 'p'], ['C', '1', '1', 'H', '9', 'N', '2', 'O']),
  (['T', 'r', 't'], ['C', '1', '9', 'H', '1', '5']),
  (['T', 'y', 'r'], ['C', '9', 'H', '9', 'N', 'O', '2']),
  (['T', 'y', 'r', 'p'], ['C', '9', 'H', '8', 'N', 'O', '2']),
  (['U', 'r', 'a'], ['C', '4', 'H', '4', 'N', '2', 'O', '2']),
  (['V', 'a', 'l'], ['C', '5', 'H', '9', 'N', 'O']),
  (['V', 'a', 'l', 'o', 'h'], ['C', '5', 'H', '9', 'N', 'O', '2']),
  (['V', 'a', 'l', 'o', 'h', 'p'], ['C', '5', 'H', '8', 'N', 'O', '2']),
  (['X', 'a', 'n'], ['C', '1', '3', 'H', '9', 'O'])
]

/-- AMINOACIDS table of molmass.py, in source order. -/
def AMINOACIDS : List (List Char × List Char) := [
  (['G'], ['C', '2', 'H', '3', 'N', 'O']),
  (['P'], ['C', '5', 'H', '7', 'N', 'O']),
  (['A'], ['C', '3', 'H', '5', 'N', 'O']),
  (['V'], ['C', '5', 'H', '9', 'N', 'O']),
  (['L'], ['C', '6', 'H', '1', '1', 'N', 'O']),
  (['I'], ['C', '6', 'H', '1', '1', 'N', 'O']),
  (['M'], ['C', '5', 'H', '9', 'N', 'O', 'S']),
  (['C'], ['C', '3', 'H', '5', 'N', 'O', 'S']),
  (['F'], ['C', '9', 'H', '9', 'N', 'O']),
  (['Y'], ['C', '9', 'H', '9', 'N', 'O', '2']),
  (['W'], ['C', '1', '1', 'H', '1', '0', 'N', '2', 'O']),
  (['H'], ['C', '6', 'H', '7', 'N', '3', 'O']),
  (['K'], ['C', '6', 'H', '1', '2', 'N', '2', 'O']),
  (['R'], ['C', '6', 'H', '1', '2', 'N', '4', 'O']),
  (['Q'], ['C', '5', 'H', '8', 'N', '2', 'O', '2']),
  (['N'], ['C', '4', 'H', '6', 'N', '2', 'O', '2']),
  (['E'], ['C', '5', 'H', '7', 'N', 'O', '3']),
  (['D'], ['C', '4', 'H', '5', 'N', 'O', '3']),
  (['S'], ['C', '3', 'H', '5', 'N', 'O', '2']),
  (['T'], ['C', '4', 'H', '7', 'N', 'O', '2'])
]

/-- DEOXYNUCLEOTIDES table of molmass.py, in source order. -/
def DEOXYNUCLEOTIDES : List (List Char × List Char) := [
  (['A'], ['C', '1', '0', 'H', '1', '2', 'N', '5', 'O', '5', 'P']),
  (['T'], ['C', '1', '0', 'H', '1', '3', 'N', '2', 'O', '7', 'P']),
  (['C'], ['C', '9', 'H', '1', '2', 'N', '3', 'O', '6', 'P']),
  (['G'], ['C', '1', '0', 'H', '1', '2', 'N', '5', 'O', '6', 'P'])
]

/-- NUCLEOTIDES table of molmass.py, in source order. -/
def NUCLEOTIDES : List (List Char × List Char) := [
  (['A'], ['C', '1', '0', 'H', '1', '2', 'N', '5', 'O', '6', 'P']),
  (['U'], ['C', '9', 'H', '1', '1', 'N', '2', 'O', '8', 'P']),
  (['C'], ['C', '9', 'H', '1', '2', 'N', '3', 'O', '7', 'P']),
  (['G'], ['C', '1', '0', 'H', '1', '2', 'N', '5', 'O', '7', 'P'])
]

/-- DEOXYNUCLEOTIDE_COMPLEMENTS table of molmass.py, in source order. -/
def DEOXYNUCLEOTIDE_COMPLEMENTS : List (Char × Char) := [
  ('A', 'T'),
  ('T', 'A'),
  ('C', 'G'),
  ('G', 'C')
]

/-- NUCLEOTIDE_COMPLEMENTS table of molmass.py, in source order. -/
def NUCLEOTIDE_COMPLEMENTS : List (Char × Char) := [
  ('A', 'U'),
  ('U', 'A'),
  ('C', 'G'),
  ('G', 'C')
]



/-- Fuel-driven digit rendering (structural recursion so that the kernel
can evaluate it); `natCharsAux fuel n` is the decimal rendering of `n`
provided `n ≤ fuel`, and `[]` for `n = 0`. -/
def natCharsAux : ℕ → ℕ → List Char
  | 0, _ => []
  | _ + 1, 0 => []
  | fuel + 1, n + 1 =>
      natCharsAux fuel ((n + 1) / 10) ++ [Nat.digitChar ((n + 1) % 10)]

/-- The decimal digit characters of a natural number, most significant first
(Python `f-string` formatting of a nonnegative int). -/
def natChars (n : ℕ) : List Char :=
  if n = 0 then ['0'] else natCharsAux n n

theorem natCharsAux_eq_digits (fuel n : ℕ) (h : n ≤ fuel) :
    natCharsAux fuel n = ((Nat.digits 10 n).map Nat.digitChar).reverse := by
  induction fuel generalizing n with
  | zero =>
      interval_cases n
      simp [natCharsAux, Nat.digits_zero]
  | succ fuel ih =>
      match n with
      | 0 => simp [natCharsAux, Nat.digits_zero]
      | n + 1 =>
          rw [natCharsAux, Nat.digits_def' (by norm_num : 2 ≤ 10) (Nat.succ_pos n)]
          have hle : (n + 1) / 10 ≤ fuel := by
            have := Nat.div_lt_self (Nat.succ_pos n) (by norm_num : 1 < 10)
            omega
          rw [ih _ hle]
          simp

/-- Numeric value of a list of decimal digit characters, most significant
first (Python `int(s)` on a digit string). -/
def charsToNat (s : List Char) : ℕ :=
  s.foldl (fun acc c => 10 * acc + (c.toNat - 48)) 0

theorem charsToNat_append (s t : List Char) :
    charsToNat (s ++ t) = charsToNat s * 10 ^ t.length + charsToNat t := by
  induction t using List.reverseRecOn with
  | nil => simp [charsToNat]
  | append_singleton t c ih =>
      simp only [charsToNat, List.foldl_append, List.foldl_cons, List.foldl_nil,
        ← List.append_assoc] at *
      simp [ih, List.length_append]
      ring

theorem charsToNat_digitChar (d : ℕ) (h : d < 10) :
    charsToNat [Nat.digitChar d] = d := by
  interval_cases d <;> rfl

theorem charsToNat_digitsRev (n : ℕ) :
    charsToNat (((Nat.digits 10 n).map Nat.digitChar).reverse) = n := by
  induction n using Nat.strong_induction_on with
  | _ n ih =>
    rcases Nat.eq_zero_or_pos n with h0 | h0
    · subst h0; simp [Nat.digits_zero, charsToNat]
    · rw [Nat.digits_def' (by norm_num : 2 ≤ 10) h0]
      simp only [List.map_cons, List.reverse_cons]
      rw [charsToNat_append, ih (n / 10) (Nat.div_lt_self h0 (by norm_num)),
        charsToNat_digitChar _ (Nat.mod_lt n (by norm_num))]
      simp
      omega

theorem natChars_eq_digits (n : ℕ) (h : 0 < n) :
    natChars n = ((Nat.digits 10 n).map Nat.digitChar).reverse := by
  rw [natChars, if_neg (Nat.pos_iff_ne_zero.mp h), natCharsAux_eq_digits n n le_rfl]

theorem charsToNat_natChars (n : ℕ) : charsToNat (natChars n) = n := by
  rcases Nat.eq_zero_or_pos n with h | h
  · subst h; rfl
  · rw [natChars_eq_digits n h]
    exact charsToNat_digitsRev n

theorem natChars_ne_nil (n : ℕ) : natChars n ≠ [] := by
  rcases Nat.eq_zero_or_pos n with h | h
  · subst h; simp [natChars]
  · rw [natChars_eq_digits n h]
    simp [Nat.digits_ne_nil_iff_ne_zero, Nat.pos_iff_ne_zero.mp h]

theorem digitChar_isDigit (d : ℕ) (h : d < 10) : (Nat.digitChar d).isDigit := by
  interval_cases d <;> decide

theorem natChars_all_digit (n : ℕ) : ∀ c ∈ natChars n, c.isDigit := by
  rcases Nat.eq_zero_or_pos n with h | h
  · subst h; intro c hc; simp [natChars] at hc; subst hc; decide
  · rw [natChars_eq_digits n h]
    intro c hc
    simp only [List.mem_reverse, List.mem_map] at hc
    obtain ⟨d, hd, rfl⟩ := hc
    exact digitChar_isDigit d (Nat.digits_lt_base (by norm_num) hd)



/-- `ELEMENTS[symbol]` lookup (the `Elements` registry resolves symbols via
its internal dict; symbols are unique). -/
def elementsFind (sym : List Char) : Option ElementData :=
  ELEMENTS.find? (fun e => decide (e.symbol = sym))

/-- `ELECTRON.mass` of elements.py: `5.48579909065e-4`. -/
def electronMass : Rat := mkRat 548579909065 1000000000000000

/-- `Element.nominalmass` of elements.py: mass number of the isotope with
maximal abundance — the fold keeps the first strict maximum in table
order, starting from abundance 0. -/
def nominalmass (e : ElementData) : ℕ :=
  (e.isotopes.foldl
    (fun acc kv => if kv.2.abundance > acc.2 then (kv.1, kv.2.abundance) else acc)
    (0, 0)).1

/-- `'+'` or `'-'` (the regex class `[+-]`). -/
def isSignChar (c : Char) : Bool := c = '+' || c = '-'

/-- `']'` or `'_'` (the regex class `[\]_]`). -/
def isDelimChar (c : Char) : Bool := c = ']' || c = '_'

/-- Model of the `re` anchor `$` for patterns whose characters cannot be a
newline: `$` matches at the end of the string or just before one trailing
newline, so an end-anchored search on `s` is a strict-end search on
`chopNl s`. -/
def chopNl (s : List Char) : List Char :=
  if s.getLast? = some '\n' then s.dropLast else s

/-- Split `s` into `(pre, suf)` where `suf` is the maximal suffix whose
characters satisfy `p`. -/
def spanEnd (p : Char → Bool) (s : List Char) : List Char × List Char :=
  ((s.reverse.dropWhile p).reverse, (s.reverse.takeWhile p).reverse)

/-- Everything before the last occurrence of `c` (Python
`s.rsplit(c, 1)[0]`); `s` itself if `c` does not occur. -/
def takeBeforeLast (c : Char) (s : List Char) : List Char :=
  match s.reverse.dropWhile (fun x => decide (x ≠ c)) with
  | [] => s
  | _ :: rest => rest.reverse

/-- Python `s.strip(chars)`: remove leading and trailing characters that
occur in `chars`. -/
def stripChars (s strip : List Char) : List Char :=
  ((s.dropWhile (fun c => strip.contains c)).reverse.dropWhile
    (fun c => strip.contains c)).reverse

/-- `int(m_sign + m_count)`: Python accepts exactly one leading sign
character; on a longer sign run (e.g. `'+-2'`) `int` raises `ValueError`. -/
def pyIntSigned (signs digits : List Char) : Except PyErr Int :=
  match signs with
  | ['+'] => .ok ((charsToNat digits : ℕ) : Int)
  | ['-'] => .ok (-((charsToNat digits : ℕ) : Int))
  | _ => .error (.valueError (String.toList "invalid literal for int"))

/-- The suffix-stripping part of `split_charge` once a match was found:
dispatch on the matched delimiter group (`none` models the empty optional
group of the second regex), then remove redundant enclosing brackets. -/
def applyDelim (formula : List Char) (delim : Option Char) (signs : List Char) :
    List Char :=
  let f : List Char :=
    match delim with
    | some '_' => takeBeforeLast '_' formula
    | some ']' => takeBeforeLast ']' formula ++ [']']
    | some _ => formula
    | none => stripChars formula signs
  if f.head? = some '[' ∧ f.getLast? = some ']' then (f.drop 1).dropLast else f

/-- `split_charge` of molmass.py: strip a trailing charge suffix.
First `re.search(r'([\]_])([0-9]{1,})([+-]{1,})$', formula)` is tried
(delimiter, digit run, sign run anchored at `$`); on failure
`re.search(r'([\]_]?)([+-]{1,})$', formula)`.  Because the three character
classes are disjoint, an anchored match decomposes uniquely into the
maximal sign suffix, the maximal digit run before it, and the delimiter. -/
def split_charge (formula : List Char) : Except PyErr (List Char × Int) :=
  let t := chopNl formula
  let s1 := spanEnd isSignChar t
  if s1.2 = [] then .ok (formula, 0)
  else
    let s2 := spanEnd Char.isDigit s1.1
    let m1 : Option Char :=
      if s2.2 ≠ [] then
        match s2.1.getLast? with
        | some d => if isDelimChar d then some d else none
        | none => none
      else none
    match m1 with
    | some d =>
        match pyIntSigned s1.2 s2.2 with
        | .error e => .error e
        | .ok charge => .ok (applyDelim formula (some d) s1.2, charge)
    | none =>
        let delim : Option Char :=
          match s1.1.getLast? with
          | some c => if isDelimChar c then some c else none
          | none => none
        let charge : Int :=
          s1.2.foldl (fun acc c => if c = '+' then acc + 1 else acc - 1) 0
        .ok (applyDelim formula delim s1.2, charge)

/-- `format_charge` of molmass.py. -/
def format_charge (charge : Int) (pre : List Char) : List Char :=
  if charge = 0 then ['0']
  else
    let pre' := if pre ≠ [] ∧ charge.natAbs ≤ 1 then [] else pre
    let sign : List Char := if charge > 0 then ['+'] else ['-']
    let count : List Char := if 1 < charge.natAbs then natChars charge.natAbs else []
    pre' ++ count ++ sign

/-- `join_charge` of molmass.py: append a nonzero charge, wrapping the
formula in square brackets when no separator is given. -/
def join_charge (formula : List Char) (charge : Int) (sep : List Char) :
    List Char :=
  if charge ≠ 0 then
    if sep ≠ [] then formula ++ sep ++ format_charge charge []
    else ['['] ++ formula ++ [']'] ++ format_charge charge []
  else formula

example : split_charge (String.toList "Formula+") = .ok (String.toList "Formula", 1) := by decide
example : split_charge (String.toList "[Formula]2+") = .ok (String.toList "Formula", 2) := by decide
example : split_charge (String.toList "[[Formula]]2-") = .ok (String.toList "[Formula]", -2) := by decide
example : split_charge (String.toList "Formula_2-") = .ok (String.toList "Formula", -2) := by decide
example : split_charge (String.toList "Formula+-") = .ok (String.toList "Formula", 0) := by decide
example : split_charge (String.toList "Formul+a+") = .ok (String.toList "Formul+a", 1) := by decide
example : split_charge (String.toList "SO4_2-") = .ok (String.toList "SO4", -2) := by decide
example : join_charge (String.toList "Formula") 2 [] = String.toList "[Formula]2+" := by decide
example : join_charge (String.toList "Formula") (-2) ['_'] = String.toList "Formula_2-" := by decide

theorem takeWhile_eq_nil_of_head {p : Char → Bool} {s : List Char}
    (h : ∀ x, s.head? = some x → p x = false) : s.takeWhile p = [] := by
  cases s with
  | nil => rfl
  | cons a l => simp [List.takeWhile_cons, h a rfl]

theorem dropWhile_eq_self_of_head {p : Char → Bool} {s : List Char}
    (h : ∀ x, s.head? = some x → p x = false) : s.dropWhile p = s := by
  cases s with
  | nil => rfl
  | cons a l => simp [List.dropWhile_cons, h a rfl]

theorem takeWhile_all_append {p : Char → Bool} {l : List Char}
    (h : ∀ c ∈ l, p c = true) (l2 : List Char) :
    (l ++ l2).takeWhile p = l ++ l2.takeWhile p := by
  induction l with
  | nil => simp
  | cons a t ih =>
      simp only [List.cons_append, List.takeWhile_cons, h a (List.mem_cons_self a t)]
      rw [ih (fun c hc => h c (List.mem_cons_of_mem a hc))]
      simp

theorem dropWhile_all_append {p : Char → Bool} {l : List Char}
    (h : ∀ c ∈ l, p c = true) (l2 : List Char) :
    (l ++ l2).dropWhile p = l2.dropWhile p := by
  induction l with
  | nil => simp
  | cons a t ih =>
      simp only [List.cons_append, List.dropWhile_cons, h a (List.mem_cons_self a t)]
      rw [ih (fun c hc => h c (List.mem_cons_of_mem a hc))]
      simp

theorem spanEnd_no_suffix {p : Char → Bool} {s : List Char}
    (h : ∀ x, s.getLast? = some x → p x = false) : spanEnd p s = (s, []) := by
  unfold spanEnd
  have hh : ∀ x, s.reverse.head? = some x → p x = false := by
    intro x hx
    apply h
    rwa [List.head?_reverse] at hx
  rw [takeWhile_eq_nil_of_head hh, dropWhile_eq_self_of_head hh]
  simp

theorem spanEnd_append {p : Char → Bool} {pre suf : List Char}
    (hsuf : ∀ c ∈ suf, p c = true)
    (hpre : ∀ x, pre.getLast? = some x → p x = false) :
    spanEnd p (pre ++ suf) = (pre, suf) := by
  unfold spanEnd
  rw [List.reverse_append]
  have h1 : ∀ c ∈ suf.reverse, p c = true := by
    intro c hc
    exact hsuf c (List.mem_reverse.mp hc)
  rw [takeWhile_all_append h1, dropWhile_all_append h1]
  have hh : ∀ x, pre.reverse.head? = some x → p x = false := by
    intro x hx
    apply hpre
    rwa [List.head?_reverse] at hx
  rw [takeWhile_eq_nil_of_head hh, dropWhile_eq_self_of_head hh]
  simp

theorem takeBeforeLast_append {c : Char} {pre suf : List Char}
    (h : c ∉ suf) : takeBeforeLast c (pre ++ c :: suf) = pre := by
  unfold takeBeforeLast
  rw [List.reverse_append, List.reverse_cons]
  have h1 : ∀ x ∈ suf.reverse, (decide (x ≠ c)) = true := by
    intro x hx
    have : x ∈ suf := List.mem_reverse.mp hx
    simp only [decide_eq_true_eq]
    intro hxc
    exact h (hxc ▸ this)
  rw [List.append_assoc, dropWhile_all_append h1]
  simp [List.dropWhile_cons]

theorem isDigit_not_sign {c : Char} (h : c.isDigit = true) : isSignChar c = false := by
  unfold isSignChar
  by_contra hc
  simp only [Bool.not_eq_false, Bool.or_eq_true, decide_eq_true_eq] at hc
  rcases hc with rfl | rfl <;> exact absurd h (by decide)

theorem chopNl_eq_self {s : List Char}
    (h : ∀ x, s.getLast? = some x → x ≠ '\n') : chopNl s = s := by
  unfold chopNl
  cases hl : s.getLast? with
  | none => simp [hl]
  | some x =>
      have := h x hl
      simp [hl, this]

theorem drop_dropLast_wrap (f : List Char) :
    ((['['] ++ f ++ [']']).drop 1).dropLast = f := by
  have h1 : (['['] ++ f ++ [']']).drop 1 = f ++ [']'] := by simp
  rw [h1, List.dropLast_concat]

theorem getLast?_mem_of_eq {α : Type} {l : List α} {x : α}
    (h : l.getLast? = some x) : x ∈ l := by
  obtain ⟨hne, rfl⟩ := List.mem_getLast?_eq_getLast (Option.mem_def.mpr h)
  exact List.getLast_mem hne

/-- `format_charge c ''` for nonzero charge: optional magnitude, then sign. -/
theorem format_charge_eq (c : Int) (hc : c ≠ 0) :
    format_charge c [] =
      (if 1 < c.natAbs then natChars c.natAbs else []) ++
        [if c > 0 then '+' else '-'] := by
  rw [format_charge, if_neg hc]
  by_cases hb : 1 < c.natAbs <;> by_cases hp : c > 0 <;> simp [hb, hp]

theorem split_charge_join (f : List Char) (c : Int) (hc : c ≠ 0) :
    split_charge (join_charge f c []) = .ok (f, c) := by
  have hj : join_charge f c [] = ['['] ++ f ++ [']'] ++ format_charge c [] := by
    simp [join_charge, hc]
  set s : Char := if c > 0 then '+' else '-' with hs
  have hsign : isSignChar s = true := by
    by_cases hp : c > 0 <;> simp [hs, hp, isSignChar]
  have hnotnl : s ≠ '\n' := by
    by_cases hp : c > 0 <;> simp [hs, hp]
  rw [hj, format_charge_eq c hc]
  by_cases hb : 1 < c.natAbs
  · -- magnitude rendered: regex 1 matches
    rw [if_pos hb]
    set count := natChars c.natAbs with hcount
    have hassoc : ['['] ++ f ++ [']'] ++ (count ++ [s]) =
        (['['] ++ f ++ [']'] ++ count) ++ [s] := by simp
    rw [hassoc]
    have hchop : chopNl ((['['] ++ f ++ [']'] ++ count) ++ [s]) =
        (['['] ++ f ++ [']'] ++ count) ++ [s] := by
      apply chopNl_eq_self
      intro x hx
      rw [List.getLast?_append_of_ne_nil _ (by simp)] at hx
      simp only [List.getLast?_singleton, Option.some.injEq] at hx
      subst hx
      exact hnotnl
    have hspan1 : spanEnd isSignChar ((['['] ++ f ++ [']'] ++ count) ++ [s]) =
        (['['] ++ f ++ [']'] ++ count, [s]) := by
      apply spanEnd_append
      · intro x hx
        simp only [List.mem_singleton] at hx
        subst hx
        exact hsign
      · intro x hx
        rw [List.getLast?_append_of_ne_nil _ (natChars_ne_nil c.natAbs)] at hx
        exact isDigit_not_sign (natChars_all_digit _ _ (getLast?_mem_of_eq hx))
    have hspan2 : spanEnd Char.isDigit (['['] ++ f ++ [']'] ++ count) =
        (['['] ++ f ++ [']'], count) := by
      have hassoc2 : ['['] ++ f ++ [']'] ++ count = (['['] ++ f ++ [']']) ++ count := by
        simp
      rw [hassoc2]
      apply spanEnd_append
      · exact natChars_all_digit c.natAbs
      · intro x hx
        rw [List.getLast?_append_of_ne_nil _ (by simp)] at hx
        simp only [List.getLast?_singleton, Option.some.injEq] at hx
        subst hx
        decide
    have hlast2 : (['['] ++ f ++ [']']).getLast? = some ']' := by
      rw [List.getLast?_append_of_ne_nil _ (by simp)]
      rfl
    have hint : pyIntSigned [s] count = .ok c := by
      by_cases hp : c > 0
      · simp only [hs, hp, if_pos]
        rw [pyIntSigned]
        simp only [hcount, charsToNat_natChars]
        congr 1
        omega
      · have hne : (if c > 0 then '+' else '-') = '-' := by simp [hp]
        simp only [hs, hne]
        rw [pyIntSigned]
        simp only [hcount, charsToNat_natChars]
        congr 1
        omega
    have hdelim : applyDelim ((['['] ++ f ++ [']'] ++ count) ++ [s]) (some ']') [s] = f := by
      rw [applyDelim]
      have hrw : (['['] ++ f ++ [']'] ++ count) ++ [s] =
          (['['] ++ f) ++ ']' :: (count ++ [s]) := by simp
      have hnm : ']' ∉ count ++ [s] := by
        intro hmem
        rcases List.mem_append.mp hmem with hm | hm
        · have := natChars_all_digit c.natAbs _ hm
          exact absurd this (by decide)
        · simp only [List.mem_singleton] at hm
          by_cases hp : c > 0 <;> simp [hs, hp] at hm
      rw [hrw, takeBeforeLast_append hnm]
      have hh : ((['['] ++ f) ++ [']']).head? = some '[' := by simp
      have hl : ((['['] ++ f) ++ [']']).getLast? = some ']' := by
        rw [List.getLast?_append_of_ne_nil _ (by simp)]
        rfl
      rw [if_pos ⟨hh, hl⟩]
      have hx2 : (['['] ++ f) ++ [']'] = ['['] ++ f ++ [']'] := by simp
      rw [hx2, drop_dropLast_wrap]
    rw [split_charge, hchop, hspan1]
    rw [if_neg (by simp)]
    simp only [hspan2]
    rw [if_pos (natChars_ne_nil c.natAbs), hlast2]
    simp only [isDelimChar]
    rw [if_pos (by decide)]
    simp only [hint, hdelim]
  · -- magnitude 1: regex 1 has no digits, regex 2 matches
    rw [if_neg hb]
    simp only [List.nil_append]
    have hassoc : ['['] ++ f ++ [']'] ++ [s] = (['['] ++ f ++ [']']) ++ [s] := by simp
    rw [hassoc]
    have hchop : chopNl ((['['] ++ f ++ [']']) ++ [s]) = (['['] ++ f ++ [']']) ++ [s] := by
      apply chopNl_eq_self
      intro x hx
      rw [List.getLast?_append_of_ne_nil _ (by simp)] at hx
      simp only [List.getLast?_singleton, Option.some.injEq] at hx
      subst hx
      exact hnotnl
    have hspan1 : spanEnd isSignChar ((['['] ++ f ++ [']']) ++ [s]) =
        (['['] ++ f ++ [']'], [s]) := by
      apply spanEnd_append
      · intro x hx
        simp only [List.mem_singleton] at hx
        subst hx
        exact hsign
      · intro x hx
        rw [List.getLast?_append_of_ne_nil _ (by simp)] at hx
        simp only [List.getLast?_singleton, Option.some.injEq] at hx
        subst hx
        decide
    have hspan2 : spanEnd Char.isDigit (['['] ++ f ++ [']']) =
        (['['] ++ f ++ [']'], []) := by
      apply spanEnd_no_suffix
      intro x hx
      rw [List.getLast?_append_of_ne_nil _ (by simp)] at hx
      simp only [List.getLast?_singleton, Option.some.injEq] at hx
      subst hx
      decide
    have hlast2 : (['['] ++ f ++ [']']).getLast? = some ']' := by
      rw [List.getLast?_append_of_ne_nil _ (by simp)]
      rfl
    have hfold : [s].foldl (fun acc c => if c = '+' then acc + 1 else acc - 1) (0 : Int) = c := by
      by_cases hp : c > 0
      · simp only [hs, hp, if_pos, List.foldl_cons, List.foldl_nil, if_pos rfl]
        omega
      · have hne : (if c > 0 then '+' else '-') = '-' := by simp [hp]
        simp only [hs, hne, List.foldl_cons, List.foldl_nil]
        rw [if_neg (by decide)]
        omega
    have hdelim : applyDelim ((['['] ++ f ++ [']']) ++ [s]) (some ']') [s] = f := by
      rw [applyDelim]
      have hrw : (['['] ++ f ++ [']']) ++ [s] = (['['] ++ f) ++ ']' :: [s] := by simp
      have hnm : ']' ∉ [s] := by
        intro hmem
        simp only [List.mem_singleton] at hmem
        by_cases hp : c > 0 <;> simp [hs, hp] at hmem
      rw [hrw, takeBeforeLast_append hnm]
      have hh : ((['['] ++ f) ++ [']']).head? = some '[' := by simp
      have hl : ((['['] ++ f) ++ [']']).getLast? = some ']' := by
        rw [List.getLast?_append_of_ne_nil _ (by simp)]
        rfl
      rw [if_pos ⟨hh, hl⟩]
      have hx2 : (['['] ++ f) ++ [']'] = ['['] ++ f ++ [']'] := by simp
      rw [hx2, drop_dropLast_wrap]
    rw [split_charge, hchop, hspan1]
    rw [if_neg (by simp)]
    simp only [hspan2]
    rw [if_neg (by simp), hlast2]
    simp only [isDelimChar]
    rw [if_pos (by decide)]
    simp only [hfold, hdelim]

/-- Does the string end with a `'+'` or `'-'` character? -/
def endsWithSign (s : List Char) : Bool :=
  match s.getLast? with
  | some x => isSignChar x
  | none => false

/-- C10 (amended): for every string `f` that does not end in `'+'` or `'-'`
— also after discounting a single trailing newline, since Python's `$`
matches just before one (the amendment the counterexample forces) — and
every integer `c`, `split_charge (join_charge f c)` returns exactly
`(f, c)`; in particular the square brackets `join_charge` wraps around `f`
for nonzero `c` are stripped again by `split_charge`, also when `f` itself
already begins with `'['` and ends with `']'`. -/
theorem C10_join_split_roundtrip (f : List Char) (c : Int)
    (h : endsWithSign (chopNl f) = false) :
    split_charge (join_charge f c []) = .ok (f, c) := by
  by_cases hc : c = 0
  · subst hc
    have hj : join_charge f 0 [] = f := by simp [join_charge]
    have hsp : spanEnd isSignChar (chopNl f) = (chopNl f, []) := by
      apply spanEnd_no_suffix
      intro x hx
      unfold endsWithSign at h
      rw [hx] at h
      exact h
    rw [hj, split_charge, hsp]
    simp
  · exact split_charge_join f c hc

/-- C10 witness: the amended round trip evaluated at `f = "[X]"`, `c = -2`
(a bracketed formula, exercising the bracket-stripping path). -/
theorem C10_join_split_roundtrip_witness :
    endsWithSign (chopNl (String.toList "[X]")) = false ∧
      split_charge (join_charge (String.toList "[X]") (-2) []) =
        .ok (String.toList "[X]", -2) :=
  ⟨by decide, C10_join_split_roundtrip (String.toList "[X]") (-2) (by decide)⟩

/-- C10 counterexample: the claim as stated fails for `f = "A+\n"` (which
does not end in `'+'` or `'-'`) and `c = 0`: `join_charge` returns `f`
unchanged, but Python's `$` matches before the trailing newline, so
`split_charge` reports charge `1` instead of `0`. -/
theorem C10_counterexample :
    endsWithSign (String.toList "A+\n") = false ∧
      join_charge (String.toList "A+\n") 0 [] = String.toList "A+\n" ∧
      split_charge (join_charge (String.toList "A+\n") 0 []) =
        .ok (String.toList "A+\n", 1) ∧
      split_charge (join_charge (String.toList "A+\n") 0 []) ≠
        .ok (String.toList "A+\n", 0) := by
  refine ⟨by decide, by decide, by decide, by decide⟩

/-- The element map produced by parsing: an insertion-ordered dict from
element symbol to an insertion-ordered dict from isotope selector
(0 = natural distribution) to count. -/
abbrev ElemMap := List (List Char × List (ℕ × ℕ))

/-- Two-level lookup in an element map. -/
def lookup2 (E : ElemMap) (sym : List Char) (iso : ℕ) : Option ℕ :=
  match alistGet E sym with
  | some inner => alistGet inner iso
  | none => none

/-- The accumulation step of the parser:
`elements[ele][iso] += number`, creating missing dicts/keys. -/
def insertCount (E : ElemMap) (sym : List Char) (iso number : ℕ) : ElemMap :=
  match alistGet E sym with
  | some inner =>
      match alistGet inner iso with
      | some old => alistSet E sym (alistSet inner iso (old + number))
      | none => alistSet E sym (alistSet inner iso number)
  | none => E ++ [(sym, [(iso, number)])]

/-- `set('([{<123456789ABCDEFGHIKLMNOPRSTUVWXYZ')` — characters allowed at
position 0 of a formula (note: no `J`, no `Q`, no `0`). -/
def validFirstChars : List Char :=
  String.toList "([\x7b<123456789ABCDEFGHIKLMNOPRSTUVWXYZ"

/-- The full valid character set of the parser (the first set extended by
`]})>0abcdefghiklmnoprstuy`). -/
def validChars : List Char :=
  validFirstChars ++ String.toList "]\x7d)>0abcdefghiklmnoprstuy"

/-- Opening brackets `'([{<'`. -/
def openBrackets : List Char := String.toList "([\x7b<"

/-- Closing brackets `')]}>'`. -/
def closeBrackets : List Char := String.toList ")]\x7d>"

/-- Head of the multiplier stack (`counts[level]`); the stack is never
empty (it starts as `[1]` and popping below one entry is an error), so the
default is never taken. -/
def countsTop (counts : List ℕ) : ℕ := counts.headD 0

theorem length_dropWhile_le' (p : Char → Bool) (l : List Char) :
    (l.dropWhile p).length ≤ l.length := by
  induction l with
  | nil => simp
  | cons a t ih => by_cases h : p a <;> simp [List.dropWhile_cons, h] <;> omega

/-- The right-to-left parsing loop of `Formula._elements`.  The second
argument is the unread part of the formula in reverse order (the loop of
the source walks the index `i` from the end to the start); the remaining
arguments are the loop state: the accumulated `elements` dict, the pending
lowercase letter `ele`, the pending number `num`, and the parenthesis
multiplier stack `counts` whose head is `counts[level]`.

Differences of representation, not of behaviour: the digit runs the source
consumes by moving `i` inside the loop body are consumed here with
`takeWhile`/`dropWhile`; the multiplier list indexed by `level` is a stack
(the source always overwrites `counts[level]` when the level is entered, so
stale entries above the current level are dead); the `fuel` argument only
makes the recursion structural so the kernel can evaluate it — every step
consumes at least one character of the input, so the input length supplied
by `parseElements` always suffices and the fuel-exhaustion branch is
unreachable.  The two branches marked unreachable are guarded by the
first-character precheck of `parseElements`. -/
def parseRev : ℕ → List Char → ElemMap → List Char → ℕ → List ℕ →
    Except PyErr ElemMap
  | _, [], elements, _, num, counts =>
      if num ≠ 0 then
        .error (.formulaError (String.toList "number preceding formula"))
      else if counts.length ≠ 1 then
        .error (.formulaError (String.toList "missing opening parenthesis"))
      else if elements.isEmpty then
        .error (.formulaError (String.toList "invalid formula"))
      else .ok elements
  | 0, _ :: _, _, _, _, _ => -- unreachable for fuel ≥ input length
      .error (.formulaError (String.toList "fuel exhausted"))
  | fuel + 1, c :: rest, elements, ele, num, counts =>
      if ¬ validChars.contains c then
        .error (.formulaError (String.toList "unexpected character"))
      else if openBrackets.contains c then
        match counts with
        | _ :: top2 :: more =>
            if num ≠ 0 then
              .error (.formulaError (String.toList "missing closing parenthesis"))
            else parseRev fuel rest elements ele 0 (top2 :: more)
        | _ => .error (.formulaError (String.toList "missing closing parenthesis"))
      else if closeBrackets.contains c then
        let num' := if num = 0 then 1 else num
        parseRev fuel rest elements ele 0 ((num' * countsTop counts) :: counts)
      else if c.isDigit then
        let run := rest.takeWhile Char.isDigit
        let value := charsToNat ((c :: run).reverse)
        if value = 0 then .error (.formulaError (String.toList "count is zero"))
        else parseRev fuel (rest.dropWhile Char.isDigit) elements ele value counts
      else if c.isLower then
        match rest with
        | r :: t =>
            if r.isUpper then parseRev fuel (r :: t) elements [c] num counts
            else .error (.formulaError (String.toList "unexpected character"))
        | [] => -- unreachable: the first character is never lowercase
            .error (.formulaError (String.toList "unexpected character"))
      else if c.isUpper then
        let ele' := c :: ele
        let num' := if num = 0 then 1 else num
        match elementsFind ele' with
        | none => .error (.formulaError (String.toList "unknown symbol"))
        | some e =>
            let digits := rest.takeWhile Char.isDigit
            let rest' := rest.dropWhile Char.isDigit
            -- revert: candidate isotope digits not preceded by an opening
            -- bracket (and not at the very start of the formula) are left
            -- unconsumed; they are a count for the term to the left
            let revert : Bool :=
              (!digits.isEmpty) &&
                (match rest'.head? with
                 | some x => !(openBrackets.contains x)
                 | none => false)
            if revert then
              parseRev fuel rest (insertCount elements ele' 0 (num' * countsTop counts))
                [] 0 counts
            else if digits.isEmpty then
              parseRev fuel rest (insertCount elements ele' 0 (num' * countsTop counts))
                [] 0 counts
            else
              let iso := charsToNat digits.reverse
              if (alistGet e.isotopes iso).isSome then
                parseRev fuel rest' (insertCount elements ele' iso (num' * countsTop counts))
                  [] 0 counts
              else .error (.formulaError (String.toList "unknown isotope"))
      else -- unreachable: validChars only holds the classes above
        .error (.formulaError (String.toList "unexpected character"))

/-- `Formula._elements` of molmass.py: parse a canonical, charge-free
formula string (right-to-left, with a parenthesis-multiplier stack) into
the element map. -/
def parseElements (formula : List Char) : Except PyErr ElemMap :=
  if formula.isEmpty then
    .error (.formulaError (String.toList "empty formula"))
  else if ¬ validFirstChars.contains (formula.headD ' ') then
    .error (.formulaError (String.toList "unexpected character"))
  else parseRev formula.length formula.reverse [] [] 0 [1]

example : parseElements (String.toList "H") = .ok [(['H'], [(0, 1)])] := by decide
example : parseElements (String.toList "[2H]2O") =
    .ok [(['O'], [(0, 1)]), (['H'], [(2, 2)])] := by decide
example : parseElements (String.toList "CuSO4(H2O)5") =
    .ok [(['O'], [(0, 9)]), (['H'], [(0, 10)]), (['S'], [(0, 1)]),
      (['C', 'u'], [(0, 1)])] := by decide
example : parseElements (String.toList "12C") = .ok [(['C'], [(12, 1)])] := by decide
example : parseElements (String.toList "12CC") =
    .ok [(['C'], [(0, 1), (12, 1)])] := by decide
example : parseElements (String.toList "[11C]") =
    .error (.formulaError (String.toList "unknown isotope")) := by decide
example : parseElements (String.toList "H0") =
    .error (.formulaError (String.toList "count is zero")) := by decide
example : parseElements (String.toList "2lC") =
    .error (.formulaError (String.toList "unexpected character")) := by decide
example : parseElements (String.toList "1C") =
    .error (.formulaError (String.toList "unknown isotope")) := by decide
example : parseElements (String.toList "2") =
    .error (.formulaError (String.toList "number preceding formula")) := by decide
example : parseElements (String.toList "()") =
    .error (.formulaError (String.toList "invalid formula")) := by decide
example : parseElements (String.toList "C[H") =
    .error (.formulaError (String.toList "missing closing parenthesis")) := by decide
example : parseElements (String.toList "H)2") =
    .error (.formulaError (String.toList "missing opening parenthesis")) := by decide

theorem char_eq_of_val_toNat {c d : Char} (h : c.val.toNat = d.val.toNat) :
    c = d := by
  apply Char.ext
  apply UInt32.toNat.inj
  exact h

/-- The ten decimal digit characters. -/
def digitChars : List Char := ['0','1','2','3','4','5','6','7','8','9']

theorem isDigit_enum {c : Char} (h : c.isDigit = true) : c ∈ digitChars := by
  simp only [Char.isDigit, ge_iff_le, Bool.and_eq_true, decide_eq_true_eq] at h
  obtain ⟨h1, h2⟩ := h
  have a1 : 48 ≤ c.val.toNat := h1
  have a2 : c.val.toNat ≤ 57 := h2
  have hd : c.val.toNat = 48 ∨ c.val.toNat = 49 ∨ c.val.toNat = 50 ∨
      c.val.toNat = 51 ∨ c.val.toNat = 52 ∨ c.val.toNat = 53 ∨
      c.val.toNat = 54 ∨ c.val.toNat = 55 ∨ c.val.toNat = 56 ∨
      c.val.toNat = 57 := by omega
  rcases hd with h' | h' | h' | h' | h' | h' | h' | h' | h' | h'
  · rw [char_eq_of_val_toNat (show c.val.toNat = ('0' : Char).val.toNat by rw [h']; decide)]; decide
  · rw [char_eq_of_val_toNat (show c.val.toNat = ('1' : Char).val.toNat by rw [h']; decide)]; decide
  · rw [char_eq_of_val_toNat (show c.val.toNat = ('2' : Char).val.toNat by rw [h']; decide)]; decide
  · rw [char_eq_of_val_toNat (show c.val.toNat = ('3' : Char).val.toNat by rw [h']; decide)]; decide
  · rw [char_eq_of_val_toNat (show c.val.toNat = ('4' : Char).val.toNat by rw [h']; decide)]; decide
  · rw [char_eq_of_val_toNat (show c.val.toNat = ('5' : Char).val.toNat by rw [h']; decide)]; decide
  · rw [char_eq_of_val_toNat (show c.val.toNat = ('6' : Char).val.toNat by rw [h']; decide)]; decide
  · rw [char_eq_of_val_toNat (show c.val.toNat = ('7' : Char).val.toNat by rw [h']; decide)]; decide
  · rw [char_eq_of_val_toNat (show c.val.toNat = ('8' : Char).val.toNat by rw [h']; decide)]; decide
  · rw [char_eq_of_val_toNat (show c.val.toNat = ('9' : Char).val.toNat by rw [h']; decide)]; decide

theorem isDigit_facts {c : Char} (h : c.isDigit = true) :
    validChars.contains c = true ∧ openBrackets.contains c = false ∧
      closeBrackets.contains c = false ∧ c.isUpper = false ∧
      c.isLower = false := by
  have hm := isDigit_enum h
  fin_cases hm <;> exact (by decide)

theorem isUpper_not_digit {c : Char} (h : c.isUpper = true) :
    c.isDigit = false := by
  simp only [Char.isUpper, ge_iff_le, Bool.and_eq_true, decide_eq_true_eq] at h
  obtain ⟨h1, h2⟩ := h
  have a1 : 65 ≤ c.val.toNat := h1
  have a2 : c.val.toNat ≤ 90 := h2
  simp only [Char.isDigit, ge_iff_le, Bool.and_eq_true, decide_eq_true_eq,
    Bool.and_eq_false_iff, Bool.not_eq_true]
  right
  rw [decide_eq_false_iff_not]
  exact fun hcon => absurd (show c.val.toNat ≤ 57 from hcon) (by omega)

theorem isUpper_not_lower {c : Char} (h : c.isUpper = true) :
    c.isLower = false := by
  simp only [Char.isUpper, ge_iff_le, Bool.and_eq_true, decide_eq_true_eq] at h
  obtain ⟨h1, h2⟩ := h
  have a2 : c.val.toNat ≤ 90 := h2
  simp only [Char.isLower, ge_iff_le, Bool.and_eq_true, decide_eq_true_eq,
    Bool.and_eq_false_iff, Bool.not_eq_true]
  left
  rw [decide_eq_false_iff_not]
  exact fun hcon => absurd (show (97 : ℕ) ≤ c.val.toNat from hcon) (by omega)

theorem isUpper_not_open {c : Char} (h : c.isUpper = true) :
    openBrackets.contains c = false := by
  by_contra hc
  simp only [Bool.not_eq_false] at hc
  simp [openBrackets] at hc
  rcases hc with rfl | rfl | rfl | rfl <;> exact absurd h (by decide)

theorem isUpper_not_close {c : Char} (h : c.isUpper = true) :
    closeBrackets.contains c = false := by
  by_contra hc
  simp only [Bool.not_eq_false] at hc
  simp [closeBrackets] at hc
  rcases hc with rfl | rfl | rfl | rfl <;> exact absurd h (by decide)

theorem isLower_not_digit {c : Char} (h : c.isLower = true) :
    c.isDigit = false := by
  simp only [Char.isLower, ge_iff_le, Bool.and_eq_true, decide_eq_true_eq] at h
  obtain ⟨h1, h2⟩ := h
  have a1 : 97 ≤ c.val.toNat := h1
  simp only [Char.isDigit, ge_iff_le, Bool.and_eq_true, decide_eq_true_eq,
    Bool.and_eq_false_iff, Bool.not_eq_true]
  right
  rw [decide_eq_false_iff_not]
  exact fun hcon => absurd (show c.val.toNat ≤ 57 from hcon) (by omega)

theorem isLower_not_open {c : Char} (h : c.isLower = true) :
    openBrackets.contains c = false := by
  by_contra hc
  simp only [Bool.not_eq_false] at hc
  simp [openBrackets] at hc
  rcases hc with rfl | rfl | rfl | rfl <;> exact absurd h (by decide)

theorem isLower_not_close {c : Char} (h : c.isLower = true) :
    closeBrackets.contains c = false := by
  by_contra hc
  simp only [Bool.not_eq_false] at hc
  simp [closeBrackets] at hc
  rcases hc with rfl | rfl | rfl | rfl <;> exact absurd h (by decide)

/-- Well-formedness of an element symbol as it appears in the tables:
one uppercase letter, optionally followed by one lowercase letter, all of
which the parser's character sets admit (the first character is even a
valid first character of a formula). -/
def symbolOk (sym : List Char) : Bool :=
  match sym with
  | [u] => u.isUpper && validFirstChars.contains u
  | [u, l] => u.isUpper && validFirstChars.contains u &&
      l.isLower && validChars.contains l
  | _ => false

theorem ELEMENTS_symbolOk : ∀ e ∈ ELEMENTS, symbolOk e.symbol = true := by decide

theorem elementsFind_spec {sym : List Char} {e : ElementData}
    (h : elementsFind sym = some e) : e ∈ ELEMENTS ∧ e.symbol = sym := by
  unfold elementsFind at h
  refine ⟨List.mem_of_find?_eq_some h, ?_⟩
  have := List.find?_some h
  simpa using this

/-- Validity of one isotope-selector entry for element `e`: selector 0
(natural distribution) or a mass number present in the isotope table. -/
def innerOk (e : ElementData) (inner : List (ℕ × ℕ)) : Bool :=
  inner.all (fun ic => ic.1 == 0 || (alistGet e.isotopes ic.1).isSome)

/-- Validity of one element-map entry: known symbol, valid selectors. -/
def entryOk (se : List Char × List (ℕ × ℕ)) : Bool :=
  match elementsFind se.1 with
  | some e => innerOk e se.2
  | none => false

/-- The element map only holds known symbols and valid isotope selectors
(what a successful parse guarantees). -/
def elemMapValid (E : ElemMap) : Bool := E.all entryOk

theorem alistGet_all {α β : Type} [DecidableEq α] {p : α × β → Bool}
    {l : List (α × β)} (hl : l.all p = true) {k : α} {v : β}
    (h : alistGet l k = some v) : p (k, v) = true := by
  induction l with
  | nil => simp [alistGet] at h
  | cons hd tl ih =>
      obtain ⟨a, b⟩ := hd
      simp only [List.all_cons, Bool.and_eq_true] at hl
      rw [alistGet] at h
      by_cases hak : a = k
      · rw [if_pos hak] at h
        obtain rfl := Option.some.inj h
        exact hak ▸ hl.1
      · rw [if_neg hak] at h
        exact ih hl.2 h

theorem alistSet_all {α β : Type} [DecidableEq α] {p : α × β → Bool}
    {l : List (α × β)} (hl : l.all p = true) {k : α} {v : β}
    (hv : p (k, v) = true) : (alistSet l k v).all p = true := by
  induction l with
  | nil => simpa [alistSet]
  | cons hd tl ih =>
      obtain ⟨a, b⟩ := hd
      simp only [List.all_cons, Bool.and_eq_true] at hl
      rw [alistSet]
      by_cases hak : a = k
      · rw [if_pos hak]
        subst hak
        simp only [List.all_cons, Bool.and_eq_true]
        exact ⟨hv, hl.2⟩
      · rw [if_neg hak]
        simp only [List.all_cons, Bool.and_eq_true]
        exact ⟨hl.1, ih hl.2⟩

theorem insertCount_valid {E : ElemMap} {sym : List Char} {iso n : ℕ}
    (hE : elemMapValid E = true) {e : ElementData}
    (he : elementsFind sym = some e)
    (hiso : iso = 0 ∨ (alistGet e.isotopes iso).isSome = true) :
    elemMapValid (insertCount E sym iso n) = true := by
  have hpair : ∀ m : ℕ, (fun ic : ℕ × ℕ =>
      ic.1 == 0 || (alistGet e.isotopes ic.1).isSome) (iso, m) = true := by
    intro m
    rcases hiso with h0 | hsome
    · simp [h0]
    · simp [hsome]
  unfold insertCount
  cases hget : alistGet E sym with
  | none =>
      show elemMapValid (E ++ [(sym, [(iso, n)])]) = true
      unfold elemMapValid at hE ⊢
      rw [List.all_append, hE]
      simp only [List.all_cons, List.all_nil, Bool.and_true, Bool.true_and]
      unfold entryOk
      rw [he]
      unfold innerOk
      simp only [List.all_cons, List.all_nil, Bool.and_true]
      exact hpair n
  | some inner =>
      have hentry : entryOk (sym, inner) = true := alistGet_all hE hget
      show elemMapValid
        (match alistGet inner iso with
         | some old => alistSet E sym (alistSet inner iso (old + n))
         | none => alistSet E sym (alistSet inner iso n)) = true
      unfold entryOk at hentry
      rw [he] at hentry
      have hsetinner : ∀ m : ℕ, entryOk (sym, alistSet inner iso m) = true := by
        intro m
        unfold entryOk
        rw [he]
        exact alistSet_all hentry (hpair m)
      cases hgi : alistGet inner iso with
      | none =>
          show elemMapValid (alistSet E sym (alistSet inner iso n)) = true
          exact alistSet_all hE (hsetinner n)
      | some old =>
          show elemMapValid (alistSet E sym (alistSet inner iso (old + n))) = true
          exact alistSet_all hE (hsetinner (old + n))

theorem err_ne_ok {e : Type} {a : Type} (x : e) (y : a) :
    (Except.error x : Except e a) ≠ .ok y := fun h => Except.noConfusion h

theorem parseRev_nil (fuel : ℕ) (E : ElemMap) (ele : List Char) (num : ℕ)
    (counts : List ℕ) :
    parseRev fuel [] E ele num counts =
      (if num ≠ 0 then
        .error (.formulaError (String.toList "number preceding formula"))
      else if counts.length ≠ 1 then
        .error (.formulaError (String.toList "missing opening parenthesis"))
      else if E.isEmpty then
        .error (.formulaError (String.toList "invalid formula"))
      else .ok E) := by
  cases fuel with
  | zero => rfl
  | succ n => rfl

theorem parseRev_zero_cons (c : Char) (rest : List Char) (E : ElemMap)
    (ele : List Char) (num : ℕ) (counts : List ℕ) :
    parseRev 0 (c :: rest) E ele num counts =
      .error (.formulaError (String.toList "fuel exhausted")) := rfl

theorem parseRev_succ_cons (fuel : ℕ) (c : Char) (rest : List Char)
    (E : ElemMap) (ele : List Char) (num : ℕ) (counts : List ℕ) :
    parseRev (fuel + 1) (c :: rest) E ele num counts =
      (if ¬ validChars.contains c then
        .error (.formulaError (String.toList "unexpected character"))
      else if openBrackets.contains c then
        match counts with
        | _ :: top2 :: more =>
            if num ≠ 0 then
              .error (.formulaError (String.toList "missing closing parenthesis"))
            else parseRev fuel rest E ele 0 (top2 :: more)
        | _ => .error (.formulaError (String.toList "missing closing parenthesis"))
      else if closeBrackets.contains c then
        let num' := if num = 0 then 1 else num
        parseRev fuel rest E ele 0 ((num' * countsTop counts) :: counts)
      else if c.isDigit then
        let run := rest.takeWhile Char.isDigit
        let value := charsToNat ((c :: run).reverse)
        if value = 0 then .error (.formulaError (String.toList "count is zero"))
        else parseRev fuel (rest.dropWhile Char.isDigit) E ele value counts
      else if c.isLower then
        match rest with
        | r :: t =>
            if r.isUpper then parseRev fuel (r :: t) E [c] num counts
            else .error (.formulaError (String.toList "unexpected character"))
        | [] => .error (.formulaError (String.toList "unexpected character"))
      else if c.isUpper then
        let ele' := c :: ele
        let num' := if num = 0 then 1 else num
        match elementsFind ele' with
        | none => .error (.formulaError (String.toList "unknown symbol"))
        | some e =>
            let digits := rest.takeWhile Char.isDigit
            let rest' := rest.dropWhile Char.isDigit
            let revert : Bool :=
              (!digits.isEmpty) &&
                (match rest'.head? with
                 | some x => !(openBrackets.contains x)
                 | none => false)
            if revert then
              parseRev fuel rest (insertCount E ele' 0 (num' * countsTop counts))
                [] 0 counts
            else if digits.isEmpty then
              parseRev fuel rest (insertCount E ele' 0 (num' * countsTop counts))
                [] 0 counts
            else
              let iso := charsToNat digits.reverse
              if (alistGet e.isotopes iso).isSome then
                parseRev fuel rest' (insertCount E ele' iso (num' * countsTop counts))
                  [] 0 counts
              else .error (.formulaError (String.toList "unknown isotope"))
      else
        .error (.formulaError (String.toList "unexpected character"))) := rfl

set_option maxHeartbeats 1600000 in
theorem parseRev_valid : ∀ (fuel : ℕ) (l : List Char) (E : ElemMap)
    (ele : List Char) (num : ℕ) (counts : List ℕ) (E' : ElemMap),
    elemMapValid E = true →
    parseRev fuel l E ele num counts = .ok E' →
    elemMapValid E' = true := by
  intro fuel
  induction fuel with
  | zero =>
      intro l E ele num counts E' hE h
      cases l with
      | nil =>
          rw [parseRev_nil] at h
          split at h
          · exact absurd h (err_ne_ok _ _)
          · split at h
            · exact absurd h (err_ne_ok _ _)
            · split at h
              · exact absurd h (err_ne_ok _ _)
              · obtain rfl := Except.ok.inj h
                exact hE
      | cons c rest =>
          rw [parseRev_zero_cons] at h
          exact absurd h (err_ne_ok _ _)
  | succ fuel ih =>
      intro l E ele num counts E' hE h
      cases l with
      | nil =>
          rw [parseRev_nil] at h
          split at h
          · exact absurd h (err_ne_ok _ _)
          · split at h
            · exact absurd h (err_ne_ok _ _)
            · split at h
              · exact absurd h (err_ne_ok _ _)
              · obtain rfl := Except.ok.inj h
                exact hE
      | cons c rest =>
          rw [parseRev_succ_cons] at h
          dsimp only at h
          split at h
          · exact absurd h (err_ne_ok _ _)
          · split at h
            · -- opening bracket
              split at h
              · split at h
                · exact absurd h (err_ne_ok _ _)
                · exact ih _ _ _ _ _ _ hE h
              · exact absurd h (err_ne_ok _ _)
            · split at h
              · -- closing bracket
                exact ih _ _ _ _ _ _ hE h
              · split at h
                · -- digit
                  split at h
                  · exact absurd h (err_ne_ok _ _)
                  · exact ih _ _ _ _ _ _ hE h
                · split at h
                  · -- lowercase
                    split at h
                    · split at h
                      · exact ih _ _ _ _ _ _ hE h
                      · exact absurd h (err_ne_ok _ _)
                    · exact absurd h (err_ne_ok _ _)
                  · split at h
                    · -- uppercase
                      split at h
                      · exact absurd h (err_ne_ok _ _)
                      · rename_i e he
                        split at h
                        · exact ih _ _ _ _ _ _
                            (insertCount_valid hE he (Or.inl rfl)) h
                        · split at h
                          · exact ih _ _ _ _ _ _
                              (insertCount_valid hE he (Or.inl rfl)) h
                          · split at h
                            · rename_i hsome
                              exact ih _ _ _ _ _ _
                                (insertCount_valid hE he (Or.inr hsome)) h
                            · exact absurd h (err_ne_ok _ _)
                    · exact absurd h (err_ne_ok _ _)

/-- Parse soundness: a successful `Formula._elements` run only produces
known symbols with valid isotope selectors. -/
theorem parseElements_valid {s : List Char} {E : ElemMap}
    (h : parseElements s = .ok E) : elemMapValid E = true := by
  unfold parseElements at h
  split at h
  · exact absurd h (by simp)
  · split at h
    · exact absurd h (by simp)
    · exact parseRev_valid _ _ _ _ _ _ _ (by decide) h

/-- `Formula.mass` inner loop for one element: each (selector, count) entry
contributes the isotope-specific mass when the selector is nonzero, else
the element's standard atomic weight, times the count.  A failed isotope
lookup (Python `KeyError`) yields `none`; parsing rules it out. -/
def elementMassContrib (e : ElementData) : List (ℕ × ℕ) → Option Rat
  | [] => some (mkRat 0 1)
  | (massnumber, count) :: rest =>
      match elementMassContrib e rest with
      | none => none
      | some tail =>
          if massnumber ≠ 0 then
            match alistGet e.isotopes massnumber with
            | some iso => some (qadd (qmul iso.mass (qofNat count)) tail)
            | none => none
          else some (qadd (qmul e.mass (qofNat count)) tail)

/-- `Formula.mass` without the charge correction: iterate the element map
in dict order, looking up each symbol in the periodic table.  The source
accumulates into one running float; reassociating the sum is exact over
the rationals. -/
def massSum : ElemMap → Option Rat
  | [] => some (mkRat 0 1)
  | (sym, inner) :: rest =>
      match elementsFind sym with
      | none => none
      | some e =>
          match elementMassContrib e inner, massSum rest with
          | some cont, some tail => some (qadd cont tail)
          | _, _ => none

/-- `Formula.mass`: the element sum minus `ELECTRON.mass * charge`. -/
def formulaMass (E : ElemMap) (charge : Int) : Option Rat :=
  (massSum E).map (fun r => qsub r (qmul electronMass (qofInt charge)))

/-- The mass the specification ascribes to a single (symbol, selector,
count) entry: isotope mass if the selector is nonzero, else the element's
standard atomic weight, times the count.  (The `none` fallbacks are never
reached on valid maps, which is the only place this definition is used.) -/
def specEntryMass (sym : List Char) (ic : ℕ × ℕ) : Rat :=
  match elementsFind sym with
  | some e =>
      if ic.1 = 0 then e.mass * ic.2
      else
        match alistGet e.isotopes ic.1 with
        | some iso => iso.mass * ic.2
        | none => 0
  | none => 0

/-- The specification's `mass`: an explicit Σ over all entries of the
element map, minus the electron mass times the charge. -/
def specMass (E : ElemMap) (charge : Int) : Rat :=
  (E.map (fun se => (se.2.map (specEntryMass se.1)).sum)).sum
    - electronMass * charge

theorem elementMassContrib_eq {e : ElementData} {sym : List Char}
    (hfind : elementsFind sym = some e) :
    ∀ {inner : List (ℕ × ℕ)}, innerOk e inner = true →
    elementMassContrib e inner = some ((inner.map (specEntryMass sym)).sum) := by
  intro inner
  induction inner with
  | nil => intro _; simp [elementMassContrib, Rat.mkRat_eq_div]
  | cons hd tl ih =>
      intro hv
      obtain ⟨k, cnt⟩ := hd
      simp only [innerOk, List.all_cons, Bool.and_eq_true] at hv
      have htl : innerOk e tl = true := hv.2
      rw [elementMassContrib, ih htl]
      by_cases hk : k = 0
      · subst hk
        simp [specEntryMass, hfind, qadd_eq, qmul_eq, qofNat_eq]
      · have hor : (k == 0 || (alistGet e.isotopes k).isSome) = true := hv.1
        rw [Bool.or_eq_true] at hor
        rcases hor with h0 | hsome
        · exact absurd (by simpa using h0) hk
        · rw [Option.isSome_iff_exists] at hsome
          obtain ⟨iso, hiso⟩ := hsome
          simp [specEntryMass, hfind, hiso, hk, qadd_eq, qmul_eq, qofNat_eq]

theorem massSum_eq : ∀ {E : ElemMap}, elemMapValid E = true →
    massSum E = some ((E.map (fun se => (se.2.map (specEntryMass se.1)).sum)).sum) := by
  intro E
  induction E with
  | nil => intro _; simp [massSum, Rat.mkRat_eq_div]
  | cons hd tl ih =>
      intro hv
      obtain ⟨sym, inner⟩ := hd
      simp only [elemMapValid, List.all_cons, Bool.and_eq_true] at hv
      have hhd : entryOk (sym, inner) = true := hv.1
      unfold entryOk at hhd
      rw [massSum]
      cases hfind : elementsFind sym with
      | none => rw [hfind] at hhd; exact absurd hhd (by simp)
      | some e =>
          rw [hfind] at hhd
          dsimp only at hhd ⊢
          rw [elementMassContrib_eq hfind hhd,
            ih (show elemMapValid tl = true from hv.2)]
          simp [qadd_eq]

/-- C1: for every formula string that parses successfully into element map
`E`, `Formula.mass` equals the sum over all (symbol, isotope-selector,
count) entries of the element map of (the isotope's mass when the selector
is nonzero, else the element's standard atomic weight) times count, minus
the electron mass times the charge; in particular a +1 cation's mass is
the neutral mass minus one electron mass, and a -1 anion's mass is the
neutral mass plus one electron mass. -/
theorem C1_mass_is_spec_sum (s : List Char) (E : ElemMap) (c : Int)
    (h : parseElements s = .ok E) :
    formulaMass E c = some (specMass E c) ∧
      formulaMass E 1 = some (specMass E 0 - electronMass) ∧
      formulaMass E (-1) = some (specMass E 0 + electronMass) := by
  have hv := parseElements_valid h
  have hm := massSum_eq hv
  refine ⟨?_, ?_, ?_⟩ <;>
    simp [formulaMass, hm, specMass, qsub_eq, qmul_eq, qofInt_eq] <;> ring

/-- C1 witness: water parsed from "H2O"; its mass as a -1 anion evaluates
to `2 × 1.007941 + 15.999405 + 5.48579909065e-4` exactly, and by the
theorem the specification sum takes the same value. -/
theorem C1_mass_is_spec_sum_witness :
    parseElements (String.toList "H2O") =
      .ok [(['O'], [(0, 1)]), (['H'], [(0, 2)])] ∧
    formulaMass [(['O'], [(0, 1)]), (['H'], [(0, 2)])] (-1) =
      some (mkRat 18015835579909065 1000000000000000) ∧
    specMass [(['O'], [(0, 1)]), (['H'], [(0, 2)])] (-1) =
      mkRat 18015835579909065 1000000000000000 := by
  have h := C1_mass_is_spec_sum (String.toList "H2O")
      [(['O'], [(0, 1)]), (['H'], [(0, 2)])] (-1) (by decide)
  refine ⟨by decide, by decide, ?_⟩
  have hc : formulaMass [(['O'], [(0, 1)]), (['H'], [(0, 2)])] (-1) =
      some (mkRat 18015835579909065 1000000000000000) := by decide
  rw [h.1] at hc
  exact Option.some.inj hc

/-- Rational negation via `mkRat`. -/
def qneg (a : Rat) : Rat := mkRat (-a.num) a.den

theorem qneg_eq (a : Rat) : qneg a = -a := by
  rw [qneg, Rat.mkRat_eq_div]
  push_cast
  rw [neg_div, Rat.num_div_den]

/-- The `Isotope` value `Formula.isotope` is intended to produce according
to molmass.py and its doctests and test suite: mass, abundance, mass
number, and charge.  Note the shipped elements.py (2021.6.18)
`Isotope.__init__` accepts only (mass, abundance, massnumber), while
molmass.py (2022.12.8) line 732 passes the charge as a fourth positional
argument, so executing `Formula.isotope` against the shipped pairing
raises `TypeError`; this structure and the fold below model the intended
result that the package's own tests assert (including `isotope.charge`). -/
structure MIsotope where
  mass : Rat
  abundance : Rat
  massnumber : ℕ
  charge : Int
  deriving DecidableEq, Repr

/-- Inner loop of `Formula.isotope` for one element: choose the explicit
isotope when the selector is nonzero, else the isotope at the element's
`nominalmass`; accumulate mass and mass number, multiply abundances raised
to the count. -/
def elementIsotopeContrib (e : ElementData) :
    List (ℕ × ℕ) → MIsotope → Option MIsotope
  | [], acc => some acc
  | (massnumber, count) :: rest, acc =>
      match (if massnumber ≠ 0 then alistGet e.isotopes massnumber
             else alistGet e.isotopes (nominalmass e)) with
      | none => none
      | some iso =>
          elementIsotopeContrib e rest
            { mass := qadd acc.mass (qmul iso.mass (qofNat count))
              abundance := qmul acc.abundance (qpow iso.abundance count)
              massnumber := acc.massnumber + iso.massnumber * count
              charge := acc.charge }

/-- Outer loop of `Formula.isotope` over the element map. -/
def isotopeSum : ElemMap → MIsotope → Option MIsotope
  | [], acc => some acc
  | (sym, inner) :: rest, acc =>
      match elementsFind sym with
      | none => none
      | some e =>
          match elementIsotopeContrib e inner acc with
          | none => none
          | some acc2 => isotopeSum rest acc2

/-- `Formula.isotope`: start from
`Isotope(-ELECTRON.mass * charge, 1.0, 0, charge)` and accumulate over the
element map. -/
def formulaIsotope (E : ElemMap) (charge : Int) : Option MIsotope :=
  isotopeSum E
    { mass := qneg (qmul electronMass (qofInt charge))
      abundance := mkRat 1 1
      massnumber := 0
      charge := charge }

/-- The isotope the specification says is chosen for a (symbol, selector)
pair: the explicit isotope when the selector is nonzero, else the
element's most abundant natural isotope.  (The zero fallbacks are never
reached on valid maps.) -/
def specChosen (sym : List Char) (k : ℕ) : IsotopeData :=
  match elementsFind sym with
  | some e =>
      match (if k = 0 then alistGet e.isotopes (nominalmass e)
             else alistGet e.isotopes k) with
      | some iso => iso
      | none => IsotopeData.mk 0 0 0
  | none => IsotopeData.mk 0 0 0

/-- The specification's monoisotopic result: Σ of chosen masses times
counts plus the electron-mass charge correction, Π of chosen abundances
raised to the counts (unaffected by the charge), Σ of chosen mass numbers
times counts, and the charge. -/
def specIsotope (E : ElemMap) (charge : Int) : MIsotope where
  mass := -electronMass * charge +
    (E.map (fun se =>
      (se.2.map (fun ic => (specChosen se.1 ic.1).mass * ic.2)).sum)).sum
  abundance :=
    (E.map (fun se =>
      (se.2.map (fun ic => (specChosen se.1 ic.1).abundance ^ ic.2)).prod)).prod
  massnumber :=
    (E.map (fun se =>
      (se.2.map (fun ic => (specChosen se.1 ic.1).massnumber * ic.2)).sum)).sum
  charge := charge

set_option maxRecDepth 40000 in
/-- Every element of the table has an isotope at its `nominalmass`. -/
theorem nominalmass_isSome :
    ∀ e ∈ ELEMENTS, (alistGet e.isotopes (nominalmass e)).isSome = true := by
  decide

set_option maxRecDepth 40000 in
theorem nominal_abundance_max_bool :
    ELEMENTS.all (fun e => e.isotopes.all (fun kv =>
      match alistGet e.isotopes (nominalmass e) with
      | some iso => decide (kv.2.abundance ≤ iso.abundance)
      | none => false)) = true := by
  decide

/-- The isotope chosen for selector 0 has maximal abundance among the
element's isotopes: `nominalmass` really is the mass number of the most
abundant natural isotope. -/
theorem nominal_abundance_max {e : ElementData} (he : e ∈ ELEMENTS)
    {kv : ℕ × IsotopeData} (hkv : kv ∈ e.isotopes) {iso : IsotopeData}
    (hiso : alistGet e.isotopes (nominalmass e) = some iso) :
    kv.2.abundance ≤ iso.abundance := by
  have h1 := List.all_eq_true.mp nominal_abundance_max_bool e he
  have h2 := List.all_eq_true.mp h1 kv hkv
  rw [hiso] at h2
  exact of_decide_eq_true h2

theorem mkRat_one_eq : mkRat 1 1 = 1 := by
  rw [Rat.mkRat_eq_div]
  norm_num

theorem mkRat_zero_eq : mkRat 0 1 = 0 := by
  rw [Rat.mkRat_eq_div]
  norm_num

theorem elementIsotopeContrib_eq {e : ElementData} {sym : List Char}
    (hfind : elementsFind sym = some e) :
    ∀ (inner : List (ℕ × ℕ)) (acc : MIsotope), innerOk e inner = true →
    elementIsotopeContrib e inner acc = some
      { mass := acc.mass +
          (inner.map (fun ic => (specChosen sym ic.1).mass * ic.2)).sum
        abundance := acc.abundance *
          (inner.map (fun ic => (specChosen sym ic.1).abundance ^ ic.2)).prod
        massnumber := acc.massnumber +
          (inner.map (fun ic => (specChosen sym ic.1).massnumber * ic.2)).sum
        charge := acc.charge } := by
  have heMem := (elementsFind_spec hfind).1
  intro inner
  induction inner with
  | nil => intro acc _; simp [elementIsotopeContrib]
  | cons hd tl ih =>
      intro acc hv
      obtain ⟨k, cnt⟩ := hd
      simp only [innerOk, List.all_cons, Bool.and_eq_true] at hv
      have htl : innerOk e tl = true := hv.2
      by_cases hk : k = 0
      · subst hk
        have hsome := nominalmass_isSome e heMem
        rw [Option.isSome_iff_exists] at hsome
        obtain ⟨iso0, hiso0⟩ := hsome
        rw [elementIsotopeContrib]
        rw [if_neg (by simp)]
        rw [hiso0]
        dsimp only
        rw [ih _ htl]
        have hchosen : specChosen sym 0 = iso0 := by
          unfold specChosen
          rw [hfind]
          simp [hiso0]
        simp only [hchosen, List.map_cons, List.sum_cons, List.prod_cons,
          qadd_eq, qmul_eq, qofNat_eq, qpow_eq, Option.some.injEq,
          MIsotope.mk.injEq]
        refine ⟨by ring, by ring, by ring, trivial⟩
      · have hor : (k == 0 || (alistGet e.isotopes k).isSome) = true := hv.1
        rw [Bool.or_eq_true] at hor
        rcases hor with h0 | hsome
        · exact absurd (by simpa using h0) hk
        · rw [Option.isSome_iff_exists] at hsome
          obtain ⟨iso, hiso⟩ := hsome
          rw [elementIsotopeContrib]
          rw [if_pos (by simpa using hk)]
          rw [hiso]
          dsimp only
          rw [ih _ htl]
          have hchosen : specChosen sym k = iso := by
            unfold specChosen
            rw [hfind]
            simp [hk, hiso]
          simp only [hchosen, List.map_cons, List.sum_cons, List.prod_cons,
            qadd_eq, qmul_eq, qofNat_eq, qpow_eq, Option.some.injEq,
            MIsotope.mk.injEq]
          refine ⟨by ring, by ring, by ring, trivial⟩

theorem isotopeSum_eq : ∀ {E : ElemMap}, elemMapValid E = true →
    ∀ acc : MIsotope, isotopeSum E acc = some
      { mass := acc.mass + (E.map (fun se =>
          (se.2.map (fun ic => (specChosen se.1 ic.1).mass * ic.2)).sum)).sum
        abundance := acc.abundance * (E.map (fun se =>
          (se.2.map (fun ic => (specChosen se.1 ic.1).abundance ^ ic.2)).prod)).prod
        massnumber := acc.massnumber + (E.map (fun se =>
          (se.2.map (fun ic => (specChosen se.1 ic.1).massnumber * ic.2)).sum)).sum
        charge := acc.charge } := by
  intro E
  induction E with
  | nil => intro _ acc; simp [isotopeSum]
  | cons hd tl ih =>
      intro hv acc
      obtain ⟨sym, inner⟩ := hd
      simp only [elemMapValid, List.all_cons, Bool.and_eq_true] at hv
      have hhd : entryOk (sym, inner) = true := hv.1
      unfold entryOk at hhd
      rw [isotopeSum]
      cases hfind : elementsFind sym with
      | none => rw [hfind] at hhd; exact absurd hhd (by simp)
      | some e =>
          rw [hfind] at hhd
          dsimp only at hhd ⊢
          rw [elementIsotopeContrib_eq hfind inner acc hhd]
          dsimp only
          rw [ih (show elemMapValid tl = true from hv.2)]
          simp only [List.map_cons, List.sum_cons, List.prod_cons,
            Option.some.injEq, MIsotope.mk.injEq]
          refine ⟨by ring, by ring, by ring, trivial⟩

/-- C3: for every formula string that parses successfully, the intended
`Formula.isotope` (as the package's tests specify it; the shipped
elements.py/molmass.py pairing raises `TypeError` instead, see the doc
comment of `MIsotope`) is the monoisotopic result: for each element entry
it uses the explicit isotope when the selector is nonzero, else the
element's most-abundant natural isotope (`nominalmass` picks the maximal
abundance), accumulating mass times count and mass number times count,
multiplying abundances raised to the counts, and adding minus
electron-mass times charge to the mass with no effect on the abundance. -/
theorem C3_isotope_monoisotopic (s : List Char) (E : ElemMap) (c : Int)
    (h : parseElements s = .ok E) :
    formulaIsotope E c = some (specIsotope E c) ∧
      (∀ e ∈ ELEMENTS, ∀ kv ∈ e.isotopes, ∀ iso : IsotopeData,
        alistGet e.isotopes (nominalmass e) = some iso →
        kv.2.abundance ≤ iso.abundance) := by
  refine ⟨?_, fun e he kv hkv iso hiso => nominal_abundance_max he hkv hiso⟩
  have hv := parseElements_valid h
  rw [formulaIsotope, isotopeSum_eq hv]
  unfold specIsotope
  simp only [qneg_eq, qmul_eq, qofInt_eq, mkRat_one_eq, Option.some.injEq,
    MIsotope.mk.injEq]
  refine ⟨by ring, by ring, by omega, trivial⟩

/-- C3 witness: the formula "CH" parsed, the intended isotope fold
evaluated (carbon-12 plus hydrogen-1: mass `13.00782503223`, abundance
`0.9893 × 0.999885`, mass number 13), and via the theorem the
specification's Σ/Π expression takes the same value. -/
theorem C3_isotope_monoisotopic_witness :
    parseElements (String.toList "CH") =
      .ok [(['H'], [(0, 1)]), (['C'], [(0, 1)])] ∧
    formulaIsotope [(['H'], [(0, 1)]), (['C'], [(0, 1)])] 0 =
      some (MIsotope.mk (mkRat 1300782503223 100000000000)
        (mkRat 1978372461 2000000000) 13 0) ∧
    specIsotope [(['H'], [(0, 1)]), (['C'], [(0, 1)])] 0 =
      MIsotope.mk (mkRat 1300782503223 100000000000)
        (mkRat 1978372461 2000000000) 13 0 := by
  have h := C3_isotope_monoisotopic (String.toList "CH")
      [(['H'], [(0, 1)]), (['C'], [(0, 1)])] 0 (by decide)
  refine ⟨by decide, by decide, ?_⟩
  have hc : formulaIsotope [(['H'], [(0, 1)]), (['C'], [(0, 1)])] 0 =
      some (MIsotope.mk (mkRat 1300782503223 100000000000)
        (mkRat 1978372461 2000000000) 13 0) := by decide
  rw [h.1] at hc
  exact Option.some.inj hc

/-- Positivity invariant of parsing: every symbol has a nonempty selector
dict and every count is nonzero. -/
def elemMapPos (E : ElemMap) : Bool :=
  E.all (fun se => (!se.2.isEmpty) && se.2.all (fun ic => ic.2 != 0))

theorem insertCount_pos {E : ElemMap} {sym : List Char} {iso n : ℕ}
    (hE : elemMapPos E = true) (hn : n ≠ 0) :
    elemMapPos (insertCount E sym iso n) = true := by
  have hpair : ∀ inner : List (ℕ × ℕ),
      ((!inner.isEmpty) && inner.all (fun ic => ic.2 != 0)) = true →
      ∀ m : ℕ, m ≠ 0 →
      ((!(alistSet inner iso m).isEmpty) &&
        (alistSet inner iso m).all (fun ic => ic.2 != 0)) = true := by
    intro inner hin m hm
    simp only [Bool.and_eq_true, Bool.not_eq_true'] at hin ⊢
    constructor
    · cases inner with
      | nil => simp [alistSet]
      | cons a l =>
          obtain ⟨k0, v0⟩ := a
          rw [alistSet]
          by_cases hk : k0 = iso <;> simp [hk]
    · exact alistSet_all hin.2 (by simpa using hm)
  unfold insertCount
  cases hget : alistGet E sym with
  | none =>
      show elemMapPos (E ++ [(sym, [(iso, n)])]) = true
      unfold elemMapPos at hE ⊢
      rw [List.all_append, hE]
      simpa using hn
  | some inner =>
      have hin : ((!inner.isEmpty) && inner.all (fun ic => ic.2 != 0)) = true :=
        alistGet_all hE hget
      show elemMapPos
        (match alistGet inner iso with
         | some old => alistSet E sym (alistSet inner iso (old + n))
         | none => alistSet E sym (alistSet inner iso n)) = true
      cases hgi : alistGet inner iso with
      | none =>
          show elemMapPos (alistSet E sym (alistSet inner iso n)) = true
          exact alistSet_all hE (hpair inner hin n hn)
      | some old =>
          show elemMapPos (alistSet E sym (alistSet inner iso (old + n))) = true
          exact alistSet_all hE (hpair inner hin (old + n) (by omega))

set_option maxHeartbeats 1600000 in
theorem parseRev_pos : ∀ (fuel : ℕ) (l : List Char) (E : ElemMap)
    (ele : List Char) (num : ℕ) (counts : List ℕ) (E' : ElemMap),
    elemMapPos E = true →
    counts ≠ [] →
    counts.all (fun x => x != 0) = true →
    parseRev fuel l E ele num counts = .ok E' →
    elemMapPos E' = true := by
  intro fuel
  induction fuel with
  | zero =>
      intro l E ele num counts E' hE hCne hC h
      cases l with
      | nil =>
          rw [parseRev_nil] at h
          split at h
          · exact absurd h (err_ne_ok _ _)
          · split at h
            · exact absurd h (err_ne_ok _ _)
            · split at h
              · exact absurd h (err_ne_ok _ _)
              · obtain rfl := Except.ok.inj h
                exact hE
      | cons c rest =>
          rw [parseRev_zero_cons] at h
          exact absurd h (err_ne_ok _ _)
  | succ fuel ih =>
      intro l E ele num counts E' hE hCne hC h
      cases l with
      | nil =>
          rw [parseRev_nil] at h
          split at h
          · exact absurd h (err_ne_ok _ _)
          · split at h
            · exact absurd h (err_ne_ok _ _)
            · split at h
              · exact absurd h (err_ne_ok _ _)
              · obtain rfl := Except.ok.inj h
                exact hE
      | cons c rest =>
          have hTop : countsTop counts ≠ 0 := by
            cases counts with
            | nil => exact absurd rfl hCne
            | cons a l =>
                simp only [List.all_cons, Bool.and_eq_true] at hC
                have := hC.1
                simp only [ne_eq, bne_iff_ne] at this
                simpa [countsTop] using this
          rw [parseRev_succ_cons] at h
          dsimp only at h
          split at h
          · exact absurd h (err_ne_ok _ _)
          · split at h
            · -- opening bracket: pop
              split at h
              · split at h
                · exact absurd h (err_ne_ok _ _)
                · refine ih _ _ _ _ _ _ hE (by simp) ?_ h
                  simp only [List.all_cons, Bool.and_eq_true] at hC ⊢
                  exact ⟨hC.2.1, hC.2.2⟩
              · exact absurd h (err_ne_ok _ _)
            · split at h
              · -- closing bracket: push
                refine ih _ _ _ _ _ _ hE (by simp) ?_ h
                simp only [List.all_cons, Bool.and_eq_true]
                refine ⟨?_, hC⟩
                have : (if num = 0 then 1 else num) ≠ 0 := by
                  by_cases hn : num = 0 <;> simp [hn]
                simp only [ne_eq, bne_iff_ne]
                exact Nat.mul_ne_zero this hTop
              · split at h
                · -- digit
                  split at h
                  · exact absurd h (err_ne_ok _ _)
                  · exact ih _ _ _ _ _ _ hE hCne hC h
                · split at h
                  · -- lowercase
                    split at h
                    · split at h
                      · exact ih _ _ _ _ _ _ hE hCne hC h
                      · exact absurd h (err_ne_ok _ _)
                    · exact absurd h (err_ne_ok _ _)
                  · split at h
                    · -- uppercase
                      split at h
                      · exact absurd h (err_ne_ok _ _)
                      · have hnum : (if num = 0 then 1 else num) * countsTop counts ≠ 0 := by
                          apply Nat.mul_ne_zero _ hTop
                          by_cases hn : num = 0 <;> simp [hn]
                        split at h
                        · exact ih _ _ _ _ _ _ (insertCount_pos hE hnum) hCne hC h
                        · split at h
                          · exact ih _ _ _ _ _ _ (insertCount_pos hE hnum) hCne hC h
                          · split at h
                            · exact ih _ _ _ _ _ _ (insertCount_pos hE hnum) hCne hC h
                            · exact absurd h (err_ne_ok _ _)
                    · exact absurd h (err_ne_ok _ _)

/-- Parse soundness: a successful parse yields nonempty selector dicts and
strictly positive counts. -/
theorem parseElements_pos {s : List Char} {E : ElemMap}
    (h : parseElements s = .ok E) : elemMapPos E = true := by
  unfold parseElements at h
  split at h
  · exact absurd h (by simp)
  · split at h
    · exact absurd h (by simp)
    · exact parseRev_pos _ _ _ _ _ _ _ (by decide) (by simp) (by decide) h

set_option maxHeartbeats 1600000 in
theorem parseRev_ok_ne_nil : ∀ (fuel : ℕ) (l : List Char) (E : ElemMap)
    (ele : List Char) (num : ℕ) (counts : List ℕ) (E' : ElemMap),
    parseRev fuel l E ele num counts = .ok E' → E' ≠ [] := by
  intro fuel
  induction fuel with
  | zero =>
      intro l E ele num counts E' h
      cases l with
      | nil =>
          rw [parseRev_nil] at h
          split at h
          · exact absurd h (err_ne_ok _ _)
          · split at h
            · exact absurd h (err_ne_ok _ _)
            · split at h
              · exact absurd h (err_ne_ok _ _)
              · rename_i hne
                obtain rfl := Except.ok.inj h
                simpa using hne
      | cons c rest =>
          rw [parseRev_zero_cons] at h
          exact absurd h (err_ne_ok _ _)
  | succ fuel ih =>
      intro l E ele num counts E' h
      cases l with
      | nil =>
          rw [parseRev_nil] at h
          split at h
          · exact absurd h (err_ne_ok _ _)
          · split at h
            · exact absurd h (err_ne_ok _ _)
            · split at h
              · exact absurd h (err_ne_ok _ _)
              · rename_i hne
                obtain rfl := Except.ok.inj h
                simpa using hne
      | cons c rest =>
          rw [parseRev_succ_cons] at h
          dsimp only at h
          split at h
          · exact absurd h (err_ne_ok _ _)
          · split at h
            · split at h
              · split at h
                · exact absurd h (err_ne_ok _ _)
                · exact ih _ _ _ _ _ _ h
              · exact absurd h (err_ne_ok _ _)
            · split at h
              · exact ih _ _ _ _ _ _ h
              · split at h
                · split at h
                  · exact absurd h (err_ne_ok _ _)
                  · exact ih _ _ _ _ _ _ h
                · split at h
                  · split at h
                    · split at h
                      · exact ih _ _ _ _ _ _ h
                      · exact absurd h (err_ne_ok _ _)
                    · exact absurd h (err_ne_ok _ _)
                  · split at h
                    · split at h
                      · exact absurd h (err_ne_ok _ _)
                      · split at h
                        · exact ih _ _ _ _ _ _ h
                        · split at h
                          · exact ih _ _ _ _ _ _ h
                          · split at h
                            · exact ih _ _ _ _ _ _ h
                            · exact absurd h (err_ne_ok _ _)
                    · exact absurd h (err_ne_ok _ _)

/-- A successful parse yields a nonempty element map (the `invalid
formula` check). -/
theorem parseElements_ne_nil {s : List Char} {E : ElemMap}
    (h : parseElements s = .ok E) : E ≠ [] := by
  unfold parseElements at h
  split at h
  · exact absurd h (by simp)
  · split at h
    · exact absurd h (by simp)
    · exact parseRev_ok_ne_nil _ _ _ _ _ _ _ h

/-!  ### gcd, Hill notation, `from_elements`, `empirical`  -/

/-- `gcd` of molmass.py: the Euclid helper `_gcd` is exactly `Nat.gcd`,
and the reduction runs over `set(numbers)` — deduplication and set
iteration order cannot change a gcd, so the model folds over the list
directly.  `reduce` of an empty collection raises `TypeError`. -/
def pyGcd : List ℕ → Except PyErr ℕ
  | [] => .error (.typeError (String.toList "reduce of empty sequence"))
  | a :: rest => .ok (rest.foldl Nat.gcd a)

/-- The flattened list of all counts of an element map, in dict order
(the `values` list built by `Formula.gcd` before the charge is added). -/
def countsOf (E : ElemMap) : List ℕ :=
  (E.map (fun se => se.2.map (fun ic => ic.2))).join

/-- `Formula.gcd`: gcd of all element counts and, for charged formulas,
of `abs(charge)`. -/
def formulaGcd (E : ElemMap) (charge : Int) : Except PyErr ℕ :=
  pyGcd (countsOf E ++ (if 0 < charge.natAbs then [charge.natAbs] else []))

/-- Lexicographic (code point) string comparison, Python `<` on `str`. -/
def charsLt : List Char → List Char → Bool
  | [], [] => false
  | [], _ :: _ => true
  | _ :: _, [] => false
  | x :: xs, y :: ys => if x = y then charsLt xs ys else decide (x < y)

/-- Insertion step of an ascending insertion sort by `charsLt`. -/
def insertSortedChars (x : List Char) : List (List Char) → List (List Char)
  | [] => [x]
  | y :: ys => if charsLt y x then y :: insertSortedChars x ys else x :: y :: ys

/-- Python `sorted` on a list of distinct strings (set iteration order is
irrelevant once sorted). -/
def sortedChars (l : List (List Char)) : List (List Char) :=
  l.foldr insertSortedChars []

/-- Insertion step of an ascending insertion sort on naturals. -/
def insertSortedNat (x : ℕ) : List ℕ → List ℕ
  | [] => [x]
  | y :: ys => if y < x then y :: insertSortedNat x ys else x :: y :: ys

/-- Python `sorted` on a list of distinct naturals. -/
def sortedNat (l : List ℕ) : List ℕ := l.foldr insertSortedNat []

/-- `hill_sorted`: carbon first, then hydrogen when carbon is present,
then the remaining symbols in alphabetical order. -/
def hill_sorted (symbols : List (List Char)) : List (List Char) :=
  if symbols.contains ['C'] then
    ['C'] :: ((if symbols.contains ['H'] then [(['H'] : List Char)] else []) ++
      sortedChars (symbols.filter (fun s => !(s == ['C']) && !(s == ['H']))))
  else sortedChars symbols

/-- One token emitted by `from_elements` with the default format strings
`'{}'`, `'{}{}'`, `'[{}{}]'`, `'[{}{}]{}'`. -/
def elementToken (sym : List Char) (massnumber count : ℕ) : List Char :=
  if massnumber ≠ 0 then
    if count = 1 then '[' :: (natChars massnumber ++ sym ++ [']'])
    else '[' :: (natChars massnumber ++ sym ++ [']']) ++ natChars count
  else
    if count = 1 then sym else sym ++ natChars count

/-- `from_elements`: Hill-sorted symbols, each with its selectors in
ascending order, counts floor-divided by `divisor` (`Int.fdiv` is
Python's `//` for the possibly negative charge), then `join_charge`. -/
def from_elements (elements : ElemMap) (divisor : ℕ) (charge : Int) :
    List Char :=
  let body := ((hill_sorted (elements.map (fun se => se.1))).map (fun sym =>
    match alistGet elements sym with
    | some isotopes =>
        ((sortedNat (isotopes.map (fun ic => ic.1))).map (fun massnumber =>
          elementToken sym massnumber
            ((match alistGet isotopes massnumber with
              | some cnt => cnt
              | none => 0) / divisor))).join
    | none => [])).join
  join_charge body (Int.fdiv charge divisor) []

/-- `Formula.formula`: Hill notation of the element map with the charge. -/
def formulaHill (E : ElemMap) (charge : Int) : List Char :=
  from_elements E 1 charge

/-- `Formula.empirical`: element counts and charge divided by their gcd. -/
def formulaEmpirical (E : ElemMap) (charge : Int) : Except PyErr (List Char) :=
  match formulaGcd E charge with
  | .error e => .error e
  | .ok g => .ok (from_elements E g charge)

example : from_elements [(['C'], [(0, 4), (12, 2)])] 2 0 =
    String.toList "C2[12C]" := by decide
example : formulaHill [(['O'], [(0, 9)]), (['H'], [(0, 10)]),
    (['S'], [(0, 1)]), (['C', 'u'], [(0, 1)])] 0 =
    String.toList "CuH10O9S" := by decide
example : formulaEmpirical [(['O'], [(0, 8)]), (['S'], [(0, 2)])] (-4) =
    .ok (String.toList "[O4S]2-") := by decide

theorem foldl_gcd_dvd_init (l : List ℕ) (a : ℕ) : (l.foldl Nat.gcd a) ∣ a := by
  induction l generalizing a with
  | nil => exact dvd_refl a
  | cons b t ih =>
      exact dvd_trans (ih (Nat.gcd a b)) (Nat.gcd_dvd_left a b)

theorem foldl_gcd_dvd_mem (l : List ℕ) (a : ℕ) :
    ∀ x ∈ l, (l.foldl Nat.gcd a) ∣ x := by
  induction l generalizing a with
  | nil => intro x hx; simp at hx
  | cons b t ih =>
      intro x hx
      rcases List.mem_cons.mp hx with rfl | hxt
      · exact dvd_trans (foldl_gcd_dvd_init t (Nat.gcd a x))
          (Nat.gcd_dvd_right a x)
      · exact ih (Nat.gcd a b) x hxt

theorem foldl_gcd_mul (g : ℕ) (l : List ℕ) (a : ℕ) :
    ((l.map (fun x => g * x)).foldl Nat.gcd (g * a)) =
      g * (l.foldl Nat.gcd a) := by
  induction l generalizing a with
  | nil => rfl
  | cons b t ih =>
      simp only [List.map_cons, List.foldl_cons]
      rw [Nat.gcd_mul_left, ih]

/-- C6 (amended): for every formula string that parses successfully and
every gcd value `g` computed by `Formula.gcd`, the element counts of the
`empirical` formula — `count / g` for each entry, the counts emitted by
`from_elements`, here taken in dict order — *together with the absolute
value of the reduced charge* have no further common divisor (their gcd,
computed by the same `gcd` routine, is 1), and multiplying the empirical
counts and the floor-divided charge back by `g` reproduces the original
counts and charge.  The original claim, which asserts that the empirical
element counts *by themselves* always have gcd 1, fails for charged
formulas, because `Formula.gcd` deliberately includes `abs(charge)`. -/
theorem C6_empirical_reduction (s : List Char) (E : ElemMap) (c : Int) (g : ℕ)
    (h : parseElements s = .ok E) (hg : formulaGcd E c = .ok g) :
    pyGcd ((countsOf E).map (fun x => x / g) ++
        (if 0 < c.natAbs then [c.natAbs / g] else [])) = .ok 1 ∧
      (∀ x ∈ countsOf E, x / g * g = x) ∧
      (Int.fdiv c g) * g = c := by
  have hpos := parseElements_pos h
  have hne := parseElements_ne_nil h
  have hcne : countsOf E ≠ [] := by
    cases E with
    | nil => exact absurd rfl hne
    | cons hd tl =>
        obtain ⟨sym, inner⟩ := hd
        have hin : inner ≠ [] := by
          simp only [elemMapPos, List.all_cons, Bool.and_eq_true] at hpos
          intro hc
          rw [hc] at hpos
          simp at hpos
        unfold countsOf
        simp only [List.map_cons, List.join_cons]
        intro hc
        rw [List.append_eq_nil] at hc
        exact hin (List.map_eq_nil.mp hc.1)
  have hallpos : ∀ x ∈ countsOf E, x ≠ 0 := by
    intro x hx
    unfold countsOf at hx
    rw [List.mem_join] at hx
    obtain ⟨l, hl, hxl⟩ := hx
    rw [List.mem_map] at hl
    obtain ⟨se, hse, rfl⟩ := hl
    rw [List.mem_map] at hxl
    obtain ⟨ic, hic, rfl⟩ := hxl
    have h1 : ((!se.2.isEmpty) && se.2.all (fun ic => ic.2 != 0)) = true := by
      simp only [elemMapPos] at hpos
      exact List.all_eq_true.mp hpos se hse
    rw [Bool.and_eq_true] at h1
    have h2 := List.all_eq_true.mp h1.2 ic hic
    simpa using h2
  set chargePart : List ℕ := if 0 < c.natAbs then [c.natAbs] else [] with hcp
  have hvals : countsOf E ++ chargePart ≠ [] := by
    intro hcon
    rw [List.append_eq_nil] at hcon
    exact hcne hcon.1
  obtain ⟨v, rest, hvr⟩ : ∃ v rest, countsOf E ++ chargePart = v :: rest := by
    cases hx : countsOf E ++ chargePart with
    | nil => exact absurd hx hvals
    | cons v rest => exact ⟨v, rest, rfl⟩
  have hgval : g = rest.foldl Nat.gcd v := by
    unfold formulaGcd at hg
    rw [← hcp, hvr] at hg
    simp only [pyGcd] at hg
    exact (Except.ok.inj hg).symm
  have hdvd : ∀ x ∈ countsOf E ++ chargePart, g ∣ x := by
    intro x hx
    rw [hvr] at hx
    rcases List.mem_cons.mp hx with rfl | hxr
    · rw [hgval]; exact foldl_gcd_dvd_init rest x
    · rw [hgval]; exact foldl_gcd_dvd_mem rest v x hxr
  have hgne : g ≠ 0 := by
    have hv0 : v ∈ countsOf E ++ chargePart := by
      rw [hvr]; exact List.mem_cons_self v rest
    have hvne : v ≠ 0 := by
      rcases List.mem_append.mp hv0 with hvc | hvp
      · exact hallpos v hvc
      · rw [hcp] at hvp
        by_cases hc0 : 0 < c.natAbs
        · rw [if_pos hc0] at hvp
          simp only [List.mem_singleton] at hvp
          omega
        · rw [if_neg hc0] at hvp
          simp at hvp
    intro hcon
    have hd := hdvd v hv0
    rw [hcon] at hd
    exact hvne (Nat.eq_zero_of_zero_dvd hd)
  have hdivmul : ∀ x ∈ countsOf E ++ chargePart, x / g * g = x := by
    intro x hx
    exact Nat.div_mul_cancel (hdvd x hx)
  refine ⟨?_, ?_, ?_⟩
  · have hmap : (countsOf E).map (fun x => x / g) ++
        (if 0 < c.natAbs then [c.natAbs / g] else []) =
        (countsOf E ++ chargePart).map (fun x => x / g) := by
      rw [List.map_append, hcp]
      by_cases hc0 : 0 < c.natAbs <;> simp [hc0]
    rw [hmap, hvr, List.map_cons]
    have hrestd : ∀ x ∈ rest, g ∣ x := fun x hx =>
      hdvd x (by rw [hvr]; exact List.mem_cons_of_mem v hx)
    have hrest : (rest.map (fun x => x / g)).map (fun x => g * x) = rest := by
      rw [List.map_map]
      have h1 : rest.map ((fun x => g * x) ∘ fun x => x / g) =
          rest.map id := by
        apply List.map_congr_left
        intro a ha
        simp only [Function.comp_apply, id_eq]
        exact Nat.mul_div_cancel' (hrestd a ha)
      rw [h1, List.map_id]
    have hv : g * (v / g) = v :=
      Nat.mul_div_cancel' (hdvd v (by rw [hvr]; exact List.mem_cons_self v rest))
    have hkey : rest.foldl Nat.gcd v =
        g * ((rest.map (fun x => x / g)).foldl Nat.gcd (v / g)) := by
      conv_lhs => rw [← hrest, ← hv]
      exact foldl_gcd_mul g (rest.map (fun x => x / g)) (v / g)
    have hX : (rest.map (fun x => x / g)).foldl Nat.gcd (v / g) = 1 := by
      have h2 : g = g * ((rest.map (fun x => x / g)).foldl Nat.gcd (v / g)) :=
        hgval.trans hkey
      exact (Nat.eq_of_mul_eq_mul_left (Nat.pos_of_ne_zero hgne)
        (by rw [mul_one]; exact h2)).symm
    show Except.ok ((rest.map (fun x => x / g)).foldl Nat.gcd (v / g)) =
      Except.ok 1
    rw [hX]
  · intro x hx
    exact hdivmul x (List.mem_append.mpr (Or.inl hx))
  · by_cases hc0 : c = 0
    · subst hc0
      rw [Int.zero_fdiv, zero_mul]
    · have hmemc : c.natAbs ∈ countsOf E ++ chargePart := by
        apply List.mem_append.mpr
        right
        rw [hcp, if_pos (by omega)]
        exact List.mem_singleton.mpr rfl
      have hdc : g ∣ c.natAbs := hdvd c.natAbs hmemc
      have hdcz : (g : Int) ∣ c := by
        rw [← Int.natAbs_dvd_natAbs, Int.natAbs_ofNat]
        exact hdc
      obtain ⟨k, rfl⟩ := hdcz
      have hgz : (g : Int) ≠ 0 := by exact_mod_cast hgne
      rw [Int.mul_fdiv_cancel_left k hgz]
      ring

/-- C6 counterexample to the original claim: `Formula('[C2H2]-')` has
`Formula.gcd` 1 (the charge magnitude 1 caps the gcd), so `empirical` is
the unchanged `'[C2H2]-'`, whose element counts `[2, 2]` have gcd 2, not
1: the empirical counts by themselves do keep a common divisor. -/
theorem C6_counterexample :
    split_charge (String.toList "[C2H2]-") =
      .ok (String.toList "C2H2", -1) ∧
    parseElements (String.toList "C2H2") =
      .ok [(['H'], [(0, 2)]), (['C'], [(0, 2)])] ∧
    formulaGcd [(['H'], [(0, 2)]), (['C'], [(0, 2)])] (-1) = .ok 1 ∧
    formulaEmpirical [(['H'], [(0, 2)]), (['C'], [(0, 2)])] (-1) =
      .ok (String.toList "[C2H2]-") ∧
    countsOf [(['H'], [(0, 2)]), (['C'], [(0, 2)])] = [2, 2] ∧
    pyGcd [2, 2] = .ok 2 := by
  refine ⟨?_, ?_, ?_, ?_, ?_, ?_⟩ <;> decide

/-- Witness for C6 at `'C6H12O6'` (gcd 6, neutral): the reduced counts
have gcd 1 and scale back to the originals. -/
theorem C6_empirical_reduction_witness :
    pyGcd ((countsOf [(['O'], [(0, 6)]), (['H'], [(0, 12)]),
        (['C'], [(0, 6)])]).map (fun x => x / 6) ++
        (if 0 < (0 : Int).natAbs then [(0 : Int).natAbs / 6] else [])) =
      .ok 1 ∧
    (∀ x ∈ countsOf [(['O'], [(0, 6)]), (['H'], [(0, 12)]),
        (['C'], [(0, 6)])], x / 6 * 6 = x) ∧
    (Int.fdiv 0 6) * 6 = 0 :=
  C6_empirical_reduction (String.toList "C6H12O6")
    [(['O'], [(0, 6)]), (['H'], [(0, 12)]), (['C'], [(0, 6)])] 0 6
    (by decide) (by decide)


/-!  ### C5 helpers  -/

theorem takeWhile_all {p : Char → Bool} {l : List Char}
    (h : ∀ c ∈ l, p c = true) : l.takeWhile p = l := by
  have := takeWhile_all_append h ([] : List Char)
  simpa using this

theorem dropWhile_all {p : Char → Bool} {l : List Char}
    (h : ∀ c ∈ l, p c = true) : l.dropWhile p = [] := by
  have := dropWhile_all_append h ([] : List Char)
  simpa using this

theorem isEmpty_false_of_ne_nil {α : Type} {l : List α} (h : l ≠ []) :
    l.isEmpty = false := by
  cases l with
  | nil => exact absurd rfl h
  | cons a t => rfl

theorem contains_append_left {l1 l2 : List Char} {c : Char}
    (h : l1.contains c = true) : (l1 ++ l2).contains c = true :=
  List.elem_eq_true_of_mem
    (List.mem_append.mpr (Or.inl (List.mem_of_elem_eq_true h)))

/-- The leading character of the decimal rendering of a positive number is
a nonzero digit, hence admissible as first character of a formula. -/
theorem natChars_head_valid (d : ℕ) (hd : 1 ≤ d) {a : Char} {A : List Char}
    (h : natChars d = a :: A) : validFirstChars.contains a = true := by
  rw [natChars_eq_digits d hd, ← List.map_reverse] at h
  cases hL : (Nat.digits 10 d).reverse with
  | nil => rw [hL] at h; exact absurd h (by simp)
  | cons k K =>
      rw [hL, List.map_cons] at h
      have ha : a = Nat.digitChar k := by
        have := (List.cons.injEq _ _ _ _).mp h
        exact this.1.symm
      have hkmem : k ∈ Nat.digits 10 d := by
        have : k ∈ (Nat.digits 10 d).reverse := by
          rw [hL]; exact List.mem_cons_self k K
        exact List.mem_reverse.mp this
      have hk10 : k < 10 := Nat.digits_lt_base (by norm_num) hkmem
      have hne : Nat.digits 10 d ≠ [] :=
        Nat.digits_ne_nil_iff_ne_zero.mpr (by omega)
      have hgl : (Nat.digits 10 d).getLast? = some k := by
        rw [← List.head?_reverse, hL]; rfl
      rw [List.getLast?_eq_getLast _ hne] at hgl
      have hk0 : k ≠ 0 := by
        have h0 := Nat.getLast_digit_ne_zero 10 (show d ≠ 0 by omega)
        rw [← Option.some.inj hgl]
        exact h0
      subst ha
      have hk1 : 1 ≤ k := by omega
      interval_cases k <;> decide

/-- A symbol resolved by the registry is well formed: its first character
is uppercase and admitted everywhere. -/
theorem elementsFind_char_facts {u : Char} {e : ElementData}
    (h : elementsFind [u] = some e) :
    u.isUpper = true ∧ validFirstChars.contains u = true ∧
      validChars.contains u = true := by
  obtain ⟨hmem, hsym⟩ := elementsFind_spec h
  have hok := ELEMENTS_symbolOk e hmem
  rw [hsym] at hok
  simp only [symbolOk, Bool.and_eq_true] at hok
  exact ⟨hok.1, hok.2, contains_append_left hok.2⟩

/-- Does the registry know symbol `sym` with isotope mass number `iso`? -/
def isotopeKnown (sym : List Char) (iso : ℕ) : Bool :=
  match elementsFind sym with
  | some e => (alistGet e.isotopes iso).isSome
  | none => false

theorem mem_of_contains {l : List Char} {c : Char}
    (h : l.contains c = true) : c ∈ l := by
  have h2 : List.elem c l = true := h
  exact List.mem_of_elem_eq_true h2

theorem not_mem_of_contains_false {l : List Char} {c : Char}
    (h : l.contains c = false) : ¬ c ∈ l := fun hm => by
  have h2 : l.contains c = true := List.elem_eq_true_of_mem hm
  rw [h2] at h
  cases h

/-- Family (a) of the isotope-prefix rule: a digit run at the very start
of the formula, followed by a known one-letter symbol, is accepted as an
isotope selector (count 1) although no opening bracket precedes it. -/
theorem parse_prefix_start (d : ℕ) (u : Char)
    (hd : 1 ≤ d) (hku : isotopeKnown [u] d = true) :
    parseElements (natChars d ++ [u]) = .ok [([u], [(d, 1)])] := by
  obtain ⟨e, hfind, hiso⟩ : ∃ e, elementsFind [u] = some e ∧
      (alistGet e.isotopes d).isSome = true := by
    unfold isotopeKnown at hku
    cases hf : elementsFind [u] with
    | none => rw [hf] at hku; exact absurd hku (by simp)
    | some e => rw [hf] at hku; exact ⟨e, rfl, hku⟩
  obtain ⟨hu, hufc, huv⟩ := elementsFind_char_facts hfind
  obtain ⟨a, A', hA⟩ : ∃ a A', natChars d = a :: A' := by
    cases hx : natChars d with
    | nil => exact absurd hx (natChars_ne_nil d)
    | cons a A' => exact ⟨a, A', rfl⟩
  have hdigs : ∀ c ∈ (natChars d).reverse, c.isDigit = true := by
    intro c hc
    exact natChars_all_digit d c (List.mem_reverse.mp hc)
  have hrne : (natChars d).reverse ≠ [] := by simp [natChars_ne_nil d]
  have hmv : u ∈ validChars := mem_of_contains huv
  have hmo : ¬ u ∈ openBrackets := not_mem_of_contains_false (isUpper_not_open hu)
  have hmc : ¬ u ∈ closeBrackets := not_mem_of_contains_false (isUpper_not_close hu)
  have hhead : (natChars d ++ [u]).headD ' ' = a := by rw [hA]; rfl
  have hlen : (natChars d ++ [u]).length = (natChars d).length + 1 := by simp
  have hrev : (natChars d ++ [u]).reverse = u :: (natChars d).reverse := by simp
  unfold parseElements
  rw [if_neg (by simp)]
  rw [if_neg (by rw [hhead]; exact not_not_intro (natChars_head_valid d hd hA))]
  rw [hlen, hrev, parseRev_succ_cons]
  rw [if_neg (by simp [hmv])]
  rw [if_neg (by simp [hmo])]
  rw [if_neg (by simp [hmc])]
  rw [if_neg (by simp [isUpper_not_digit hu])]
  rw [if_neg (by simp [isUpper_not_lower hu])]
  rw [if_pos hu]
  dsimp only
  rw [hfind]
  dsimp only
  rw [takeWhile_all hdigs, dropWhile_all hdigs]
  rw [isEmpty_false_of_ne_nil hrne]
  dsimp only [List.head?]
  rw [List.reverse_reverse, charsToNat_natChars]
  simp only [Bool.not_false, Bool.and_false, Bool.false_and]
  rw [if_neg (by simp), if_neg (by simp)]
  rw [if_pos hiso]
  rw [parseRev_nil]
  simp [insertCount, alistGet, countsTop]


/-- Family (b) of the isotope-prefix rule: a digit run preceded by an
opening bracket is accepted as an isotope selector. -/
theorem parse_prefix_bracket (d : ℕ) (u : Char)
    (hku : isotopeKnown [u] d = true) :
    parseElements ('[' :: (natChars d ++ [u, ']'])) = .ok [([u], [(d, 1)])] := by
  obtain ⟨e, hfind, hiso⟩ : ∃ e, elementsFind [u] = some e ∧
      (alistGet e.isotopes d).isSome = true := by
    unfold isotopeKnown at hku
    cases hf : elementsFind [u] with
    | none => rw [hf] at hku; exact absurd hku (by simp)
    | some e => rw [hf] at hku; exact ⟨e, rfl, hku⟩
  obtain ⟨hu, hufc, huv⟩ := elementsFind_char_facts hfind
  obtain ⟨a, A', hA⟩ : ∃ a A', natChars d = a :: A' := by
    cases hx : natChars d with
    | nil => exact absurd hx (natChars_ne_nil d)
    | cons a A' => exact ⟨a, A', rfl⟩
  have hdigs : ∀ c ∈ (natChars d).reverse, c.isDigit = true := by
    intro c hc
    exact natChars_all_digit d c (List.mem_reverse.mp hc)
  have hrne : (natChars d).reverse ≠ [] := by simp [natChars_ne_nil d]
  have hmv : u ∈ validChars := mem_of_contains huv
  have hmo : ¬ u ∈ openBrackets := not_mem_of_contains_false (isUpper_not_open hu)
  have hmc : ¬ u ∈ closeBrackets := not_mem_of_contains_false (isUpper_not_close hu)
  have hlen : ('[' :: (natChars d ++ [u, ']'])).length = A'.length + 3 + 1 := by
    rw [hA]; simp
  have hrev : ('[' :: (natChars d ++ [u, ']'])).reverse =
      ']' :: (u :: ((natChars d).reverse ++ ['['])) := by simp
  unfold parseElements
  rw [if_neg (by simp), if_neg (by simp only [List.headD_cons]; decide)]
  rw [hlen, hrev, parseRev_succ_cons]
  -- step 1: the closing bracket pushes a multiplier
  rw [if_neg (by decide), if_neg (by decide), if_pos (by decide)]
  dsimp only
  -- step 2: the symbol with the isotope digits, bracket to the left
  have e3 : A'.length + 3 = A'.length + 2 + 1 := rfl
  rw [e3, parseRev_succ_cons]
  rw [if_neg (by simp [hmv])]
  rw [if_neg (by simp [hmo])]
  rw [if_neg (by simp [hmc])]
  rw [if_neg (by simp [isUpper_not_digit hu])]
  rw [if_neg (by simp [isUpper_not_lower hu])]
  rw [if_pos hu]
  dsimp only
  rw [hfind]
  dsimp only
  rw [takeWhile_all_append hdigs ['['], dropWhile_all_append hdigs ['[']]
  rw [show (['['] : List Char).takeWhile Char.isDigit = [] from rfl]
  rw [show (['['] : List Char).dropWhile Char.isDigit = ['['] from rfl]
  rw [List.append_nil]
  rw [isEmpty_false_of_ne_nil hrne]
  dsimp only [List.head?]
  rw [show openBrackets.contains '[' = true from rfl]
  simp only [Bool.not_false, Bool.not_true, Bool.and_false]
  rw [if_neg (by simp), if_neg (by simp)]
  rw [List.reverse_reverse, charsToNat_natChars]
  rw [if_pos hiso]
  -- step 3: the opening bracket pops the multiplier
  have e2 : A'.length + 2 = A'.length + 1 + 1 := rfl
  rw [e2, parseRev_succ_cons]
  rw [if_neg (by decide), if_pos (by decide)]
  dsimp only
  rw [if_neg (by simp)]
  rw [parseRev_nil]
  simp [insertCount, alistGet, countsTop]

/-- Family (c) of the isotope-prefix rule: a digit run that is preceded by
another symbol (no bracket, not at the start) is rolled back and becomes a
count for that preceding symbol; the trailing symbol keeps selector 0. -/
theorem parse_prefix_rollback (d : ℕ) (u u2 : Char)
    (hd : 1 ≤ d) (hku : (elementsFind [u]).isSome = true)
    (hk2 : (elementsFind [u2]).isSome = true) (hne : u2 ≠ u) :
    parseElements (u2 :: (natChars d ++ [u])) =
      .ok [([u], [(0, 1)]), ([u2], [(0, d)])] := by
  obtain ⟨e, hfind⟩ : ∃ e, elementsFind [u] = some e := by
    cases hf : elementsFind [u] with
    | none => rw [hf] at hku; exact absurd hku (by simp)
    | some e => exact ⟨e, rfl⟩
  obtain ⟨e2, hfind2⟩ : ∃ e2, elementsFind [u2] = some e2 := by
    cases hf : elementsFind [u2] with
    | none => rw [hf] at hk2; exact absurd hk2 (by simp)
    | some e2 => exact ⟨e2, rfl⟩
  obtain ⟨hu, hufc, huv⟩ := elementsFind_char_facts hfind
  obtain ⟨hu2, hufc2, huv2⟩ := elementsFind_char_facts hfind2
  obtain ⟨a, A', hA⟩ : ∃ a A', natChars d = a :: A' := by
    cases hx : natChars d with
    | nil => exact absurd hx (natChars_ne_nil d)
    | cons a A' => exact ⟨a, A', rfl⟩
  have hdigs : ∀ c ∈ (natChars d).reverse, c.isDigit = true := by
    intro c hc
    exact natChars_all_digit d c (List.mem_reverse.mp hc)
  have hrne : (natChars d).reverse ≠ [] := by simp [natChars_ne_nil d]
  have hmv : u ∈ validChars := mem_of_contains huv
  have hmo : ¬ u ∈ openBrackets := not_mem_of_contains_false (isUpper_not_open hu)
  have hmc : ¬ u ∈ closeBrackets := not_mem_of_contains_false (isUpper_not_close hu)
  have hmv2 : u2 ∈ validChars := mem_of_contains huv2
  have hmo2 : ¬ u2 ∈ openBrackets :=
    not_mem_of_contains_false (isUpper_not_open hu2)
  have hmc2 : ¬ u2 ∈ closeBrackets :=
    not_mem_of_contains_false (isUpper_not_close hu2)
  have ht2 : ([u2] : List Char).takeWhile Char.isDigit = [] := by
    simp [List.takeWhile_cons, isUpper_not_digit hu2]
  have hdw2 : ([u2] : List Char).dropWhile Char.isDigit = [u2] := by
    simp [List.dropWhile_cons, isUpper_not_digit hu2]
  have hlen : (u2 :: (natChars d ++ [u])).length = A'.length + 2 + 1 := by
    rw [hA]; simp
  have hrev : (u2 :: (natChars d ++ [u])).reverse =
      u :: ((natChars d).reverse ++ [u2]) := by simp
  obtain ⟨b, B, hB⟩ : ∃ b B, (natChars d).reverse = b :: B := by
    cases hx : (natChars d).reverse with
    | nil => exact absurd hx hrne
    | cons b B => exact ⟨b, B, rfl⟩
  have hbd : b.isDigit = true := hdigs b (by rw [hB]; exact List.mem_cons_self b B)
  have hBdig : ∀ c ∈ B, c.isDigit = true := by
    intro c hc
    exact hdigs c (by rw [hB]; exact List.mem_cons_of_mem b hc)
  unfold parseElements
  rw [if_neg (by simp)]
  rw [if_neg (by simp only [List.headD_cons]; exact not_not_intro hufc2)]
  rw [hlen, hrev, parseRev_succ_cons]
  -- step 1: the trailing symbol; its candidate digits are rolled back
  rw [if_neg (by simp [hmv])]
  rw [if_neg (by simp [hmo])]
  rw [if_neg (by simp [hmc])]
  rw [if_neg (by simp [isUpper_not_digit hu])]
  rw [if_neg (by simp [isUpper_not_lower hu])]
  rw [if_pos hu]
  dsimp only
  rw [hfind]
  dsimp only
  rw [takeWhile_all_append hdigs [u2], dropWhile_all_append hdigs [u2]]
  rw [ht2, hdw2, List.append_nil]
  rw [isEmpty_false_of_ne_nil hrne]
  dsimp only [List.head?]
  rw [isUpper_not_open hu2]
  rw [if_pos (by decide)]
  -- step 2: the digit run is consumed as a count
  have hlist : (natChars d).reverse ++ [u2] = b :: (B ++ [u2]) := by
    rw [hB]; rfl
  have e2 : A'.length + 2 = A'.length + 1 + 1 := rfl
  rw [hlist, e2, parseRev_succ_cons]
  rw [if_neg (by simp [mem_of_contains (isDigit_facts hbd).1])]
  rw [if_neg (by simp [not_mem_of_contains_false (isDigit_facts hbd).2.1])]
  rw [if_neg (by simp [not_mem_of_contains_false (isDigit_facts hbd).2.2.1])]
  rw [if_pos hbd]
  dsimp only
  rw [takeWhile_all_append hBdig [u2], dropWhile_all_append hBdig [u2]]
  rw [ht2, hdw2, List.append_nil]
  rw [show b :: B = (natChars d).reverse from hB.symm]
  rw [List.reverse_reverse, charsToNat_natChars]
  rw [if_neg (by omega)]
  -- step 3: the leading symbol takes the rolled-back digits as its count
  rw [parseRev_succ_cons]
  rw [if_neg (by simp [hmv2])]
  rw [if_neg (by simp [hmo2])]
  rw [if_neg (by simp [hmc2])]
  rw [if_neg (by simp [isUpper_not_digit hu2])]
  rw [if_neg (by simp [isUpper_not_lower hu2])]
  rw [if_pos hu2]
  dsimp only
  rw [hfind2]
  dsimp only
  rw [show ([] : List Char).takeWhile Char.isDigit = [] from rfl]
  rw [show ([] : List Char).dropWhile Char.isDigit = [] from rfl]
  simp only [List.isEmpty_nil, Bool.not_true, Bool.false_and]
  rw [if_neg (by simp), if_pos trivial]
  rw [if_neg (show ¬ (d = 0) by omega)]
  rw [parseRev_nil]
  simp [insertCount, alistGet, countsTop, hne, Ne.symm hne]


/-- C5 (amended): a digit run immediately preceding a (known, one-letter)
element symbol is accepted as an isotope mass number exactly when it is
immediately preceded by an opening bracket *or extends to the very start
of the formula*; otherwise it is rolled back and becomes a count for the
preceding term.  Family (a): `'<d><u>'` parses as isotope `d` of `u` with
count 1 even though no bracket precedes the digits — this start-of-string
case refutes the original claim.  Family (b): `'[<d><u>]'` parses the
same way.  Family (c): `'<u2><d><u>'` instead gives `u` the natural
selector 0 with count 1 and the digits become the count `d` of `u2`. -/
theorem C5_isotope_digit_rule (d : ℕ) (u u2 : Char)
    (hd : 1 ≤ d) (hku : isotopeKnown [u] d = true)
    (hk2 : (elementsFind [u2]).isSome = true) (hne : u2 ≠ u) :
    parseElements (natChars d ++ [u]) = .ok [([u], [(d, 1)])] ∧
    parseElements ('[' :: (natChars d ++ [u, ']'])) = .ok [([u], [(d, 1)])] ∧
    parseElements (u2 :: (natChars d ++ [u])) =
      .ok [([u], [(0, 1)]), ([u2], [(0, d)])] := by
  have hku' : (elementsFind [u]).isSome = true := by
    unfold isotopeKnown at hku
    cases hf : elementsFind [u] with
    | none => rw [hf] at hku; exact absurd hku (by simp)
    | some e => simp [hf]
  exact ⟨parse_prefix_start d u hd hku, parse_prefix_bracket d u hku,
    parse_prefix_rollback d u u2 hd hku' hk2 hne⟩

/-- C5 counterexample to the original claim: in `'12C'` the digit run `12`
is not preceded by any opening bracket, yet it is accepted as the isotope
mass number of carbon (selector 12, count 1) — identical to the parse of
the bracketed `'[12C]'` — rather than being treated as a count. -/
theorem C5_counterexample :
    parseElements (String.toList "12C") = .ok [(['C'], [(12, 1)])] ∧
    parseElements (String.toList "[12C]") = .ok [(['C'], [(12, 1)])] := by
  exact ⟨by decide, by decide⟩

/-- Witness for C5 at `d = 13`, `u = 'C'`, `u2 = 'N'`: `'13C'` and
`'[13C]'` parse as carbon-13, `'N13C'` parses as C1 N13. -/
theorem C5_isotope_digit_rule_witness :
    (1 ≤ 13 ∧ isotopeKnown ['C'] 13 = true ∧
      (elementsFind ['N']).isSome = true ∧ 'N' ≠ 'C') ∧
    parseElements (natChars 13 ++ ['C']) = .ok [(['C'], [(13, 1)])] ∧
    parseElements ('[' :: (natChars 13 ++ ['C', ']'])) =
      .ok [(['C'], [(13, 1)])] ∧
    parseElements ('N' :: (natChars 13 ++ ['C'])) =
      .ok [(['C'], [(0, 1)]), (['N'], [(0, 13)])] :=
  ⟨⟨by decide, by decide, by decide, by decide⟩,
    C5_isotope_digit_rule 13 'C' 'N' (by decide) (by decide) (by decide)
      (by decide)⟩


/-!  ### Association-list facts and the parser key-uniqueness invariant -/

theorem alistGet_mem {α β : Type} [DecidableEq α] {l : List (α × β)} {k : α}
    {v : β} (h : alistGet l k = some v) : (k, v) ∈ l := by
  induction l with
  | nil => simp [alistGet] at h
  | cons hd tl ih =>
      obtain ⟨a, b⟩ := hd
      rw [alistGet] at h
      by_cases hak : a = k
      · rw [if_pos hak] at h
        obtain rfl := Option.some.inj h
        subst hak
        exact List.mem_cons_self _ _
      · rw [if_neg hak] at h
        exact List.mem_cons_of_mem _ (ih h)

theorem alistGet_none_not_mem {α β : Type} [DecidableEq α] {l : List (α × β)}
    {k : α} (h : alistGet l k = none) : k ∉ l.map Prod.fst := by
  induction l with
  | nil => simp
  | cons hd tl ih =>
      obtain ⟨a, b⟩ := hd
      rw [alistGet] at h
      by_cases hak : a = k
      · rw [if_pos hak] at h; cases h
      · rw [if_neg hak] at h
        intro hcon
        rcases List.mem_cons.mp hcon with heq | hm
        · exact hak heq.symm
        · exact ih h hm

theorem mem_keys_alistSet {α β : Type} [DecidableEq α] {l : List (α × β)}
    {k x : α} {v : β} (h : x ∈ (alistSet l k v).map Prod.fst) :
    x ∈ l.map Prod.fst ∨ x = k := by
  induction l with
  | nil =>
      simp [alistSet] at h
      exact Or.inr h
  | cons hd tl ih =>
      obtain ⟨a, b⟩ := hd
      rw [alistSet] at h
      by_cases hak : a = k
      · rw [if_pos hak] at h
        simp only [List.map_cons, List.mem_cons] at h
        rcases h with rfl | hm
        · exact Or.inl (by simp)
        · exact Or.inl (by simp [hm])
      · rw [if_neg hak] at h
        simp only [List.map_cons, List.mem_cons] at h
        rcases h with rfl | hm
        · exact Or.inl (by simp)
        · rcases ih hm with h1 | h2
          · exact Or.inl (by simp [h1])
          · exact Or.inr h2

theorem alistSet_keys_nodup {α β : Type} [DecidableEq α] {l : List (α × β)}
    {k : α} {v : β} (h : (l.map Prod.fst).Nodup) :
    ((alistSet l k v).map Prod.fst).Nodup := by
  induction l with
  | nil => simp [alistSet]
  | cons hd tl ih =>
      obtain ⟨a, b⟩ := hd
      rw [alistSet]
      by_cases hak : a = k
      · rw [if_pos hak]; simpa using h
      · rw [if_neg hak]
        simp only [List.map_cons, List.nodup_cons] at h ⊢
        refine ⟨?_, ih h.2⟩
        intro hcon
        rcases mem_keys_alistSet hcon with h1 | h2
        · exact h.1 h1
        · exact hak h2

theorem mem_alistSet {α β : Type} [DecidableEq α] {l : List (α × β)} {k : α}
    {v : β} {se : α × β} (h : se ∈ alistSet l k v) : se ∈ l ∨ se = (k, v) := by
  induction l with
  | nil =>
      simp [alistSet] at h
      exact Or.inr h
  | cons hd tl ih =>
      obtain ⟨a, b⟩ := hd
      rw [alistSet] at h
      by_cases hak : a = k
      · rw [if_pos hak] at h
        rcases List.mem_cons.mp h with rfl | hm
        · subst hak
          exact Or.inr rfl
        · exact Or.inl (List.mem_cons_of_mem _ hm)
      · rw [if_neg hak] at h
        rcases List.mem_cons.mp h with rfl | hm
        · exact Or.inl (List.mem_cons_self _ _)
        · rcases ih hm with h1 | h2
          · exact Or.inl (List.mem_cons_of_mem _ h1)
          · exact Or.inr h2

theorem mem_alistDel {α β : Type} [DecidableEq α] {l : List (α × β)} {k : α}
    {se : α × β} (h : se ∈ alistDel l k) : se ∈ l := by
  induction l with
  | nil => simp [alistDel] at h
  | cons hd tl ih =>
      obtain ⟨a, b⟩ := hd
      rw [alistDel] at h
      by_cases hak : a = k
      · rw [if_pos hak] at h
        exact List.mem_cons_of_mem _ h
      · rw [if_neg hak] at h
        rcases List.mem_cons.mp h with rfl | hm
        · exact List.mem_cons_self _ _
        · exact List.mem_cons_of_mem _ (ih hm)

theorem alistDel_keys_sublist {α β : Type} [DecidableEq α]
    (l : List (α × β)) (k : α) :
    ((alistDel l k).map Prod.fst).Sublist (l.map Prod.fst) := by
  induction l with
  | nil => simp [alistDel]
  | cons hd tl ih =>
      obtain ⟨a, b⟩ := hd
      rw [alistDel]
      by_cases hak : a = k
      · rw [if_pos hak]
        exact List.sublist_cons_of_sublist _ (List.Sublist.refl _)
      · rw [if_neg hak]
        simp only [List.map_cons]
        exact List.Sublist.cons₂ _ ih

theorem alistGet_del_ne {α β : Type} [DecidableEq α] {l : List (α × β)}
    {k m : α} (h : k ≠ m) : alistGet (alistDel l m) k = alistGet l k := by
  induction l with
  | nil => rfl
  | cons hd tl ih =>
      obtain ⟨a, b⟩ := hd
      rw [alistDel]
      by_cases ham : a = m
      · rw [if_pos ham, alistGet, if_neg (by rw [ham]; exact fun hc => h hc.symm)]
      · rw [if_neg ham, alistGet, alistGet]
        by_cases hak : a = k
        · rw [if_pos hak, if_pos hak]
        · rw [if_neg hak, if_neg hak, ih]

/-- Dict faithfulness of the parsed element map: symbol keys are pairwise
distinct and each symbol's selector keys are pairwise distinct. -/
def elemMapNodup (E : ElemMap) : Prop :=
  (E.map Prod.fst).Nodup ∧ ∀ se ∈ E, (se.2.map Prod.fst).Nodup

theorem insertCount_nodup {E : ElemMap} {sym : List Char} {iso n : ℕ}
    (h : elemMapNodup E) : elemMapNodup (insertCount E sym iso n) := by
  obtain ⟨hk, hin⟩ := h
  unfold insertCount
  cases hget : alistGet E sym with
  | none =>
      refine ⟨?_, ?_⟩
      · rw [List.map_append, List.nodup_append]
        refine ⟨hk, List.nodup_singleton _, ?_⟩
        intro x hx hx2
        simp at hx2
        subst hx2
        exact alistGet_none_not_mem hget hx
      · intro se hse
        rcases List.mem_append.mp hse with hm | hm
        · exact hin se hm
        · simp at hm
          subst hm
          simp
  | some inner =>
      dsimp only
      have hmem : (sym, inner) ∈ E := alistGet_mem hget
      have hinodup : (inner.map Prod.fst).Nodup := hin _ hmem
      cases hget2 : alistGet inner iso with
      | some old =>
          dsimp only
          refine ⟨alistSet_keys_nodup hk, ?_⟩
          intro se hse
          rcases mem_alistSet hse with hm | h2
          · exact hin se hm
          · rw [h2]
            exact alistSet_keys_nodup hinodup
      | none =>
          dsimp only
          refine ⟨alistSet_keys_nodup hk, ?_⟩
          intro se hse
          rcases mem_alistSet hse with hm | h2
          · exact hin se hm
          · rw [h2]
            exact alistSet_keys_nodup hinodup

set_option maxHeartbeats 1600000 in
/-- The parser only changes the accumulated element map through
`insertCount`, so any property preserved by `insertCount` and true of the
initial map holds for the parse result. -/
theorem parseRev_preserves (P : ElemMap → Prop)
    (hP : ∀ E sym iso n, P E → P (insertCount E sym iso n)) :
    ∀ (fuel : ℕ) (l : List Char) (E : ElemMap)
    (ele : List Char) (num : ℕ) (counts : List ℕ) (E' : ElemMap),
    P E → parseRev fuel l E ele num counts = .ok E' → P E' := by
  intro fuel
  induction fuel with
  | zero =>
      intro l E ele num counts E' hE h
      cases l with
      | nil =>
          rw [parseRev_nil] at h
          split at h
          · exact absurd h (err_ne_ok _ _)
          · split at h
            · exact absurd h (err_ne_ok _ _)
            · split at h
              · exact absurd h (err_ne_ok _ _)
              · obtain rfl := Except.ok.inj h
                exact hE
      | cons c rest =>
          rw [parseRev_zero_cons] at h
          exact absurd h (err_ne_ok _ _)
  | succ fuel ih =>
      intro l E ele num counts E' hE h
      cases l with
      | nil =>
          rw [parseRev_nil] at h
          split at h
          · exact absurd h (err_ne_ok _ _)
          · split at h
            · exact absurd h (err_ne_ok _ _)
            · split at h
              · exact absurd h (err_ne_ok _ _)
              · obtain rfl := Except.ok.inj h
                exact hE
      | cons c rest =>
          rw [parseRev_succ_cons] at h
          dsimp only at h
          split at h
          · exact absurd h (err_ne_ok _ _)
          · split at h
            · split at h
              · split at h
                · exact absurd h (err_ne_ok _ _)
                · exact ih _ _ _ _ _ _ hE h
              · exact absurd h (err_ne_ok _ _)
            · split at h
              · exact ih _ _ _ _ _ _ hE h
              · split at h
                · split at h
                  · exact absurd h (err_ne_ok _ _)
                  · exact ih _ _ _ _ _ _ hE h
                · split at h
                  · split at h
                    · split at h
                      · exact ih _ _ _ _ _ _ hE h
                      · exact absurd h (err_ne_ok _ _)
                    · exact absurd h (err_ne_ok _ _)
                  · split at h
                    · split at h
                      · exact absurd h (err_ne_ok _ _)
                      · split at h
                        · exact ih _ _ _ _ _ _ (hP _ _ _ _ hE) h
                        · split at h
                          · exact ih _ _ _ _ _ _ (hP _ _ _ _ hE) h
                          · split at h
                            · exact ih _ _ _ _ _ _ (hP _ _ _ _ hE) h
                            · exact absurd h (err_ne_ok _ _)
                    · exact absurd h (err_ne_ok _ _)

/-- A successful parse yields dict-faithful association lists. -/
theorem parseElements_nodup {s : List Char} {E : ElemMap}
    (h : parseElements s = .ok E) : elemMapNodup E := by
  unfold parseElements at h
  split at h
  · exact absurd h (by simp)
  · split at h
    · exact absurd h (by simp)
    · exact parseRev_preserves elemMapNodup
        (fun E sym iso n hE => insertCount_nodup hE) _ _ _ _ _ _ _
        ⟨by simp, by simp⟩ h


/-!  ### `Formula.__sub__`  -/

/-- The inner loop of `Formula.__sub__` for one symbol of the other
formula: subtract each (massnumber, count) from the dict `ele`, failing
when the massnumber is missing or the count would go negative, deleting
entries that reach zero.  (The source mutates a deep copy in place and
deletes the enclosing symbol the moment its dict empties; when further
massnumbers remain they then fail the same `massnumber not in element`
check that the lookup on the emptied dict fails here, so moving the
symbol deletion after the loop preserves behaviour.  Error texts
abbreviate the interpolated f-strings of the source.) -/
def subInner : List (ℕ × ℕ) → List (ℕ × ℕ) → Except PyErr (List (ℕ × ℕ))
  | ele, [] => .ok ele
  | ele, (m, cnt) :: rest =>
      match alistGet ele m with
      | none =>
          .error (.valueError (String.toList "element isotope not in formula"))
      | some old =>
          if old < cnt then
            .error (.valueError (String.toList "negative number of element"))
          else if old = cnt then subInner (alistDel ele m) rest
          else subInner (alistSet ele m (old - cnt)) rest

theorem subInner_nil (ele : List (ℕ × ℕ)) : subInner ele [] = .ok ele := rfl

theorem subInner_cons (ele : List (ℕ × ℕ)) (m cnt : ℕ)
    (rest : List (ℕ × ℕ)) :
    subInner ele ((m, cnt) :: rest) =
      (match alistGet ele m with
      | none =>
          .error (.valueError (String.toList "element isotope not in formula"))
      | some old =>
          if old < cnt then
            .error (.valueError (String.toList "negative number of element"))
          else if old = cnt then subInner (alistDel ele m) rest
          else subInner (alistSet ele m (old - cnt)) rest) := rfl

/-- The outer loop of `Formula.__sub__`: walk the other formula's element
map, subtracting symbol by symbol from (the deep copy of) `self`'s map,
deleting symbols whose selector dict empties. -/
def subElements : ElemMap → ElemMap → Except PyErr ElemMap
  | E, [] => .ok E
  | E, (sym, isotopes) :: rest =>
      match alistGet E sym with
      | none => .error (.valueError (String.toList "element not in formula"))
      | some ele =>
          match subInner ele isotopes with
          | .error err => .error err
          | .ok ele' =>
              subElements
                (if ele'.isEmpty then alistDel E sym else alistSet E sym ele')
                rest

theorem subElements_nil (E : ElemMap) : subElements E [] = .ok E := rfl

theorem subElements_cons (E : ElemMap) (sym : List Char)
    (isotopes : List (ℕ × ℕ)) (rest : ElemMap) :
    subElements E ((sym, isotopes) :: rest) =
      (match alistGet E sym with
      | none => .error (.valueError (String.toList "element not in formula"))
      | some ele =>
          match subInner ele isotopes with
          | .error err => .error err
          | .ok ele' =>
              subElements
                (if ele'.isEmpty then alistDel E sym else alistSet E sym ele')
                rest) := rfl

/-- Does the entry `mc` of the other formula fail against `f`: its isotope
selector absent from `f`'s map for `sym`, or its count larger than `f`'s? -/
def entryBad (f : ElemMap) (sym : List Char) (mc : ℕ × ℕ) : Bool :=
  match lookup2 f sym mc.1 with
  | none => true
  | some v => decide (v < mc.2)

/-- Same failure test against one selector dict. -/
def innerBad (ele : List (ℕ × ℕ)) (mc : ℕ × ℕ) : Bool :=
  match alistGet ele mc.1 with
  | none => true
  | some v => decide (v < mc.2)

/-- The error condition of `__sub__` as stated by the specification: `g`
contains an element symbol or isotope selector absent from `f`'s element
map, or a count in `f` would become negative. -/
def subBad (f g : ElemMap) : Bool :=
  g.any (fun se =>
    (alistGet f se.1).isNone || se.2.any (fun mc => entryBad f se.1 mc))

/-- The specification's pointwise difference of one selector dict of `f`
against the other formula `g`: each count minus `g`'s matching count,
entries that reach zero removed, entries not mentioned by `g` kept. -/
def specSubInner (g : ElemMap) (sym : List Char)
    (inner : List (ℕ × ℕ)) : List (ℕ × ℕ) :=
  inner.filterMap (fun mc =>
    match lookup2 g sym mc.1 with
    | none => some mc
    | some c => if mc.2 - c = 0 then none else some (mc.1, mc.2 - c))

/-- The specification's result map of `f - g`: pointwise differences in
`f`'s dict order, with symbols whose dict empties removed. -/
def specSubMap (f g : ElemMap) : ElemMap :=
  (f.map (fun se => (se.1, specSubInner g se.1 se.2))).filter
    (fun se => !se.2.isEmpty)

/-- Pointwise difference of one selector dict against the one dict of `g`
it is matched with (the form the subtraction loop computes). -/
def specInnerSub (isos : List (ℕ × ℕ)) (inner : List (ℕ × ℕ)) :
    List (ℕ × ℕ) :=
  inner.filterMap (fun mc =>
    match alistGet isos mc.1 with
    | none => some mc
    | some c => if mc.2 - c = 0 then none else some (mc.1, mc.2 - c))

theorem filterMap_congr' {α β : Type} {f g : α → Option β} :
    ∀ {l : List α}, (∀ x ∈ l, f x = g x) → l.filterMap f = l.filterMap g := by
  intro l
  induction l with
  | nil => intro _; rfl
  | cons a t ih =>
      intro h
      rw [List.filterMap_cons, List.filterMap_cons, h a (List.mem_cons_self a t),
        ih (fun x hx => h x (List.mem_cons_of_mem a hx))]

theorem filterMap_some' {α : Type} (l : List α) :
    (l.filterMap fun x => some x) = l := by
  induction l with
  | nil => rfl
  | cons a t ih => rw [List.filterMap_cons]; simp [ih]

theorem specSubInner_head (sym : List Char) (isos : List (ℕ × ℕ))
    (rest : ElemMap) (inner : List (ℕ × ℕ)) :
    specSubInner ((sym, isos) :: rest) sym inner = specInnerSub isos inner := by
  unfold specSubInner specInnerSub
  apply filterMap_congr'
  intro mc _
  simp [lookup2, alistGet]

theorem specSubInner_cons_ne {k sym : List Char} (hne : k ≠ sym)
    (isos : List (ℕ × ℕ)) (rest : ElemMap) (inner : List (ℕ × ℕ)) :
    specSubInner ((sym, isos) :: rest) k inner = specSubInner rest k inner := by
  unfold specSubInner
  apply filterMap_congr'
  intro mc _
  have hsk : ¬ (sym = k) := fun h => hne h.symm
  simp [lookup2, alistGet, hsk]

theorem specSubInner_none {g : ElemMap} {k : List Char}
    (h : alistGet g k = none) (inner : List (ℕ × ℕ)) :
    specSubInner g k inner = inner := by
  unfold specSubInner
  have : ∀ mc ∈ inner, (match lookup2 g k mc.1 with
      | none => some mc
      | some c => if mc.2 - c = 0 then none else some (mc.1, mc.2 - c)) =
      some mc := by
    intro mc _
    unfold lookup2
    rw [h]
  rw [filterMap_congr' this, filterMap_some']

theorem entryBad_eq {E : ElemMap} {sym : List Char} {ele : List (ℕ × ℕ)}
    (h : alistGet E sym = some ele) (mc : ℕ × ℕ) :
    entryBad E sym mc = innerBad ele mc := by
  unfold entryBad innerBad lookup2
  rw [h]

theorem alistGet_not_mem_none {α β : Type} [DecidableEq α]
    {l : List (α × β)} {k : α} (h : k ∉ l.map Prod.fst) :
    alistGet l k = none := by
  cases hx : alistGet l k with
  | none => rfl
  | some v =>
      exact absurd (List.mem_map.mpr ⟨(k, v), alistGet_mem hx, rfl⟩) h


theorem specInnerSub_del {m cnt v : ℕ} {rest : List (ℕ × ℕ)} :
    ∀ {ele : List (ℕ × ℕ)}, (ele.map Prod.fst).Nodup →
    alistGet ele m = some v → v - cnt = 0 →
    specInnerSub ((m, cnt) :: rest) ele = specInnerSub rest (alistDel ele m) := by
  intro ele
  induction ele with
  | nil => intro _ hv _; simp [alistGet] at hv
  | cons hd t ih =>
      intro hnd hv h0
      obtain ⟨k, w⟩ := hd
      simp only [List.map_cons, List.nodup_cons] at hnd
      by_cases hkm : k = m
      · subst hkm
        rw [alistGet, if_pos rfl] at hv
        obtain rfl := Option.some.inj hv
        unfold specInnerSub
        rw [List.filterMap_cons]
        have hhd : (match alistGet ((k, cnt) :: rest) (k, w).1 with
            | none => some (k, w)
            | some c => if (k, w).2 - c = 0 then none
                else some ((k, w).1, (k, w).2 - c)) = none := by
          simp [alistGet, h0]
        rw [hhd, alistDel, if_pos rfl]
        apply filterMap_congr'
        intro mc hmc
        have hne : mc.1 ≠ k := by
          intro hc
          exact hnd.1 (hc ▸ List.mem_map.mpr ⟨mc, hmc, rfl⟩)
        have hkm2 : ¬ (k = mc.1) := fun h => hne h.symm
        simp [alistGet, hkm2]
      · have hv' : alistGet t m = some v := by
          rw [alistGet, if_neg hkm] at hv
          exact hv
        unfold specInnerSub
        rw [alistDel, if_neg hkm]
        rw [List.filterMap_cons, List.filterMap_cons]
        have hhd : (match alistGet ((m, cnt) :: rest) (k, w).1 with
            | none => some (k, w)
            | some c => if (k, w).2 - c = 0 then none
                else some ((k, w).1, (k, w).2 - c)) =
            (match alistGet rest (k, w).1 with
            | none => some (k, w)
            | some c => if (k, w).2 - c = 0 then none
                else some ((k, w).1, (k, w).2 - c)) := by
          have hmk : ¬ (m = k) := fun h => hkm h.symm
          simp [alistGet, hmk]
        rw [hhd]
        have ht := ih hnd.2 hv' h0
        unfold specInnerSub at ht
        rw [ht]

theorem specInnerSub_set {m cnt v : ℕ} {rest : List (ℕ × ℕ)}
    (hrm : alistGet rest m = none) :
    ∀ {ele : List (ℕ × ℕ)}, (ele.map Prod.fst).Nodup →
    alistGet ele m = some v → v - cnt ≠ 0 →
    specInnerSub ((m, cnt) :: rest) ele =
      specInnerSub rest (alistSet ele m (v - cnt)) := by
  intro ele
  induction ele with
  | nil => intro _ hv _; simp [alistGet] at hv
  | cons hd t ih =>
      intro hnd hv h0
      obtain ⟨k, w⟩ := hd
      simp only [List.map_cons, List.nodup_cons] at hnd
      by_cases hkm : k = m
      · subst hkm
        rw [alistGet, if_pos rfl] at hv
        obtain rfl := Option.some.inj hv
        unfold specInnerSub
        rw [alistSet, if_pos rfl]
        rw [List.filterMap_cons, List.filterMap_cons]
        have hhd1 : (match alistGet ((k, cnt) :: rest) (k, w).1 with
            | none => some (k, w)
            | some c => if (k, w).2 - c = 0 then none
                else some ((k, w).1, (k, w).2 - c)) =
            some (k, w - cnt) := by
          simp [alistGet, h0]
        have hhd2 : (match alistGet rest (k, w - cnt).1 with
            | none => some (k, w - cnt)
            | some c => if (k, w - cnt).2 - c = 0 then none
                else some ((k, w - cnt).1, (k, w - cnt).2 - c)) =
            some (k, w - cnt) := by
          simp [hrm]
        rw [hhd1, hhd2]
        dsimp only
        congr 1
        apply filterMap_congr'
        intro mc hmc
        have hne : mc.1 ≠ k := by
          intro hc
          exact hnd.1 (hc ▸ List.mem_map.mpr ⟨mc, hmc, rfl⟩)
        have hkm2 : ¬ (k = mc.1) := fun h => hne h.symm
        simp [alistGet, hkm2]
      · have hv' : alistGet t m = some v := by
          rw [alistGet, if_neg hkm] at hv
          exact hv
        unfold specInnerSub
        rw [alistSet, if_neg hkm]
        rw [List.filterMap_cons, List.filterMap_cons]
        have hhd : (match alistGet ((m, cnt) :: rest) (k, w).1 with
            | none => some (k, w)
            | some c => if (k, w).2 - c = 0 then none
                else some ((k, w).1, (k, w).2 - c)) =
            (match alistGet rest (k, w).1 with
            | none => some (k, w)
            | some c => if (k, w).2 - c = 0 then none
                else some ((k, w).1, (k, w).2 - c)) := by
          have hmk : ¬ (m = k) := fun h => hkm h.symm
          simp [alistGet, hmk]
        rw [hhd]
        have ht := ih hnd.2 hv' h0
        unfold specInnerSub at ht
        rw [ht]

theorem subInner_ok : ∀ {isos ele : List (ℕ × ℕ)},
    (ele.map Prod.fst).Nodup → (isos.map Prod.fst).Nodup →
    (∀ mc ∈ isos, innerBad ele mc = false) →
    subInner ele isos = .ok (specInnerSub isos ele) := by
  intro isos
  induction isos with
  | nil =>
      intro ele _ _ _
      rw [subInner_nil]
      congr 1
      unfold specInnerSub
      have : ∀ mc ∈ ele, (match alistGet ([] : List (ℕ × ℕ)) mc.1 with
          | none => some mc
          | some c => if mc.2 - c = 0 then none
              else some (mc.1, mc.2 - c)) = some mc := by
        intro mc _
        rfl
      rw [filterMap_congr' this, filterMap_some']
  | cons hd rest ih =>
      intro ele hele hisos hgood
      obtain ⟨m, cnt⟩ := hd
      simp only [List.map_cons, List.nodup_cons] at hisos
      have hb := hgood (m, cnt) (List.mem_cons_self _ _)
      cases hget : alistGet ele m with
      | none =>
          unfold innerBad at hb
          rw [hget] at hb
          cases hb
      | some v =>
          unfold innerBad at hb
          rw [hget] at hb
          have hle : ¬ v < cnt := by simpa using hb
          rw [subInner_cons, hget]
          dsimp only
          rw [if_neg hle]
          have hgood' : ∀ mc ∈ rest, mc.1 ≠ m := by
            intro mc hmc hc
            exact hisos.1 (hc ▸ List.mem_map.mpr ⟨mc, hmc, rfl⟩)
          by_cases hveq : v = cnt
          · rw [if_pos hveq]
            rw [ih ((alistDel_keys_sublist ele m).nodup hele) hisos.2 ?good]
            case good =>
              intro mc hmc
              unfold innerBad
              rw [alistGet_del_ne (hgood' mc hmc)]
              exact hgood mc (List.mem_cons_of_mem _ hmc)
            congr 1
            exact (specInnerSub_del hele hget (by omega)).symm
          · rw [if_neg hveq]
            rw [ih (alistSet_keys_nodup hele) hisos.2 ?good2]
            case good2 =>
              intro mc hmc
              unfold innerBad
              rw [alistGet_set, if_neg (fun h => hgood' mc hmc h.symm)]
              exact hgood mc (List.mem_cons_of_mem _ hmc)
            congr 1
            have hrm : alistGet rest m = none :=
              alistGet_not_mem_none hisos.1
            exact (specInnerSub_set hrm hele hget (by omega)).symm

theorem subInner_err : ∀ {isos ele : List (ℕ × ℕ)},
    (isos.map Prod.fst).Nodup →
    (∃ mc ∈ isos, innerBad ele mc = true) →
    ∃ msg, subInner ele isos = .error (.valueError msg) := by
  intro isos
  induction isos with
  | nil =>
      intro ele _ hbad
      obtain ⟨mc, hmc, _⟩ := hbad
      simp at hmc
  | cons hd rest ih =>
      intro ele hisos hbad
      obtain ⟨m, cnt⟩ := hd
      simp only [List.map_cons, List.nodup_cons] at hisos
      cases hget : alistGet ele m with
      | none =>
          refine ⟨String.toList "element isotope not in formula", ?_⟩
          rw [subInner_cons, hget]
      | some v =>
          by_cases hlt : v < cnt
          · refine ⟨String.toList "negative number of element", ?_⟩
            rw [subInner_cons, hget]
            dsimp only
            rw [if_pos hlt]
          · obtain ⟨mc, hmc, hb⟩ := hbad
            rcases List.mem_cons.mp hmc with rfl | hmr
            · unfold innerBad at hb
              rw [hget] at hb
              exact absurd (by simpa using hb) hlt
            · have hne : mc.1 ≠ m := by
                intro hc
                exact hisos.1 (hc ▸ List.mem_map.mpr ⟨mc, hmr, rfl⟩)
              by_cases hveq : v = cnt
              · have hbad2 : ∃ mc2 ∈ rest,
                    innerBad (alistDel ele m) mc2 = true :=
                  ⟨mc, hmr, by
                    unfold innerBad at hb ⊢
                    rw [alistGet_del_ne hne]
                    exact hb⟩
                obtain ⟨msg, hmsg⟩ := ih hisos.2 hbad2
                refine ⟨msg, ?_⟩
                rw [subInner_cons, hget]
                dsimp only
                rw [if_neg hlt, if_pos hveq]
                exact hmsg
              · have hbad2 : ∃ mc2 ∈ rest,
                    innerBad (alistSet ele m (v - cnt)) mc2 = true :=
                  ⟨mc, hmr, by
                    unfold innerBad at hb ⊢
                    rw [alistGet_set, if_neg (fun h => hne h.symm)]
                    exact hb⟩
                obtain ⟨msg, hmsg⟩ := ih hisos.2 hbad2
                refine ⟨msg, ?_⟩
                rw [subInner_cons, hget]
                dsimp only
                rw [if_neg hlt, if_neg hveq]
                exact hmsg

theorem subInner_err_shape : ∀ {isos ele : List (ℕ × ℕ)} {e : PyErr},
    subInner ele isos = .error e → ∃ msg, e = .valueError msg := by
  intro isos
  induction isos with
  | nil =>
      intro ele e h
      rw [subInner_nil] at h
      cases h
  | cons hd rest ih =>
      intro ele e h
      obtain ⟨m, cnt⟩ := hd
      rw [subInner_cons] at h
      cases hget : alistGet ele m with
      | none =>
          rw [hget] at h
          exact ⟨_, (Except.error.inj h).symm⟩
      | some v =>
          rw [hget] at h
          dsimp only at h
          by_cases hlt : v < cnt
          · rw [if_pos hlt] at h
            exact ⟨_, (Except.error.inj h).symm⟩
          · rw [if_neg hlt] at h
            by_cases hveq : v = cnt
            · rw [if_pos hveq] at h
              exact ih h
            · rw [if_neg hveq] at h
              exact ih h

theorem subInner_nodup_out : ∀ {isos ele ele' : List (ℕ × ℕ)},
    (ele.map Prod.fst).Nodup → subInner ele isos = .ok ele' →
    (ele'.map Prod.fst).Nodup := by
  intro isos
  induction isos with
  | nil =>
      intro ele ele' hnd h
      rw [subInner_nil] at h
      obtain rfl := Except.ok.inj h
      exact hnd
  | cons hd rest ih =>
      intro ele ele' hnd h
      obtain ⟨m, cnt⟩ := hd
      rw [subInner_cons] at h
      cases hget : alistGet ele m with
      | none =>
          rw [hget] at h
          cases h
      | some v =>
          rw [hget] at h
          dsimp only at h
          by_cases hlt : v < cnt
          · rw [if_pos hlt] at h; cases h
          · rw [if_neg hlt] at h
            by_cases hveq : v = cnt
            · rw [if_pos hveq] at h
              exact ih ((alistDel_keys_sublist ele m).nodup hnd) h
            · rw [if_neg hveq] at h
              exact ih (alistSet_keys_nodup hnd) h


theorem elemMapNodup_del {E : ElemMap} {sym : List Char}
    (h : elemMapNodup E) : elemMapNodup (alistDel E sym) :=
  ⟨(alistDel_keys_sublist E sym).nodup h.1,
    fun se hse => h.2 se (mem_alistDel hse)⟩

theorem elemMapNodup_set {E : ElemMap} {sym : List Char}
    {v : List (ℕ × ℕ)} (h : elemMapNodup E)
    (hv : (v.map Prod.fst).Nodup) : elemMapNodup (alistSet E sym v) := by
  refine ⟨alistSet_keys_nodup h.1, ?_⟩
  intro se hse
  rcases mem_alistSet hse with hm | h2
  · exact h.2 se hm
  · rw [h2]
    exact hv

theorem subBad_transfer : ∀ {rest E E1 : ElemMap},
    (∀ se ∈ rest, alistGet E1 se.1 = alistGet E se.1) →
    subBad E1 rest = subBad E rest := by
  intro rest
  induction rest with
  | nil => intro E E1 _; rfl
  | cons hd tl ih =>
      intro E E1 h
      have h1 := h hd (List.mem_cons_self hd tl)
      have h2 : ∀ se ∈ tl, alistGet E1 se.1 = alistGet E se.1 :=
        fun se hse => h se (List.mem_cons_of_mem hd hse)
      unfold subBad at *
      simp only [List.any_cons]
      rw [ih h2]
      congr 1
      simp only [entryBad, lookup2, h1]

/-- The step of the result-map characterization: processing one symbol of
`g` against `E` commutes with the pointwise-difference description. -/
theorem specSubMap_step_del {sym : List Char} {isos : List (ℕ × ℕ)}
    {rest : ElemMap} {ele : List (ℕ × ℕ)}
    (hrest : alistGet rest sym = none)
    (hemp : specInnerSub isos ele = []) :
    ∀ {E : ElemMap}, (E.map Prod.fst).Nodup → alistGet E sym = some ele →
    specSubMap E ((sym, isos) :: rest) = specSubMap (alistDel E sym) rest := by
  intro E
  induction E with
  | nil => intro _ hget; simp [alistGet] at hget
  | cons hd t ih =>
      intro hnd hget
      obtain ⟨k, inner⟩ := hd
      simp only [List.map_cons, List.nodup_cons] at hnd
      by_cases hks : k = sym
      · subst hks
        rw [alistGet, if_pos rfl] at hget
        obtain rfl := Option.some.inj hget
        unfold specSubMap
        rw [alistDel, if_pos rfl]
        rw [List.map_cons, List.filter_cons]
        rw [show specSubInner ((k, isos) :: rest) k inner =
          specInnerSub isos inner from specSubInner_head k isos rest inner]
        rw [hemp]
        simp only [List.isEmpty_nil, Bool.not_true, if_false]
        have htl : (t.map (fun se =>
            (se.1, specSubInner ((k, isos) :: rest) se.1 se.2))) =
            (t.map (fun se => (se.1, specSubInner rest se.1 se.2))) := by
          apply List.map_congr_left
          intro se hse
          have hne : se.1 ≠ k := by
            intro hc
            exact hnd.1 (hc ▸ List.mem_map.mpr ⟨se, hse, rfl⟩)
          rw [specSubInner_cons_ne hne]
        rw [htl]
        simp
      · have hget' : alistGet t sym = some ele := by
          rw [alistGet, if_neg hks] at hget
          exact hget
        unfold specSubMap
        rw [alistDel, if_neg hks]
        rw [List.map_cons, List.map_cons, List.filter_cons, List.filter_cons]
        rw [specSubInner_cons_ne hks]
        have ht := ih hnd.2 hget'
        unfold specSubMap at ht
        rw [ht]

theorem specSubMap_step_set {sym : List Char} {isos : List (ℕ × ℕ)}
    {rest : ElemMap} {ele : List (ℕ × ℕ)}
    (hrest : alistGet rest sym = none)
    (hemp : specInnerSub isos ele ≠ []) :
    ∀ {E : ElemMap}, (E.map Prod.fst).Nodup → alistGet E sym = some ele →
    specSubMap E ((sym, isos) :: rest) =
      specSubMap (alistSet E sym (specInnerSub isos ele)) rest := by
  intro E
  induction E with
  | nil => intro _ hget; simp [alistGet] at hget
  | cons hd t ih =>
      intro hnd hget
      obtain ⟨k, inner⟩ := hd
      simp only [List.map_cons, List.nodup_cons] at hnd
      by_cases hks : k = sym
      · subst hks
        rw [alistGet, if_pos rfl] at hget
        obtain rfl := Option.some.inj hget
        unfold specSubMap
        rw [alistSet, if_pos rfl]
        rw [List.map_cons, List.map_cons, List.filter_cons, List.filter_cons]
        rw [show specSubInner ((k, isos) :: rest) k inner =
          specInnerSub isos inner from specSubInner_head k isos rest inner]
        rw [specSubInner_none hrest]
        have htl : (t.map (fun se =>
            (se.1, specSubInner ((k, isos) :: rest) se.1 se.2))) =
            (t.map (fun se => (se.1, specSubInner rest se.1 se.2))) := by
          apply List.map_congr_left
          intro se hse
          have hne : se.1 ≠ k := by
            intro hc
            exact hnd.1 (hc ▸ List.mem_map.mpr ⟨se, hse, rfl⟩)
          rw [specSubInner_cons_ne hne]
        rw [htl]
      · have hget' : alistGet t sym = some ele := by
          rw [alistGet, if_neg hks] at hget
          exact hget
        unfold specSubMap
        rw [alistSet, if_neg hks]
        rw [List.map_cons, List.map_cons, List.filter_cons, List.filter_cons]
        rw [specSubInner_cons_ne hks]
        have ht := ih hnd.2 hget'
        unfold specSubMap at ht
        rw [ht]

theorem subElements_ok : ∀ {g E : ElemMap}, elemMapNodup E →
    (∀ se ∈ E, se.2 ≠ []) →
    (g.map Prod.fst).Nodup → (∀ se ∈ g, (se.2.map Prod.fst).Nodup) →
    subBad E g = false →
    subElements E g = .ok (specSubMap E g) := by
  intro g
  induction g with
  | nil =>
      intro E hnd hne _ _ _
      rw [subElements_nil]
      congr 1
      unfold specSubMap
      have hmap : E.map (fun se => (se.1, specSubInner [] se.1 se.2)) =
          E.map (fun se => se) := by
        apply List.map_congr_left
        intro se _
        rw [specSubInner_none (by rfl)]
      rw [hmap, List.map_id']
      exact (List.filter_eq_self.mpr (fun se hse => by
        simp [isEmpty_false_of_ne_nil (hne se hse)])).symm
  | cons hd rest ih =>
      intro E hnd hne hg hginn hbad
      obtain ⟨sym, isos⟩ := hd
      simp only [List.map_cons, List.nodup_cons] at hg
      unfold subBad at hbad
      rw [List.any_cons] at hbad
      rw [Bool.or_eq_false_iff] at hbad
      obtain ⟨hhd, hrestbad⟩ := hbad
      rw [Bool.or_eq_false_iff] at hhd
      obtain ⟨hsome, hinner⟩ := hhd
      cases hget : alistGet E sym with
      | none => rw [hget] at hsome; cases hsome
      | some ele =>
          have hinner' : ∀ mc ∈ isos, innerBad ele mc = false := by
            intro mc hmc
            rw [← entryBad_eq hget]
            have := List.any_eq_false.mp hinner mc hmc
            simpa using this
          have helenodup : (ele.map Prod.fst).Nodup :=
            hnd.2 _ (alistGet_mem hget)
          have hisosnodup : (isos.map Prod.fst).Nodup :=
            hginn _ (List.mem_cons_self _ _)
          have hginn' : ∀ se ∈ rest, (se.2.map Prod.fst).Nodup :=
            fun se hse => hginn se (List.mem_cons_of_mem _ hse)
          have hsub := subInner_ok helenodup hisosnodup hinner'
          rw [subElements_cons, hget]
          dsimp only
          rw [hsub]
          dsimp only
          have hrest : alistGet rest sym = none := by
            apply alistGet_not_mem_none
            intro hc
            exact hg.1 (by simpa using hc)
          have htrans : ∀ se ∈ rest,
              alistGet (if (specInnerSub isos ele).isEmpty then alistDel E sym
                else alistSet E sym (specInnerSub isos ele)) se.1 =
              alistGet E se.1 := by
            intro se hse
            have hne2 : se.1 ≠ sym := by
              intro hc
              exact hg.1 (hc ▸ List.mem_map.mpr ⟨se, hse, rfl⟩)
            by_cases hemp : (specInnerSub isos ele).isEmpty
            · rw [if_pos hemp, alistGet_del_ne hne2]
            · rw [if_neg hemp, alistGet_set, if_neg (fun h => hne2 h.symm)]
          by_cases hemp : (specInnerSub isos ele).isEmpty
          · rw [if_pos hemp]
            have htrans' : ∀ se ∈ rest,
                alistGet (alistDel E sym) se.1 = alistGet E se.1 := by
              intro se hse
              have hx := htrans se hse
              rw [if_pos hemp] at hx
              exact hx
            have hbad' : subBad (alistDel E sym) rest = false := by
              rw [subBad_transfer htrans']
              exact hrestbad
            rw [ih (elemMapNodup_del hnd)
              (fun se hse => hne se (mem_alistDel hse)) hg.2 hginn' hbad']
            congr 1
            exact (specSubMap_step_del hrest
              (List.isEmpty_iff.mp hemp) hnd.1 hget).symm
          · rw [if_neg hemp]
            have hnodup' : ((specInnerSub isos ele).map Prod.fst).Nodup :=
              subInner_nodup_out helenodup hsub
            have htrans' : ∀ se ∈ rest,
                alistGet (alistSet E sym (specInnerSub isos ele)) se.1 =
                alistGet E se.1 := by
              intro se hse
              have hx := htrans se hse
              rw [if_neg hemp] at hx
              exact hx
            have hbad' : subBad (alistSet E sym (specInnerSub isos ele)) rest =
                false := by
              rw [subBad_transfer htrans']
              exact hrestbad
            have hne' : ∀ se ∈ alistSet E sym (specInnerSub isos ele),
                se.2 ≠ [] := by
              intro se hse
              rcases mem_alistSet hse with hm | h2
              · exact hne se hm
              · rw [h2]
                dsimp only
                exact fun hc => hemp (by rw [hc]; rfl)
            rw [ih (elemMapNodup_set hnd hnodup') hne' hg.2 hginn' hbad']
            congr 1
            exact (specSubMap_step_set hrest
              (fun hc => hemp (by rw [hc]; rfl)) hnd.1 hget).symm

theorem subElements_err : ∀ {g E : ElemMap}, elemMapNodup E →
    (g.map Prod.fst).Nodup → (∀ se ∈ g, (se.2.map Prod.fst).Nodup) →
    subBad E g = true →
    ∃ msg, subElements E g = .error (.valueError msg) := by
  intro g
  induction g with
  | nil =>
      intro E _ _ _ hbad
      cases hbad
  | cons hd rest ih =>
      intro E hnd hg hginn hbad
      obtain ⟨sym, isos⟩ := hd
      simp only [List.map_cons, List.nodup_cons] at hg
      cases hget : alistGet E sym with
      | none =>
          refine ⟨String.toList "element not in formula", ?_⟩
          rw [subElements_cons, hget]
      | some ele =>
          have helenodup : (ele.map Prod.fst).Nodup :=
            hnd.2 _ (alistGet_mem hget)
          have hisosnodup : (isos.map Prod.fst).Nodup :=
            hginn _ (List.mem_cons_self _ _)
          unfold subBad at hbad
          rw [List.any_cons, Bool.or_eq_true] at hbad
          cases hs : subInner ele isos with
          | error err =>
              obtain ⟨msg, hmsg⟩ := subInner_err_shape hs
              refine ⟨msg, ?_⟩
              rw [subElements_cons, hget]
              dsimp only
              rw [hs, hmsg]
          | ok ele' =>
              have hheadok : isos.any (fun mc => entryBad E sym mc) = false := by
                by_contra hcon
                rw [Bool.not_eq_false] at hcon
                rw [List.any_eq_true] at hcon
                obtain ⟨mc, hmc, hb⟩ := hcon
                rw [entryBad_eq hget] at hb
                obtain ⟨msg, hmsg⟩ := subInner_err hisosnodup ⟨mc, hmc, hb⟩
                rw [hmsg] at hs
                cases hs
              have hrestbad : subBad E rest = true := by
                rcases hbad with hh | hr
                · rw [Bool.or_eq_true] at hh
                  rcases hh with h1 | h2
                  · rw [hget] at h1; cases h1
                  · rw [hheadok] at h2; cases h2
                · exact hr
              have hrest : alistGet rest sym = none := by
                apply alistGet_not_mem_none
                intro hc
                exact hg.1 (by simpa using hc)
              have hginn' : ∀ se ∈ rest, (se.2.map Prod.fst).Nodup :=
                fun se hse => hginn se (List.mem_cons_of_mem _ hse)
              have hnodup' : (ele'.map Prod.fst).Nodup :=
                subInner_nodup_out helenodup hs
              have hE1nodup : elemMapNodup
                  (if ele'.isEmpty then alistDel E sym
                    else alistSet E sym ele') := by
                by_cases hemp : ele'.isEmpty
                · rw [if_pos hemp]; exact elemMapNodup_del hnd
                · rw [if_neg hemp]; exact elemMapNodup_set hnd hnodup'
              have htrans : subBad
                  (if ele'.isEmpty then alistDel E sym
                    else alistSet E sym ele') rest = subBad E rest := by
                apply subBad_transfer
                intro se hse
                have hne2 : se.1 ≠ sym := by
                  intro hc
                  exact hg.1 (hc ▸ List.mem_map.mpr ⟨se, hse, rfl⟩)
                by_cases hemp : ele'.isEmpty
                · rw [if_pos hemp, alistGet_del_ne hne2]
                · rw [if_neg hemp, alistGet_set, if_neg (fun h => hne2 h.symm)]
              obtain ⟨msg, hmsg⟩ := ih hE1nodup hg.2 hginn'
                (htrans.trans hrestbad)
              refine ⟨msg, ?_⟩
              rw [subElements_cons, hget]
              dsimp only
              rw [hs]
              dsimp only
              rw [← hmsg]


theorem alistSet_ne_nil {α β : Type} [DecidableEq α] (l : List (α × β))
    (k : α) (v : β) : alistSet l k v ≠ [] := by
  cases l with
  | nil => simp [alistSet]
  | cons hd tl =>
      obtain ⟨a, b⟩ := hd
      rw [alistSet]
      by_cases h : a = k
      · rw [if_pos h]; simp
      · rw [if_neg h]; simp

theorem insertCount_ne_nil {E : ElemMap} {sym : List Char} {iso n : ℕ}
    (h : ∀ se ∈ E, se.2 ≠ []) :
    ∀ se ∈ insertCount E sym iso n, se.2 ≠ [] := by
  unfold insertCount
  cases hget : alistGet E sym with
  | none =>
      dsimp only
      intro se hse
      rcases List.mem_append.mp hse with hm | hm
      · exact h se hm
      · simp at hm
        subst hm
        simp
  | some inner =>
      dsimp only
      cases hget2 : alistGet inner iso with
      | some old =>
          dsimp only
          intro se hse
          rcases mem_alistSet hse with hm | h2
          · exact h se hm
          · rw [h2]
            exact alistSet_ne_nil _ _ _
      | none =>
          dsimp only
          intro se hse
          rcases mem_alistSet hse with hm | h2
          · exact h se hm
          · rw [h2]
            exact alistSet_ne_nil _ _ _

/-- A successful parse yields no empty selector dicts. -/
theorem parseElements_inner_ne_nil {s : List Char} {E : ElemMap}
    (h : parseElements s = .ok E) : ∀ se ∈ E, se.2 ≠ [] := by
  unfold parseElements at h
  split at h
  · exact absurd h (by simp)
  · split at h
    · exact absurd h (by simp)
    · exact parseRev_preserves (fun E => ∀ se ∈ E, se.2 ≠ [])
        (fun E sym iso n hE => insertCount_ne_nil hE) _ _ _ _ _ _ _
        (by simp) h

/-- `Formula.__sub__`: on success the difference map is handed to
`from_elements` with charge `self._charge - other.charge` and the
resulting Hill string becomes the new Formula. -/
def formulaSub (f : ElemMap) (cf : Int) (g : ElemMap) (cg : Int) :
    Except PyErr (List Char) :=
  match subElements f g with
  | .error e => .error e
  | .ok E' => .ok (from_elements E' 1 (cf - cg))

/-- C9: for two successfully parsed formulas `f` and `g`, `f - g` raises
`ValueError` exactly when `g` holds an element symbol or isotope selector
absent from `f`'s element map or a count of `f` would become negative
(`subBad`); on success the resulting element map is the pointwise
difference in `f`'s dict order with zero-count selectors and emptied
symbols removed (`specSubMap`), and the new Formula is built from that
map with charge `f.charge - g.charge`.  (The model is pure: the source
subtracts on a deep copy of `self._elements` and only reads
`other._elements`, so the operands' maps are unchanged by construction.) -/
theorem C9_sub_characterization (s t : List Char) (f g : ElemMap)
    (cf cg : Int)
    (hf : parseElements s = .ok f) (hg : parseElements t = .ok g) :
    (subBad f g = true → ∃ msg, subElements f g = .error (.valueError msg)) ∧
    (subBad f g = false →
      subElements f g = .ok (specSubMap f g) ∧
      formulaSub f cf g cg =
        .ok (from_elements (specSubMap f g) 1 (cf - cg))) := by
  have hfn := parseElements_nodup hf
  have hgn := parseElements_nodup hg
  have hfne := parseElements_inner_ne_nil hf
  constructor
  · intro hbad
    exact subElements_err hfn hgn.1 hgn.2 hbad
  · intro hok
    have hsub := subElements_ok hfn hfne hgn.1 hgn.2 hok
    refine ⟨hsub, ?_⟩
    unfold formulaSub
    rw [hsub]

/-- Witness for C9: `H2O - O = H2` (the doctest of `__sub__`), and
`H2O - C` raises a value error. -/
theorem C9_sub_characterization_witness :
    subElements [(['O'], [(0, 1)]), (['H'], [(0, 2)])] [(['O'], [(0, 1)])] =
      .ok [(['H'], [(0, 2)])] ∧
    formulaSub [(['O'], [(0, 1)]), (['H'], [(0, 2)])] 0
      [(['O'], [(0, 1)])] 0 = .ok (String.toList "H2") ∧
    (∃ msg, subElements [(['O'], [(0, 1)]), (['H'], [(0, 2)])]
      [(['C'], [(0, 1)])] = .error (.valueError msg)) := by
  have h1 := C9_sub_characterization (String.toList "H2O")
    (String.toList "O") [(['O'], [(0, 1)]), (['H'], [(0, 2)])]
    [(['O'], [(0, 1)])] 0 0 (by decide) (by decide)
  have h2 := h1.2 (by decide)
  have h3 := C9_sub_characterization (String.toList "H2O")
    (String.toList "C") [(['O'], [(0, 1)]), (['H'], [(0, 2)])]
    [(['C'], [(0, 1)])] 0 0 (by decide) (by decide)
  refine ⟨?_, ?_, ?_⟩
  · rw [h2.1]
    decide
  · rw [h2.2]
    decide
  · exact h3.1 (by decide)


/-!  ### `from_string` -/

/-- Python `str.strip()`: drop leading and trailing whitespace. -/
def pyStrip (s : List Char) : List Char :=
  ((s.dropWhile pyIsSpace).reverse.dropWhile pyIsSpace).reverse

/-- Python `str.replace(pat, rep)`: leftmost, non-overlapping, all
occurrences.  The fuel is the string length; every step consumes at least
one character. -/
def pyReplaceAux (pat rep : List Char) : ℕ → List Char → List Char
  | 0, s => s
  | fuel + 1, s =>
      match s with
      | [] => []
      | c :: rest =>
          if pat.isPrefixOf (c :: rest) then
            rep ++ pyReplaceAux pat rep fuel ((c :: rest).drop pat.length)
          else c :: pyReplaceAux pat rep fuel rest

/-- Python `str.replace` (an empty pattern, which Python treats by
interspersing, never occurs at the call sites of this file). -/
def pyReplace (s pat rep : List Char) : List Char :=
  if pat.isEmpty then s else pyReplaceAux pat rep s.length s

/-- Python `pat in s` (substring test). -/
def containsSub : List Char → List Char → Bool
  | [], pat => pat.isEmpty
  | c :: t, pat => pat.isPrefixOf (c :: t) || containsSub t pat

/-- The group-abbreviation pass of `from_string`: replace every group
name by its parenthesized formula, walking the names in reverse sorted
order (`reversed(sorted(groups))`), so that longer names sharing a prefix
are substituted first. -/
def groupsExpand (f : List Char) : List Char :=
  ((sortedChars (GROUPS.map Prod.fst)).reverse).foldl
    (fun acc grp =>
      pyReplace acc grp ('(' :: ((alistGet GROUPS grp).getD [] ++ [')'])))
    f

/-- `from_sequence`: count each sequence letter, then emit
`(formula)count` per group key in sorted order; an unknown letter raises
`KeyError` (`counts[item] += 1` on a dict pre-seeded with the group
keys). -/
def from_sequence (seq : List Char) (groups : List (List Char × List Char)) :
    Except PyErr (List Char) :=
  match split_charge seq with
  | .error e => .error e
  | .ok (s, charge) =>
      if s.all (fun c => (alistGet groups [c]).isSome) then
        .ok (join_charge (((sortedChars (groups.map Prod.fst)).map (fun key =>
          let num := s.countP (fun c => [c] == key)
          if num = 1 then '(' :: ((alistGet groups key).getD [] ++ [')'])
          else if num ≠ 0 then
            ('(' :: ((alistGet groups key).getD [] ++ [')'])) ++ natChars num
          else [])).join) charge [])
      else .error .keyError

/-- `from_peptide`: strip spaces and charge, expand the amino-acid
sequence, append one water. -/
def from_peptide (seq : List Char) : Except PyErr (List Char) :=
  let s1 := pyReplace seq [' '] []
  match split_charge s1 with
  | .error e => .error e
  | .ok (s2, charge) =>
      match from_sequence s2 AMINOACIDS with
      | .error e => .error e
      | .ok body =>
          .ok (join_charge ('(' :: (body ++ String.toList "H2O)")) charge [])

/-- `from_oligo`: expand a DNA/RNA sequence over the (deoxy)nucleotide
tables; a double-strand type adds the complement strand and two waters.
(The call sites of this file pass the four lowercase `dtype` literals, so
`dtype.lower()` is the identity.) -/
def from_oligo (seq : List Char) (dtype : List Char) :
    Except PyErr (List Char) :=
  match split_charge seq with
  | .error e => .error e
  | .ok (s1, charge) =>
      let s2 := pyReplace s1 [' '] []
      let rna := containsSub dtype (String.toList "rna")
      let items := if rna then NUCLEOTIDES else DEOXYNUCLEOTIDES
      let comps := if rna then NUCLEOTIDE_COMPLEMENTS
        else DEOXYNUCLEOTIDE_COMPLEMENTS
      if (String.toList "ds").isPrefixOf dtype then
        if s2.all (fun c => (alistGet comps c).isSome) then
          match from_sequence
              (s2 ++ s2.map (fun c => (alistGet comps c).getD c)) items with
          | .error e => .error e
          | .ok body =>
              .ok (join_charge ('(' :: (body ++ String.toList "(H2O)2)"))
                charge [])
        else .error .keyError
      else
        match from_sequence s2 items with
        | .error e => .error e
        | .ok body =>
            .ok (join_charge ('(' :: (body ++ String.toList "H2O)")) charge [])

/-- `re.sub('(D)(?![a-z])', '[2H]', formula)`: every `D` not followed by
a lowercase letter becomes `[2H]`. -/
def deuteriumSub : ℕ → List Char → List Char
  | 0, s => s
  | fuel + 1, s =>
      match s with
      | [] => []
      | c :: rest =>
          if (c == 'D') &&
              !(match rest.head? with
                | some c2 => c2.isLower
                | none => false) then
            String.toList "[2H]" ++ deuteriumSub fuel rest
          else c :: deuteriumSub fuel rest

/-- `re.findall(dtype + '\\((.*?)\\)', formula)`: the literal name, an
opening parenthesis, a lazy newline-free capture, a closing parenthesis;
matches are non-overlapping, scanning resumes after each match. -/
def findCaptures (name : List Char) : ℕ → List Char → List (List Char)
  | 0, _ => []
  | fuel + 1, s =>
      match s with
      | [] => []
      | c :: rest =>
          if (name ++ ['(']).isPrefixOf (c :: rest) then
            let after := (c :: rest).drop (name.length + 1)
            let cap := after.takeWhile (fun x => (x != ')') && (x != '\n'))
            if (after.drop cap.length).head? == some ')' then
              cap :: findCaptures name fuel (after.drop (cap.length + 1))
            else findCaptures name fuel rest
          else findCaptures name fuel rest

/-- The lazy tail `(.*?)(?:(?=\+)|$)` of the arithmetic pattern: the
shortest newline-free run after which a `+` follows (left unconsumed by
the lookahead) or the string ends (`$` also matches before one trailing
newline). -/
def lazyToPlus (s : List Char) : Option (List Char × List Char) :=
  let r := s.takeWhile (fun c => (c != '+') && (c != '\n'))
  let rest := s.drop r.length
  match rest with
  | [] => some (r, [])
  | c :: tail =>
      if c = '+' then some (r, rest)
      else if tail.isEmpty then some (r, rest)
      else none

/-- One attempt of the arithmetic pattern body `((\d+)\*?(.*?))` at an
anchored position: returns (whole group 1, digits, lazy part) and the
suffix at which scanning resumes. -/
def tryArith (s : List Char) :
    Option ((List Char × List Char × List Char) × List Char) :=
  let digits := s.takeWhile Char.isDigit
  if digits.isEmpty then none
  else
    let after := s.drop digits.length
    let star : Bool := match after.head? with
      | some c => c == '*'
      | none => false
    let after2 := if star then after.drop 1 else after
    match lazyToPlus after2 with
    | none => none
    | some (r, resume) =>
        some ((digits ++ (if star then ['*'] else []) ++ r, digits, r), resume)

/-- `re.findall('(?:\\+|^)((\\d+)\\*?(.*?))(?:(?=\\+)|$)', formula)`: the
anchor is the string start or a consumed `+`; on failure the scan
advances one character, on success it resumes at the match end. -/
def arithFind : ℕ → List Char → Bool → List (List Char × List Char × List Char)
  | 0, _, _ => []
  | fuel + 1, s, atStart =>
      match s with
      | [] => []
      | c :: rest =>
          if atStart then
            match tryArith (c :: rest) with
            | some (m, resume) => m :: arithFind fuel resume false
            | none => arithFind fuel rest false
          else if c == '+' then
            match tryArith rest with
            | some (m, resume) => m :: arithFind fuel resume false
            | none => arithFind fuel rest false
          else arithFind fuel rest false

/-- The arithmetic pass of `from_string`: for each match, replace every
occurrence of group 1 by `(rest)digits`, then erase the `+` signs. -/
def arithExpand (f : List Char) : List Char :=
  if f.contains '+' then
    pyReplace
      ((arithFind f.length f true).foldl
        (fun acc m => pyReplace acc m.1 ('(' :: (m.2.2 ++ [')'] ++ m.2.1))) f)
      ['+'] []
  else f

/-- `PREPROCESSORS`, in dict order. -/
def PREPROCESSOR_NAMES : List (List Char) :=
  [String.toList "peptide", String.toList "ssdna", String.toList "dsdna",
    String.toList "ssrna", String.toList "dsrna"]

def applyPre (name arg : List Char) : Except PyErr (List Char) :=
  if name == String.toList "peptide" then from_peptide arg
  else from_oligo arg name

/-- The preprocessor pass of `from_string`: per preprocessor name, find
all `name(...)` matches in the current formula, then replace each
`name(match)` by the preprocessed expansion. -/
def preprocessAll (f : List Char) : Except PyErr (List Char) :=
  PREPROCESSOR_NAMES.foldl (fun acc name =>
    match acc with
    | .error e => .error e
    | .ok f1 =>
        (findCaptures name f1.length f1).foldl (fun acc2 cap =>
          match acc2 with
          | .error e => .error e
          | .ok f2 =>
              match applyPre name cap with
              | .error e => .error e
              | .ok rep =>
                  .ok (pyReplace f2 (name ++ '(' :: (cap ++ [')'])) rep))
          (.ok f1))
    (.ok f)

/-- `from_string`: normalize user input into a canonical formula string.
The mass-fraction branch (taken when both `:` and `,` occur; the source
parses floats and searches integer counts in floating point) is supplied
as the parameter `fractionBranch`, and every theorem below holds for any
implementation of it, in particular the source's.  Note the source's
final `'-'` check (line 1467) only *constructs*
`FormulaError('subtraction not allowed', ...)` without raising it, so a
remaining `-` passes through unrejected. -/
def fromString (fractionBranch : List Char → Except PyErr (List Char))
    (formula : List Char) : Except PyErr (List Char) :=
  let f0 := pyReplace (pyStrip formula) [' '] []
  let f1 := groupsExpand f0
  if f1.contains ':' && f1.contains ',' then fractionBranch f1
  else if decide (1 < f1.length) &&
      (f1.all (fun c => (['A', 'T', 'C', 'G'] : List Char).contains c) &&
        f1.any (fun c => (['A', 'T', 'G'] : List Char).contains c)) then
    from_oligo f1 (String.toList "ssdna")
  else if decide (1 < f1.length) &&
      (f1.all (fun c => (['A', 'U', 'C', 'G'] : List Char).contains c) &&
        f1.any (fun c => (['A', 'G'] : List Char).contains c)) then
    from_oligo f1 (String.toList "ssrna")
  else if decide (1 < f1.length) &&
      (f1.all (fun c => (alistGet AMINOACIDS [c]).isSome) &&
        f1.any (fun c =>
          (['A', 'E', 'G', 'M', 'L', 'Q', 'R', 'T'] : List Char).contains c)) then
    from_peptide f1
  else
    match (if 1 < f1.length then preprocessAll f1 else .ok f1) with
    | .error e => .error e
    | .ok f2 =>
        let f3 := deuteriumSub f2.length f2
        match split_charge f3 with
        | .error e => .error e
        | .ok (f4, charge) =>
            let f5 := arithExpand (pyReplace f4 ['.'] ['+'])
            .ok (if charge ≠ 0 then
                '[' :: (f5 ++ [']'] ++ format_charge charge [])
              else f5)

/-- A fraction-branch implementation used only to instantiate theorems at
concrete inputs; no input below reaches the branch. -/
def noFractions : List Char → Except PyErr (List Char) :=
  fun f => .error (.formulaError f)

set_option maxRecDepth 40000 in
example : fromString noFractions (String.toList "D2O") =
    .ok (String.toList "[2H]2O") := by decide
set_option maxRecDepth 40000 in
example : fromString noFractions (String.toList "PhNH2.HCl") =
    .ok (String.toList "(C6H5)NH2HCl") := by decide
set_option maxRecDepth 40000 in
example : fromString noFractions (String.toList "CuSO4+5*H2O") =
    .ok (String.toList "CuSO4(H2O)5") := by decide
set_option maxRecDepth 40000 in
example : fromString noFractions (String.toList "HLeu2OH") =
    .ok (String.toList "H(C6H11NO)2OH") := by decide
set_option maxRecDepth 40000 in
example : fromString noFractions (String.toList "peptide(GG)") =
    .ok (String.toList "((C2H3NO)2H2O)") := by decide
set_option maxRecDepth 40000 in
example : fromString noFractions (String.toList "ssdna(AC)") =
    .ok (String.toList "((C10H12N5O5P)(C9H12N3O6P)H2O)") := by decide


set_option maxRecDepth 80000 in
/-- C4: normalization does *not* reject `-`.  The source's check
(molmass.py lines 1466-1468) constructs
`FormulaError('subtraction not allowed', formula, ...)` but the `raise`
keyword is missing, so `from_string('C-H')` returns `'C-H'` with the
`-` still in the body — for every implementation of the mass-fraction
branch.  The invalid character is only caught later, when
`Formula._elements` rejects `-` as an `unexpected character`. -/
theorem C4_subtraction_not_raised
    (FB : List Char → Except PyErr (List Char)) :
    fromString FB (String.toList "C-H") = .ok (String.toList "C-H") ∧
    parseElements (String.toList "C-H") =
      .error (.formulaError (String.toList "unexpected character")) := by
  constructor
  · rfl
  · decide

set_option maxRecDepth 80000 in
/-- Witness for C4 at a concrete fraction-branch implementation. -/
theorem C4_subtraction_not_raised_witness :
    fromString noFractions (String.toList "C-H") =
      .ok (String.toList "C-H") ∧
    parseElements (String.toList "C-H") =
      .error (.formulaError (String.toList "unexpected character")) :=
  C4_subtraction_not_raised noFractions

set_option maxRecDepth 80000 in
/-- C8 counterexample to the original claim: `Formula('CuSO4.5H2O')`
normalizes (via `from_string`) to the string `'CuSO4(H2O)5'` — that is
`Formula._formula`, shown by `repr` — but the `.formula` *property* is
the Hill notation `from_elements(self._elements, charge)`, which for
this formula is `'CuH10O9S'`, not `'CuSO4(H2O)5'` (the repo's own test
table lists `('CuSO4.5H2O', 'CuH10O9S', 249.68)`). -/
theorem C8_counterexample :
    fromString noFractions (String.toList "CuSO4.5H2O") =
      .ok (String.toList "CuSO4(H2O)5") ∧
    split_charge (String.toList "CuSO4(H2O)5") =
      .ok (String.toList "CuSO4(H2O)5", 0) ∧
    parseElements (String.toList "CuSO4(H2O)5") =
      .ok [(['O'], [(0, 9)]), (['H'], [(0, 10)]), (['S'], [(0, 1)]),
        (['C', 'u'], [(0, 1)])] ∧
    formulaHill [(['O'], [(0, 9)]), (['H'], [(0, 10)]), (['S'], [(0, 1)]),
      (['C', 'u'], [(0, 1)])] 0 = String.toList "CuH10O9S" ∧
    String.toList "CuH10O9S" ≠ String.toList "CuSO4(H2O)5" := by
  refine ⟨by decide, by decide, by decide, by decide, by decide⟩

set_option maxRecDepth 80000 in
/-- C8 (amended): `from_string('CuSO4.5H2O')` — the normalized
`Formula._formula` string — equals `'CuSO4(H2O)5'` for every
implementation of the mass-fraction branch: the hydrate dot is turned
into `+` and the arithmetic pass rewrites the trailing `5H2O` term as
the grouped multiplier `(H2O)5`; the `.formula` property (Hill
notation) of the resulting element map is `'CuH10O9S'`. -/
theorem C8_hydrate_dot (FB : List Char → Except PyErr (List Char)) :
    fromString FB (String.toList "CuSO4.5H2O") =
      .ok (String.toList "CuSO4(H2O)5") ∧
    parseElements (String.toList "CuSO4(H2O)5") =
      .ok [(['O'], [(0, 9)]), (['H'], [(0, 10)]), (['S'], [(0, 1)]),
        (['C', 'u'], [(0, 1)])] ∧
    formulaHill [(['O'], [(0, 9)]), (['H'], [(0, 10)]), (['S'], [(0, 1)]),
      (['C', 'u'], [(0, 1)])] 0 = String.toList "CuH10O9S" := by
  refine ⟨by rfl, by decide, by decide⟩

set_option maxRecDepth 80000 in
/-- Witness for C8 at a concrete fraction-branch implementation. -/
theorem C8_hydrate_dot_witness :
    fromString noFractions (String.toList "CuSO4.5H2O") =
      .ok (String.toList "CuSO4(H2O)5") ∧
    parseElements (String.toList "CuSO4(H2O)5") =
      .ok [(['O'], [(0, 9)]), (['H'], [(0, 10)]), (['S'], [(0, 1)]),
        (['C', 'u'], [(0, 1)])] ∧
    formulaHill [(['O'], [(0, 9)]), (['H'], [(0, 10)]), (['S'], [(0, 1)]),
      (['C', 'u'], [(0, 1)])] 0 = String.toList "CuH10O9S" :=
  C8_hydrate_dot noFractions


/-!  ### `Formula.spectrum`  -/

/-- Exact comparison `a < b` on rationals by cross-multiplication
(denominators are positive), kernel-evaluable; Python compares floats. -/
def qblt (a b : Rat) : Bool := decide (a.num * b.den < b.num * a.den)

theorem qblt_iff (a b : Rat) : qblt a b = true ↔ a < b := by
  unfold qblt
  rw [decide_eq_true_iff]
  exact Rat.lt_def.symm

/-- Insertion step for sorting spectrum bins by descending mass-number
key (`reversed(sorted(spectrum))`; keys are distinct). -/
def insertBinDesc (x : ℕ × Rat × Rat) :
    List (ℕ × Rat × Rat) → List (ℕ × Rat × Rat)
  | [] => [x]
  | y :: ys => if x.1 < y.1 then y :: insertBinDesc x ys else x :: y :: ys

def sortBinsDesc (l : List (ℕ × Rat × Rat)) : List (ℕ × Rat × Rat) :=
  l.foldr insertBinDesc []

/-- One pass of the specific-isotope branch of `Formula.spectrum` over
the work list of bins (the bins of the previous round in descending key
order), building the next round's dict.  The source iterates the keys in
descending order and deletes每 visited bin, so the old dict drains
completely and only new bins remain; a new key `key + massnumber*count`
always exceeds the key it came from while the still unvisited keys are
smaller, so new keys can only collide with other *new* keys — the
accumulator is therefore an equivalent representation of the single
mutated dict.  Bins below `min_fraction` are skipped (dropped) at
consumption time.  Note: the merge arm reproduces the source's
`s[0] += (s[1]*s[0]+f*m)/(s[1]+f)` — an `+=` where the mixture branch
assigns — so a merged mass is the old mass *plus* the weighted mean. -/
def stepIso (minF isoMass : Rat) (isoNum cnt : ℕ) :
    List (ℕ × Rat × Rat) → List (ℕ × Rat × Rat) → List (ℕ × Rat × Rat)
  | [], acc => acc
  | (key, m0, f) :: work, acc =>
      if qblt f minF then stepIso minF isoMass isoNum cnt work acc
      else
        let m := qadd m0 (qmul isoMass (qofNat cnt))
        let k := key + isoNum * cnt
        match alistGet acc k with
        | some s =>
            stepIso minF isoMass isoNum cnt work
              (alistSet acc k
                (qadd s.1 (qdiv (qadd (qmul s.2 s.1) (qmul f m)) (qadd s.2 f)),
                  qadd s.2 f))
        | none => stepIso minF isoMass isoNum cnt work (acc ++ [(k, m, f)])

/-- The inner isotope loop of the mixture branch: spread one consumed bin
over every natural isotope of the element. -/
def stepMixIso (key : ℕ) (m0 f : Rat) :
    List (ℕ × IsotopeData) → List (ℕ × Rat × Rat) → List (ℕ × Rat × Rat)
  | [], acc => acc
  | (_, iso) :: isos, acc =>
      let fr := qmul f iso.abundance
      let m := qadd m0 iso.mass
      let k := key + iso.massnumber
      match alistGet acc k with
      | some s =>
          stepMixIso key m0 f isos
            (alistSet acc k
              (qdiv (qadd (qmul s.2 s.1) (qmul fr m)) (qadd s.2 fr),
                qadd s.2 fr))
      | none => stepMixIso key m0 f isos (acc ++ [(k, m, fr)])

/-- One pass of the mixture branch (one atom of a natural-abundance
element) over the work list; same dict representation as `stepIso`. -/
def stepMix (minF : Rat) (isos : List (ℕ × IsotopeData)) :
    List (ℕ × Rat × Rat) → List (ℕ × Rat × Rat) → List (ℕ × Rat × Rat)
  | [], acc => acc
  | (key, m0, f) :: work, acc =>
      if qblt f minF then stepMix minF isos work acc
      else stepMix minF isos work (stepMixIso key m0 f isos acc)

/-- `for _ in range(count)`: one mixture pass per atom. -/
def iterMix (minF : Rat) (isos : List (ℕ × IsotopeData)) :
    ℕ → List (ℕ × Rat × Rat) → List (ℕ × Rat × Rat)
  | 0, spec => spec
  | n + 1, spec => iterMix minF isos n (stepMix minF isos (sortBinsDesc spec) [])

/-- The per-element loop of `Formula.spectrum` over one selector dict. -/
def spectrumInner (minF : Rat) (e : ElementData) :
    List (ℕ × ℕ) → List (ℕ × Rat × Rat) → Except PyErr (List (ℕ × Rat × Rat))
  | [], spec => .ok spec
  | (massnumber, count) :: rest, spec =>
      if massnumber ≠ 0 then
        match alistGet e.isotopes massnumber with
        | none => .error .keyError
        | some iso =>
            spectrumInner minF e rest
              (stepIso minF iso.mass iso.massnumber count (sortBinsDesc spec) [])
      else
        spectrumInner minF e rest (iterMix minF e.isotopes count spec)

def spectrumLoop (minF : Rat) :
    ElemMap → List (ℕ × Rat × Rat) → Except PyErr (List (ℕ × Rat × Rat))
  | [], spec => .ok spec
  | (sym, inner) :: rest, spec =>
      match elementsFind sym with
      | none => .error .keyError
      | some e =>
          match spectrumInner minF e inner spec with
          | .error err => .error err
          | .ok spec' => spectrumLoop minF rest spec'

/-- `Formula.spectrum`: start from the seed bin `{0: [0.0, 1.0, 0.0]}`
(the dead third slot is not modelled), combine every atom, then filter by
`min_intensity` when given and apply the electron-mass charge
correction. -/
def spectrumDict (E : ElemMap) (charge : Int) (minF : Rat)
    (minIntensity : Option Rat) : Except PyErr (List (ℕ × Rat × Rat)) :=
  match spectrumLoop minF E [(0, (mkRat 0 1, mkRat 1 1))] with
  | .error e => .error e
  | .ok spec =>
      let filtered : Except PyErr (List (ℕ × Rat × Rat)) :=
        match minIntensity with
        | none => .ok spec
        | some mi =>
            match spec with
            | [] => .error (.valueError
                (String.toList "max arg is an empty sequence"))
            | s0 :: srest =>
                let maxf := srest.foldl
                  (fun m kv => if qblt m kv.2.2 then kv.2.2 else m) s0.2.2
                let norm := qdiv (qofNat 100) maxf
                .ok (spec.filter (fun kv => !(qblt (qmul kv.2.2 norm) mi)))
      match filtered with
      | .error e => .error e
      | .ok spec2 =>
          .ok (if charge ≠ 0 then
              spec2.map (fun kv =>
                (kv.1, qsub kv.2.1 (qmul electronMass (qofInt charge)), kv.2.2))
            else spec2)

/-- The specification's version of the specific-isotope pass: it is fed
only bins at or above the threshold and processes all of them. -/
def stepIsoAll (isoMass : Rat) (isoNum cnt : ℕ) :
    List (ℕ × Rat × Rat) → List (ℕ × Rat × Rat) → List (ℕ × Rat × Rat)
  | [], acc => acc
  | (key, m0, f) :: work, acc =>
      let m := qadd m0 (qmul isoMass (qofNat cnt))
      let k := key + isoNum * cnt
      match alistGet acc k with
      | some s =>
          stepIsoAll isoMass isoNum cnt work
            (alistSet acc k
              (qadd s.1 (qdiv (qadd (qmul s.2 s.1) (qmul f m)) (qadd s.2 f)),
                qadd s.2 f))
      | none => stepIsoAll isoMass isoNum cnt work (acc ++ [(k, m, f)])

/-- The specification's version of the mixture pass. -/
def stepMixAll (isos : List (ℕ × IsotopeData)) :
    List (ℕ × Rat × Rat) → List (ℕ × Rat × Rat) → List (ℕ × Rat × Rat)
  | [], acc => acc
  | (key, m0, f) :: work, acc =>
      stepMixAll isos work (stepMixIso key m0 f isos acc)

/-- Does a bin survive the `min_fraction` test? -/
def keepBin (minF : Rat) (b : ℕ × Rat × Rat) : Bool := !(qblt b.2.2 minF)

theorem stepIso_filter (minF isoMass : Rat) (isoNum cnt : ℕ) :
    ∀ (work acc : List (ℕ × Rat × Rat)),
    stepIso minF isoMass isoNum cnt work acc =
      stepIsoAll isoMass isoNum cnt (work.filter (keepBin minF)) acc := by
  intro work
  induction work with
  | nil => intro acc; rfl
  | cons b work ih =>
      intro acc
      obtain ⟨key, m0, f⟩ := b
      rw [stepIso, List.filter_cons]
      by_cases hb : qblt f minF
      · rw [if_pos hb]
        have : keepBin minF (key, m0, f) = false := by
          simp [keepBin, hb]
        rw [this]
        simp only [Bool.false_eq_true, if_false]
        exact ih acc
      · rw [if_neg hb]
        have hb2 : qblt f minF = false := by
          cases hq : qblt f minF
          · rfl
          · exact absurd hq hb
        have : keepBin minF (key, m0, f) = true := by
          simp [keepBin, hb2]
        rw [this]
        simp only [if_true]
        rw [stepIsoAll]
        cases alistGet acc (key + isoNum * cnt) with
        | some s => exact ih _
        | none => exact ih _

theorem stepMix_filter (minF : Rat) (isos : List (ℕ × IsotopeData)) :
    ∀ (work acc : List (ℕ × Rat × Rat)),
    stepMix minF isos work acc =
      stepMixAll isos (work.filter (keepBin minF)) acc := by
  intro work
  induction work with
  | nil => intro acc; rfl
  | cons b work ih =>
      intro acc
      obtain ⟨key, m0, f⟩ := b
      rw [stepMix, List.filter_cons]
      by_cases hb : qblt f minF
      · rw [if_pos hb]
        have : keepBin minF (key, m0, f) = false := by
          simp [keepBin, hb]
        rw [this]
        simp only [Bool.false_eq_true, if_false]
        exact ih acc
      · rw [if_neg hb]
        have hb2 : qblt f minF = false := by
          cases hq : qblt f minF
          · rfl
          · exact absurd hq hb
        have : keepBin minF (key, m0, f) = true := by
          simp [keepBin, hb2]
        rw [this]
        simp only [if_true]
        rw [stepMixAll]
        exact ih _


/-- C7 (amended): in `Formula.spectrum`, bins below `min_fraction` are
dropped at *consumption* time — each pass over the previous round's bins
(specific-isotope or mixture alike) behaves exactly as if its input had
first been filtered to the bins with fraction at least `min_fraction` and
then every remaining bin were processed.  Consequently the pruning takes
effect one atom *late*: the bins created by the final atom are returned
without any `min_fraction` filtering (only the separate `min_intensity`
filter, when given, runs on the result), so entries of the returned
spectrum may have fraction below `min_fraction` — refuting the original
claim's conclusion. -/
theorem C7_prune_at_consumption (minF isoMass : Rat) (isoNum cnt : ℕ)
    (isos : List (ℕ × IsotopeData)) (work acc : List (ℕ × Rat × Rat)) :
    stepIso minF isoMass isoNum cnt work acc =
      stepIsoAll isoMass isoNum cnt (work.filter (keepBin minF)) acc ∧
    stepMix minF isos work acc =
      stepMixAll isos (work.filter (keepBin minF)) acc :=
  ⟨stepIso_filter minF isoMass isoNum cnt work acc,
    stepMix_filter minF isos work acc⟩

/-- C7 counterexample to the original claim: `Formula('H')` with
`min_fraction = 1/2` returns the deuterium bin with fraction
`0.000115 < 1/2` — the only pass consumes just the seed bin (fraction 1),
and its freshly created bins are never tested against `min_fraction`. -/
theorem C7_counterexample :
    spectrumDict [(['H'], [(0, 1)])] 0 (mkRat 1 2) none =
      .ok [(1, (mkRat 100782503223 100000000000, mkRat 199977 200000)),
        (2, (mkRat 50352544453 25000000000, mkRat 23 200000))] ∧
    qblt (mkRat 23 200000) (mkRat 1 2) = true := by
  exact ⟨by decide, by decide⟩

/-- Witness for C7 at the hydrogen pass with threshold 1/2: the seed bin
is kept, a below-threshold bin is dropped at consumption. -/
theorem C7_prune_at_consumption_witness :
    stepIso (mkRat 1 2) (mkRat 2 1) 2 1
        [(0, (mkRat 0 1, mkRat 1 1)), (3, (mkRat 3 1, mkRat 1 4))] [] =
      stepIsoAll (mkRat 2 1) 2 1
        ([(0, (mkRat 0 1, mkRat 1 1)), (3, (mkRat 3 1, mkRat 1 4))].filter
          (keepBin (mkRat 1 2))) [] ∧
    stepMix (mkRat 1 2) []
        [(0, (mkRat 0 1, mkRat 1 1)), (3, (mkRat 3 1, mkRat 1 4))] [] =
      stepMixAll []
        ([(0, (mkRat 0 1, mkRat 1 1)), (3, (mkRat 3 1, mkRat 1 4))].filter
          (keepBin (mkRat 1 2))) [] :=
  C7_prune_at_consumption (mkRat 1 2) (mkRat 2 1) 2 1 []
    [(0, (mkRat 0 1, mkRat 1 1)), (3, (mkRat 3 1, mkRat 1 4))] []

/-!  ### Parsing Hill output back: single parser steps  -/

/-- The left context admits no isotope acceptance: any digit run at its
head is followed by a character that is not an opening bracket. -/
def noAcceptCtx (L : List Char) : Prop :=
  L.takeWhile Char.isDigit ≠ [] →
    ∃ x, (L.dropWhile Char.isDigit).head? = some x ∧
      openBrackets.contains x = false

theorem elementsFind_shape {sym : List Char} {e : ElementData}
    (h : elementsFind sym = some e) :
    (∃ u, sym = [u] ∧ u.isUpper = true ∧
      validFirstChars.contains u = true) ∨
    (∃ u l, sym = [u, l] ∧ u.isUpper = true ∧
      validFirstChars.contains u = true ∧ l.isLower = true ∧
      validChars.contains l = true) := by
  obtain ⟨hmem, hsym⟩ := elementsFind_spec h
  have hok := ELEMENTS_symbolOk e hmem
  rw [hsym] at hok
  match sym, hok with
  | [u], hok =>
      simp only [symbolOk, Bool.and_eq_true] at hok
      exact Or.inl ⟨u, rfl, hok.1, hok.2⟩
  | [u, l], hok =>
      simp only [symbolOk, Bool.and_eq_true] at hok
      exact Or.inr ⟨u, l, rfl, hok.1.1.1, hok.1.1.2, hok.1.2, hok.2⟩

theorem close_step (fuel : ℕ) (R : List Char) (E : ElemMap) (num : ℕ)
    (counts : List ℕ) :
    parseRev (fuel + 1) (']' :: R) E [] num counts =
      parseRev fuel R E [] 0
        (((if num = 0 then 1 else num) * countsTop counts) :: counts) := by
  rw [parseRev_succ_cons]
  rw [if_neg (by decide), if_neg (by decide), if_pos (by decide)]

theorem open_step (fuel : ℕ) (R : List Char) (E : ElemMap) (a b : ℕ)
    (rest : List ℕ) :
    parseRev (fuel + 1) ('[' :: R) E [] 0 (a :: b :: rest) =
      parseRev fuel R E [] 0 (b :: rest) := by
  rw [parseRev_succ_cons]
  rw [if_neg (by decide), if_pos (by decide)]
  dsimp only
  rw [if_neg (by simp)]

theorem digits_step (fuel n : ℕ) (hn : 1 ≤ n) (R : List Char)
    (hR : ∀ x, R.head? = some x → x.isDigit = false) (E : ElemMap)
    (counts : List ℕ) :
    parseRev (fuel + 1) ((natChars n).reverse ++ R) E [] 0 counts =
      parseRev fuel R E [] n counts := by
  obtain ⟨b, B, hB⟩ : ∃ b B, (natChars n).reverse = b :: B := by
    cases hx : (natChars n).reverse with
    | nil => exact absurd hx (by simp [natChars_ne_nil n])
    | cons b B => exact ⟨b, B, rfl⟩
  have hdigs : ∀ c ∈ (natChars n).reverse, c.isDigit = true := by
    intro c hc
    exact natChars_all_digit n c (List.mem_reverse.mp hc)
  have hbd : b.isDigit = true := hdigs b (by rw [hB]; exact List.mem_cons_self b B)
  have hBdig : ∀ c ∈ B, c.isDigit = true := by
    intro c hc
    exact hdigs c (by rw [hB]; exact List.mem_cons_of_mem b hc)
  have hlist : (natChars n).reverse ++ R = b :: (B ++ R) := by rw [hB]; rfl
  rw [hlist, parseRev_succ_cons]
  rw [if_neg (by simp [mem_of_contains (isDigit_facts hbd).1])]
  rw [if_neg (by simp [not_mem_of_contains_false (isDigit_facts hbd).2.1])]
  rw [if_neg (by simp [not_mem_of_contains_false (isDigit_facts hbd).2.2.1])]
  rw [if_pos hbd]
  dsimp only
  rw [takeWhile_all_append hBdig R, dropWhile_all_append hBdig R]
  rw [takeWhile_eq_nil_of_head hR, dropWhile_eq_self_of_head hR,
    List.append_nil]
  rw [show b :: B = (natChars n).reverse from hB.symm]
  rw [List.reverse_reverse, charsToNat_natChars]
  rw [if_neg (by omega)]

theorem lower_step (fuel : ℕ) (l u : Char) (hl : l.isLower = true)
    (hlv : validChars.contains l = true) (hu : u.isUpper = true)
    (R : List Char) (E : ElemMap) (num : ℕ) (counts : List ℕ) :
    parseRev (fuel + 1) (l :: u :: R) E [] num counts =
      parseRev fuel (u :: R) E [l] num counts := by
  rw [parseRev_succ_cons]
  rw [if_neg (by simp [mem_of_contains hlv])]
  rw [if_neg (by simp [not_mem_of_contains_false (isLower_not_open hl)])]
  rw [if_neg (by simp [not_mem_of_contains_false (isLower_not_close hl)])]
  rw [if_neg (by simp [isLower_not_digit hl])]
  rw [if_pos hl]
  dsimp only
  rw [if_pos hu]

theorem upper_step_noiso (fuel : ℕ) (u : Char) (ele : List Char)
    (e : ElementData) (hfind : elementsFind (u :: ele) = some e)
    (hu : u.isUpper = true) (huv : validChars.contains u = true)
    (R : List Char) (hR : noAcceptCtx R) (E : ElemMap) (num : ℕ)
    (counts : List ℕ) :
    parseRev (fuel + 1) (u :: R) E ele num counts =
      parseRev fuel R (insertCount E (u :: ele) 0
        ((if num = 0 then 1 else num) * countsTop counts)) [] 0 counts := by
  rw [parseRev_succ_cons]
  rw [if_neg (by simp [mem_of_contains huv])]
  rw [if_neg (by simp [not_mem_of_contains_false (isUpper_not_open hu)])]
  rw [if_neg (by simp [not_mem_of_contains_false (isUpper_not_close hu)])]
  rw [if_neg (by simp [isUpper_not_digit hu])]
  rw [if_neg (by simp [isUpper_not_lower hu])]
  rw [if_pos hu]
  dsimp only
  rw [hfind]
  dsimp only
  by_cases hdig : R.takeWhile Char.isDigit = []
  · rw [hdig]
    simp only [List.isEmpty_nil, Bool.not_true, Bool.false_and]
    rw [if_neg (by simp)]
    rw [if_pos trivial]
  · obtain ⟨x, hx, hxo⟩ := hR hdig
    rw [isEmpty_false_of_ne_nil hdig, hx]
    dsimp only
    rw [hxo]
    rw [if_pos (by decide)]

theorem upper_step_iso (fuel : ℕ) (u : Char) (ele : List Char)
    (e : ElementData) (mn : ℕ) (hfind : elementsFind (u :: ele) = some e)
    (hu : u.isUpper = true) (huv : validChars.contains u = true)
    (hmn : 1 ≤ mn) (hiso : (alistGet e.isotopes mn).isSome = true)
    (L : List Char) (E : ElemMap) (num : ℕ) (counts : List ℕ) :
    parseRev (fuel + 1) (u :: ((natChars mn).reverse ++ '[' :: L)) E ele
        num counts =
      parseRev fuel ('[' :: L) (insertCount E (u :: ele) mn
        ((if num = 0 then 1 else num) * countsTop counts)) [] 0 counts := by
  have hdigs : ∀ c ∈ (natChars mn).reverse, c.isDigit = true := by
    intro c hc
    exact natChars_all_digit mn c (List.mem_reverse.mp hc)
  have hrne : (natChars mn).reverse ≠ [] := by simp [natChars_ne_nil mn]
  rw [parseRev_succ_cons]
  rw [if_neg (by simp [mem_of_contains huv])]
  rw [if_neg (by simp [not_mem_of_contains_false (isUpper_not_open hu)])]
  rw [if_neg (by simp [not_mem_of_contains_false (isUpper_not_close hu)])]
  rw [if_neg (by simp [isUpper_not_digit hu])]
  rw [if_neg (by simp [isUpper_not_lower hu])]
  rw [if_pos hu]
  dsimp only
  rw [hfind]
  dsimp only
  rw [takeWhile_all_append hdigs ('[' :: L), dropWhile_all_append hdigs ('[' :: L)]
  rw [show ('[' :: L).takeWhile Char.isDigit = [] from rfl]
  rw [show ('[' :: L).dropWhile Char.isDigit = '[' :: L from rfl]
  rw [List.append_nil]
  rw [isEmpty_false_of_ne_nil hrne]
  dsimp only [List.head?]
  rw [show openBrackets.contains '[' = true from rfl]
  simp only [Bool.not_false, Bool.not_true, Bool.and_false]
  rw [if_neg (by simp), if_neg (by simp)]
  rw [List.reverse_reverse, charsToNat_natChars]
  rw [if_pos hiso]


/-- Number of parser iterations consumed by one `from_elements` token
(digit runs are consumed in a single iteration). -/
def tokenSteps (sym : List Char) (mn cnt : ℕ) : ℕ :=
  (if cnt = 1 then 0 else 1) + (if mn = 0 then 0 else 2) + sym.length

/-- Parsing one `from_elements` token from the right: it contributes
exactly one `insertCount` and returns the parser to the neutral state. -/
theorem token_step (sym : List Char) (e : ElementData) (mn cnt : ℕ)
    (hfind : elementsFind sym = some e)
    (hiso : mn ≠ 0 → (alistGet e.isotopes mn).isSome = true)
    (hcnt : 1 ≤ cnt)
    (L : List Char) (hL : noAcceptCtx L)
    (E : ElemMap) (fuel : ℕ) :
    parseRev (fuel + tokenSteps sym mn cnt)
        ((elementToken sym mn cnt).reverse ++ L) E [] 0 [1] =
      parseRev fuel L (insertCount E sym mn cnt) [] 0 [1] := by
  have hC1 : ((1 : ℕ) * countsTop [1]) = 1 := by simp [countsTop]
  rcases elementsFind_shape hfind with ⟨u, rfl, hu, hufc⟩ |
    ⟨u, l, rfl, hu, hufc, hl, hlv⟩
  all_goals have huv : validChars.contains u = true := contains_append_left hufc
  · -- one-letter symbol
    by_cases hmn : mn = 0
    · subst hmn
      by_cases hcnt1 : cnt = 1
      · subst hcnt1
        have hsteps : tokenSteps [u] 0 1 = 1 := by simp [tokenSteps]
        have htok : (elementToken [u] 0 1).reverse ++ L = u :: L := by
          simp [elementToken]
        rw [hsteps, htok]
        rw [upper_step_noiso fuel u [] e hfind hu huv L hL E 0 [1]]
        rw [show ((if (0 : ℕ) = 0 then 1 else 0) * countsTop [1]) = 1 by
          simp [countsTop]]
      · have hsteps : tokenSteps [u] 0 cnt = 2 := by simp [tokenSteps, hcnt1]
        have htok : (elementToken [u] 0 cnt).reverse ++ L =
            (natChars cnt).reverse ++ (u :: L) := by
          simp [elementToken, hcnt1]
        rw [hsteps, htok]
        rw [show fuel + 2 = fuel + 1 + 1 from rfl]
        rw [digits_step (fuel + 1) cnt hcnt (u :: L)
          (by intro x hx; obtain rfl := Option.some.inj hx
              exact isUpper_not_digit hu) E [1]]
        rw [upper_step_noiso fuel u [] e hfind hu huv L hL E cnt [1]]
        rw [show ((if cnt = 0 then 1 else cnt) * countsTop [1]) = cnt by
          rw [if_neg (by omega)]; simp [countsTop]]
    · have hiso' := hiso hmn
      by_cases hcnt1 : cnt = 1
      · subst hcnt1
        have hsteps : tokenSteps [u] mn 1 = 3 := by simp [tokenSteps, hmn]
        have htok : (elementToken [u] mn 1).reverse ++ L =
            ']' :: (u :: ((natChars mn).reverse ++ '[' :: L)) := by
          simp [elementToken, hmn]
        rw [hsteps, htok]
        rw [show fuel + 3 = fuel + 1 + 1 + 1 from rfl]
        rw [close_step (fuel + 1 + 1) _ E 0 [1]]
        rw [upper_step_iso (fuel + 1) u [] e mn hfind hu huv (by omega)
          hiso' L E 0 _]
        rw [open_step fuel L _ _ _ _]
        rw [show ((if (0 : ℕ) = 0 then 1 else 0) *
            countsTop (((if (0 : ℕ) = 0 then 1 else 0) * countsTop [1]) :: [1]))
            = 1 by simp [countsTop]]
      · have hsteps : tokenSteps [u] mn cnt = 4 := by
          simp [tokenSteps, hmn, hcnt1]
        have htok : (elementToken [u] mn cnt).reverse ++ L =
            (natChars cnt).reverse ++
              (']' :: (u :: ((natChars mn).reverse ++ '[' :: L))) := by
          simp [elementToken, hmn, hcnt1]
        rw [hsteps, htok]
        rw [show fuel + 4 = fuel + 1 + 1 + 1 + 1 from rfl]
        rw [digits_step (fuel + 1 + 1 + 1) cnt hcnt _
          (by intro x hx; obtain rfl := Option.some.inj hx; rfl) E [1]]
        rw [close_step (fuel + 1 + 1) _ E cnt [1]]
        rw [upper_step_iso (fuel + 1) u [] e mn hfind hu huv (by omega)
          hiso' L E 0 _]
        rw [open_step fuel L _ _ _ _]
        rw [show ((if (0 : ℕ) = 0 then 1 else 0) *
            countsTop (((if cnt = 0 then 1 else cnt) * countsTop [1]) :: [1]))
            = cnt by simp [countsTop, show cnt ≠ 0 by omega]]
  · -- two-letter symbol
    by_cases hmn : mn = 0
    · subst hmn
      by_cases hcnt1 : cnt = 1
      · subst hcnt1
        have hsteps : tokenSteps [u, l] 0 1 = 2 := by simp [tokenSteps]
        have htok : (elementToken [u, l] 0 1).reverse ++ L =
            l :: (u :: L) := by simp [elementToken]
        rw [hsteps, htok]
        rw [show fuel + 2 = fuel + 1 + 1 from rfl]
        rw [lower_step (fuel + 1) l u hl hlv hu L E 0 [1]]
        rw [upper_step_noiso fuel u [l] e hfind hu huv L hL E 0 [1]]
        rw [show ((if (0 : ℕ) = 0 then 1 else 0) * countsTop [1]) = 1 by
          simp [countsTop]]
      · have hsteps : tokenSteps [u, l] 0 cnt = 3 := by
          simp [tokenSteps, hcnt1]
        have htok : (elementToken [u, l] 0 cnt).reverse ++ L =
            (natChars cnt).reverse ++ (l :: (u :: L)) := by
          simp [elementToken, hcnt1]
        rw [hsteps, htok]
        rw [show fuel + 3 = fuel + 1 + 1 + 1 from rfl]
        rw [digits_step (fuel + 1 + 1) cnt hcnt (l :: (u :: L))
          (by intro x hx; obtain rfl := Option.some.inj hx
              exact isLower_not_digit hl) E [1]]
        rw [lower_step (fuel + 1) l u hl hlv hu L E cnt [1]]
        rw [upper_step_noiso fuel u [l] e hfind hu huv L hL E cnt [1]]
        rw [show ((if cnt = 0 then 1 else cnt) * countsTop [1]) = cnt by
          rw [if_neg (by omega)]; simp [countsTop]]
    · have hiso' := hiso hmn
      by_cases hcnt1 : cnt = 1
      · subst hcnt1
        have hsteps : tokenSteps [u, l] mn 1 = 4 := by simp [tokenSteps, hmn]
        have htok : (elementToken [u, l] mn 1).reverse ++ L =
            ']' :: (l :: (u :: ((natChars mn).reverse ++ '[' :: L))) := by
          simp [elementToken, hmn]
        rw [hsteps, htok]
        rw [show fuel + 4 = fuel + 1 + 1 + 1 + 1 from rfl]
        rw [close_step (fuel + 1 + 1 + 1) _ E 0 [1]]
        rw [lower_step (fuel + 1 + 1) l u hl hlv hu _ E 0 _]
        rw [upper_step_iso (fuel + 1) u [l] e mn hfind hu huv (by omega)
          hiso' L E 0 _]
        rw [open_step fuel L _ _ _ _]
        rw [show ((if (0 : ℕ) = 0 then 1 else 0) *
            countsTop (((if (0 : ℕ) = 0 then 1 else 0) * countsTop [1]) :: [1]))
            = 1 by simp [countsTop]]
      · have hsteps : tokenSteps [u, l] mn cnt = 5 := by
          simp [tokenSteps, hmn, hcnt1]
        have htok : (elementToken [u, l] mn cnt).reverse ++ L =
            (natChars cnt).reverse ++
              (']' :: (l :: (u :: ((natChars mn).reverse ++ '[' :: L)))) := by
          simp [elementToken, hmn, hcnt1]
        rw [hsteps, htok]
        rw [show fuel + 5 = fuel + 1 + 1 + 1 + 1 + 1 from rfl]
        rw [digits_step (fuel + 1 + 1 + 1 + 1) cnt hcnt _
          (by intro x hx; obtain rfl := Option.some.inj hx; rfl) E [1]]
        rw [close_step (fuel + 1 + 1 + 1) _ E cnt [1]]
        rw [lower_step (fuel + 1 + 1) l u hl hlv hu _ E 0 _]
        rw [upper_step_iso (fuel + 1) u [l] e mn hfind hu huv (by omega)
          hiso' L E 0 _]
        rw [open_step fuel L _ _ _ _]
        rw [show ((if (0 : ℕ) = 0 then 1 else 0) *
            countsTop (((if cnt = 0 then 1 else cnt) * countsTop [1]) :: [1]))
            = cnt by simp [countsTop, show cnt ≠ 0 by omega]]


/-- One (symbol, selector, count) entry of the Hill token list. -/
def tripleToken (t : List Char × ℕ × ℕ) : List Char :=
  elementToken t.1 t.2.1 t.2.2

def tokensText (toks : List (List Char × ℕ × ℕ)) : List Char :=
  (toks.map tripleToken).join

def tripleOk (t : List Char × ℕ × ℕ) : Prop :=
  (∃ e, elementsFind t.1 = some e ∧
    (t.2.1 ≠ 0 → (alistGet e.isotopes t.2.1).isSome = true)) ∧ 1 ≤ t.2.2

def tokensSteps (toks : List (List Char × ℕ × ℕ)) : ℕ :=
  (toks.map (fun t => tokenSteps t.1 t.2.1 t.2.2)).sum

theorem noAccept_of_head_nondigit {L : List Char}
    (h : ∀ x, L.head? = some x → x.isDigit = false) : noAcceptCtx L := by
  intro hne
  exact absurd (takeWhile_eq_nil_of_head h) hne

theorem noAccept_digits_head (n : ℕ) (c : Char) (hd : c.isDigit = false)
    (ho : openBrackets.contains c = false) (R : List Char) :
    noAcceptCtx ((natChars n).reverse ++ (c :: R)) := by
  intro _
  refine ⟨c, ?_, ho⟩
  have hdigs : ∀ x ∈ (natChars n).reverse, x.isDigit = true := fun x hx =>
    natChars_all_digit n x (List.mem_reverse.mp hx)
  rw [dropWhile_all_append hdigs (c :: R)]
  rw [dropWhile_eq_self_of_head (by
    intro x hx
    obtain rfl := Option.some.inj hx
    exact hd)]
  rfl

/-- A reversed token never begins with an accepted isotope context: any
digit run at its head (a count) is followed by `]` or a symbol letter. -/
theorem token_noAccept (sym : List Char) (e : ElementData) (mn cnt : ℕ)
    (hfind : elementsFind sym = some e) (rest : List Char) :
    noAcceptCtx ((elementToken sym mn cnt).reverse ++ rest) := by
  rcases elementsFind_shape hfind with ⟨u, rfl, hu, hufc⟩ |
    ⟨u, l, rfl, hu, hufc, hl, hlv⟩ <;>
    by_cases hmn : mn = 0 <;> by_cases hcnt1 : cnt = 1
  · subst hmn; subst hcnt1
    rw [show (elementToken [u] 0 1).reverse ++ rest = u :: rest by
      simp [elementToken]]
    exact noAccept_of_head_nondigit (by
      intro x hx
      obtain rfl := Option.some.inj hx
      exact isUpper_not_digit hu)
  · subst hmn
    rw [show (elementToken [u] 0 cnt).reverse ++ rest =
        (natChars cnt).reverse ++ (u :: rest) by simp [elementToken, hcnt1]]
    exact noAccept_digits_head cnt u (isUpper_not_digit hu)
      (isUpper_not_open hu) rest
  · subst hcnt1
    rw [show (elementToken [u] mn 1).reverse ++ rest =
        ']' :: (u :: ((natChars mn).reverse ++ '[' :: rest)) by
      simp [elementToken, hmn]]
    exact noAccept_of_head_nondigit (by
      intro x hx
      obtain rfl := Option.some.inj hx
      rfl)
  · rw [show (elementToken [u] mn cnt).reverse ++ rest =
        (natChars cnt).reverse ++
          (']' :: (u :: ((natChars mn).reverse ++ '[' :: rest))) by
      simp [elementToken, hmn, hcnt1]]
    exact noAccept_digits_head cnt ']' (by decide) (by decide) _
  · subst hmn; subst hcnt1
    rw [show (elementToken [u, l] 0 1).reverse ++ rest = l :: (u :: rest) by
      simp [elementToken]]
    exact noAccept_of_head_nondigit (by
      intro x hx
      obtain rfl := Option.some.inj hx
      exact isLower_not_digit hl)
  · subst hmn
    rw [show (elementToken [u, l] 0 cnt).reverse ++ rest =
        (natChars cnt).reverse ++ (l :: (u :: rest)) by
      simp [elementToken, hcnt1]]
    exact noAccept_digits_head cnt l (isLower_not_digit hl)
      (isLower_not_open hl) _
  · subst hcnt1
    rw [show (elementToken [u, l] mn 1).reverse ++ rest =
        ']' :: (l :: (u :: ((natChars mn).reverse ++ '[' :: rest))) by
      simp [elementToken, hmn]]
    exact noAccept_of_head_nondigit (by
      intro x hx
      obtain rfl := Option.some.inj hx
      rfl)
  · rw [show (elementToken [u, l] mn cnt).reverse ++ rest =
        (natChars cnt).reverse ++
          (']' :: (l :: (u :: ((natChars mn).reverse ++ '[' :: rest)))) by
      simp [elementToken, hmn, hcnt1]]
    exact noAccept_digits_head cnt ']' (by decide) (by decide) _

theorem tokensText_noAccept (toks : List (List Char × ℕ × ℕ))
    (hok : ∀ t ∈ toks, tripleOk t) :
    noAcceptCtx ((tokensText toks).reverse) := by
  induction toks using List.reverseRecOn with
  | nil =>
      intro hne
      exact absurd rfl hne
  | append_singleton init t _ =>
      obtain ⟨⟨e, hfind, _⟩, _⟩ := hok t (by simp)
      have htext : (tokensText (init ++ [t])).reverse =
          (elementToken t.1 t.2.1 t.2.2).reverse ++ (tokensText init).reverse := by
        simp [tokensText, tripleToken, List.reverse_append]
      rw [htext]
      exact token_noAccept t.1 e t.2.1 t.2.2 hfind _

/-- Parsing a whole reversed token sequence folds the corresponding
`insertCount`s over the map, rightmost token first. -/
theorem tokens_step (toks : List (List Char × ℕ × ℕ)) :
    ∀ (E : ElemMap) (fuel : ℕ),
    (∀ t ∈ toks, tripleOk t) →
    parseRev (fuel + tokensSteps toks) ((tokensText toks).reverse) E [] 0 [1] =
      parseRev fuel []
        (toks.reverse.foldl (fun F t => insertCount F t.1 t.2.1 t.2.2) E)
        [] 0 [1] := by
  induction toks using List.reverseRecOn with
  | nil =>
      intro E fuel _
      simp [tokensText, tokensSteps]
  | append_singleton init t ih =>
      intro E fuel hok
      obtain ⟨⟨e, hfind, hiso⟩, hcnt⟩ := hok t (by simp)
      have htext : (tokensText (init ++ [t])).reverse =
          (elementToken t.1 t.2.1 t.2.2).reverse ++ (tokensText init).reverse := by
        simp [tokensText, tripleToken, List.reverse_append]
      have hsteps : fuel + tokensSteps (init ++ [t]) =
          (fuel + tokensSteps init) + tokenSteps t.1 t.2.1 t.2.2 := by
        simp [tokensSteps]
        omega
      rw [htext, hsteps]
      rw [token_step t.1 e t.2.1 t.2.2 hfind hiso hcnt _
        (tokensText_noAccept init (fun t' ht' => hok t'
          (List.mem_append.mpr (Or.inl ht')))) E _]
      rw [ih (insertCount E t.1 t.2.1 t.2.2) fuel
        (fun t' ht' => hok t' (List.mem_append.mpr (Or.inl ht')))]
      congr 1
      simp [List.reverse_append]


theorem mem_of_contains2 {l : List (List Char)} {c : List Char}
    (h : l.contains c = true) : c ∈ l := by
  have h2 : List.elem c l = true := h
  exact List.mem_of_elem_eq_true h2

theorem insertSortedChars_perm (x : List Char) (l : List (List Char)) :
    List.Perm (insertSortedChars x l) (x :: l) := by
  induction l with
  | nil => exact List.Perm.refl _
  | cons y ys ih =>
      rw [insertSortedChars]
      by_cases h : charsLt y x = true
      · rw [if_pos h]
        exact List.Perm.trans (List.Perm.cons y ih) (List.Perm.swap x y ys)
      · rw [if_neg h]

theorem sortedChars_perm (l : List (List Char)) :
    List.Perm (sortedChars l) l := by
  induction l with
  | nil => exact List.Perm.refl _
  | cons a t ih =>
      exact List.Perm.trans (insertSortedChars_perm a (sortedChars t))
        (List.Perm.cons a ih)

theorem insertSortedNat_perm (x : ℕ) (l : List ℕ) :
    List.Perm (insertSortedNat x l) (x :: l) := by
  induction l with
  | nil => exact List.Perm.refl _
  | cons y ys ih =>
      rw [insertSortedNat]
      by_cases h : y < x
      · rw [if_pos h]
        exact List.Perm.trans (List.Perm.cons y ih) (List.Perm.swap x y ys)
      · rw [if_neg h]

theorem sortedNat_perm (l : List ℕ) : List.Perm (sortedNat l) l := by
  induction l with
  | nil => exact List.Perm.refl _
  | cons a t ih =>
      exact List.Perm.trans (insertSortedNat_perm a (sortedNat t))
        (List.Perm.cons a ih)

theorem hill_sorted_mem (l : List (List Char)) (x : List Char) :
    x ∈ hill_sorted l ↔ x ∈ l := by
  unfold hill_sorted
  by_cases hC : l.contains ['C'] = true
  · rw [if_pos hC]
    constructor
    · intro hx
      rcases List.mem_cons.mp hx with rfl | hx2
      · exact mem_of_contains2 hC
      · rcases List.mem_append.mp hx2 with hxh | hxs
        · by_cases hH : l.contains ['H'] = true
          · rw [if_pos hH] at hxh
            rcases List.mem_cons.mp hxh with rfl | habs
            · exact mem_of_contains2 hH
            · exact absurd habs (List.not_mem_nil _)
          · rw [if_neg hH] at hxh
            exact absurd hxh (List.not_mem_nil _)
        · exact (List.mem_filter.mp ((sortedChars_perm _).mem_iff.mp hxs)).1
    · intro hx
      by_cases hxC : x = ['C']
      · exact hxC ▸ List.mem_cons_self _ _
      · by_cases hxH : x = ['H']
        · refine List.mem_cons_of_mem _ (List.mem_append.mpr (Or.inl ?_))
          rw [if_pos (hxH ▸ List.elem_eq_true_of_mem hx)]
          exact hxH ▸ List.mem_cons_self _ _
        · refine List.mem_cons_of_mem _ (List.mem_append.mpr (Or.inr ?_))
          refine (sortedChars_perm _).mem_iff.mpr (List.mem_filter.mpr ⟨hx, ?_⟩)
          simp [hxC, hxH]
  · rw [if_neg hC]
    exact (sortedChars_perm l).mem_iff

theorem hill_sorted_nodup {l : List (List Char)} (h : l.Nodup) :
    (hill_sorted l).Nodup := by
  unfold hill_sorted
  by_cases hC : l.contains ['C'] = true
  · rw [if_pos hC]
    have hfil : (l.filter
        (fun s => !(s == (['C'] : List Char)) && !(s == ['H']))).Nodup :=
      h.filter _
    have hsf := ((sortedChars_perm _).nodup_iff).mpr hfil
    have hCnot : (['C'] : List Char) ∉
        sortedChars (l.filter (fun s => !(s == ['C']) && !(s == ['H']))) := by
      intro hm
      have := (List.mem_filter.mp ((sortedChars_perm _).mem_iff.mp hm)).2
      simp at this
    have hHnot : (['H'] : List Char) ∉
        sortedChars (l.filter (fun s => !(s == ['C']) && !(s == ['H']))) := by
      intro hm
      have := (List.mem_filter.mp ((sortedChars_perm _).mem_iff.mp hm)).2
      simp at this
    by_cases hH : l.contains ['H'] = true
    · rw [if_pos hH]
      refine List.nodup_cons.mpr ⟨?_, List.nodup_cons.mpr ⟨hHnot, hsf⟩⟩
      intro hm
      rcases List.mem_cons.mp hm with heq | hm2
      · exact absurd heq (by decide)
      · exact hCnot hm2
    · rw [if_neg hH]
      exact List.nodup_cons.mpr ⟨hCnot, hsf⟩
  · rw [if_neg hC]
    exact ((sortedChars_perm l).nodup_iff).mpr h

theorem alistGet_isSome_of_mem_keys {α β : Type} [DecidableEq α]
    {l : List (α × β)} {k : α} (h : k ∈ l.map Prod.fst) :
    (alistGet l k).isSome = true := by
  cases hx : alistGet l k with
  | some v => rfl
  | none => exact absurd h (alistGet_none_not_mem hx)

theorem alistGet_append {α β : Type} [DecidableEq α]
    (l1 l2 : List (α × β)) (k : α) :
    alistGet (l1 ++ l2) k =
      (match alistGet l1 k with
       | some v => some v
       | none => alistGet l2 k) := by
  induction l1 with
  | nil => simp [alistGet]
  | cons hd tl ih =>
      obtain ⟨a, b⟩ := hd
      by_cases hak : a = k <;> simp [alistGet, hak, ih]

theorem sum_map_ite_eq {α : Type} [DecidableEq α] (x : α) (f : α → ℕ) :
    ∀ l : List α, l.Nodup →
    (l.map (fun y => if y = x then f y else 0)).sum =
      (if x ∈ l then f x else 0) := by
  intro l
  induction l with
  | nil => intro _; simp
  | cons a t ih =>
      intro hl
      obtain ⟨ha, ht⟩ := List.nodup_cons.mp hl
      rw [List.map_cons, List.sum_cons, ih ht]
      by_cases hax : a = x
      · subst hax
        rw [if_pos rfl, if_neg ha, if_pos (List.mem_cons_self a t)]
        omega
      · rw [if_neg hax]
        by_cases hxt : x ∈ t
        · rw [if_pos hxt, if_pos (List.mem_cons_of_mem a hxt)]
          omega
        · rw [if_neg hxt, if_neg (fun hc => by
            rcases List.mem_cons.mp hc with h | h
            · exact hax h.symm
            · exact hxt h)]

/-- The total count a token list contributes at one (symbol, selector). -/
def tripleCnt (ts : List (List Char × ℕ × ℕ)) (sym : List Char)
    (mn : ℕ) : ℕ :=
  (ts.map (fun t => if t.1 = sym ∧ t.2.1 = mn then t.2.2 else 0)).sum

theorem tripleCnt_append (a b : List (List Char × ℕ × ℕ)) (sym : List Char)
    (mn : ℕ) :
    tripleCnt (a ++ b) sym mn = tripleCnt a sym mn + tripleCnt b sym mn := by
  simp [tripleCnt]

theorem tripleCnt_reverse (ts : List (List Char × ℕ × ℕ)) (sym : List Char)
    (mn : ℕ) : tripleCnt ts.reverse sym mn = tripleCnt ts sym mn := by
  simp [tripleCnt, List.map_reverse, List.sum_reverse]

theorem insertCount_lookup2 (E : ElemMap) (s : List Char) (i n : ℕ)
    (sym : List Char) (mn : ℕ) :
    lookup2 (insertCount E s i n) sym mn =
      (if s = sym ∧ i = mn then some ((lookup2 E sym mn).getD 0 + n)
       else lookup2 E sym mn) := by
  by_cases hs : s = sym
  · subst hs
    unfold insertCount lookup2
    cases hget : alistGet E s with
    | none =>
        dsimp only
        rw [alistGet_append, hget]
        rw [show alistGet [(s, [(i, n)])] s = some [(i, n)] by
          simp [alistGet]]
        by_cases hi : i = mn
        · subst hi
          rw [if_pos ⟨rfl, rfl⟩]
          simp [alistGet]
        · rw [if_neg (fun hc => hi hc.2)]
          simp [alistGet, hi]
    | some inner =>
        dsimp only
        cases hgi : alistGet inner i with
        | some old =>
            dsimp only
            rw [alistGet_set, if_pos rfl]
            dsimp only
            rw [alistGet_set]
            by_cases hi : i = mn
            · subst hi
              rw [if_pos rfl, if_pos ⟨rfl, rfl⟩, hgi]
              rfl
            · rw [if_neg hi, if_neg (fun hc => hi hc.2)]
        | none =>
            dsimp only
            rw [alistGet_set, if_pos rfl]
            dsimp only
            rw [alistGet_set]
            by_cases hi : i = mn
            · subst hi
              rw [if_pos rfl, if_pos ⟨rfl, rfl⟩, hgi]
              simp
            · rw [if_neg hi, if_neg (fun hc => hi hc.2)]
  · rw [if_neg (fun hc => hs hc.1)]
    unfold insertCount lookup2
    cases hget : alistGet E s with
    | none =>
        dsimp only
        rw [alistGet_append]
        cases hsym : alistGet E sym with
        | some v => rfl
        | none =>
            rw [show alistGet [(s, [(i, n)])] sym = none by
              simp [alistGet, hs]]
    | some inner =>
        dsimp only
        cases hgi : alistGet inner i with
        | some old =>
            dsimp only
            rw [alistGet_set, if_neg hs]
        | none =>
            dsimp only
            rw [alistGet_set, if_neg hs]

theorem foldl_insertCount_lookup2 :
    ∀ (ts : List (List Char × ℕ × ℕ)) (E : ElemMap) (sym : List Char)
      (mn : ℕ), (∀ t ∈ ts, 1 ≤ t.2.2) →
    lookup2 (ts.foldl (fun F t => insertCount F t.1 t.2.1 t.2.2) E) sym mn =
      (match lookup2 E sym mn with
       | some old => some (old + tripleCnt ts sym mn)
       | none =>
           if tripleCnt ts sym mn = 0 then none
           else some (tripleCnt ts sym mn)) := by
  intro ts
  induction ts with
  | nil =>
      intro E sym mn _
      cases h : lookup2 E sym mn <;> simp [tripleCnt, h]
  | cons t rest ih =>
      intro E sym mn hpos
      rw [List.foldl_cons,
        ih _ sym mn (fun x hx => hpos x (List.mem_cons_of_mem t hx)),
        insertCount_lookup2]
      have hcnt : 1 ≤ t.2.2 := hpos t (List.mem_cons_self t rest)
      by_cases hmatch : t.1 = sym ∧ t.2.1 = mn
      · rw [if_pos hmatch]
        have htc : tripleCnt (t :: rest) sym mn =
            t.2.2 + tripleCnt rest sym mn := by
          unfold tripleCnt
          rw [List.map_cons, List.sum_cons, if_pos hmatch]
        cases hE : lookup2 E sym mn with
        | some old =>
            rw [htc]
            simp only [Option.getD_some]
            rw [show old + t.2.2 + tripleCnt rest sym mn =
              old + (t.2.2 + tripleCnt rest sym mn) by omega]
        | none =>
            rw [htc]
            simp only [Option.getD_none]
            rw [if_neg (by omega)]
            rw [show 0 + t.2.2 + tripleCnt rest sym mn =
              t.2.2 + tripleCnt rest sym mn by omega]
      · rw [if_neg hmatch]
        have htc : tripleCnt (t :: rest) sym mn = tripleCnt rest sym mn := by
          unfold tripleCnt
          rw [List.map_cons, List.sum_cons, if_neg hmatch]
          omega
        rw [htc]


/-- The (symbol, selector, count) token list that `from_elements` with
divisor 1 renders: Hill-sorted symbols, ascending selectors, the stored
count. -/
def hillTriples (E : ElemMap) : List (List Char × ℕ × ℕ) :=
  ((hill_sorted (E.map (fun se => se.1))).map (fun sym =>
    match alistGet E sym with
    | some isotopes =>
        (sortedNat (isotopes.map (fun ic => ic.1))).map (fun massnumber =>
          (sym, massnumber,
            (match alistGet isotopes massnumber with
             | some cnt => cnt
             | none => 0)))
    | none => [])).join

theorem tokensText_cons (t : List Char × ℕ × ℕ)
    (rest : List (List Char × ℕ × ℕ)) :
    tokensText (t :: rest) = tripleToken t ++ tokensText rest := by
  unfold tokensText
  rw [List.map_cons]
  rfl

theorem tokensText_join (L : List (List (List Char × ℕ × ℕ))) :
    tokensText L.join = (L.map tokensText).join := by
  induction L with
  | nil => rfl
  | cons b t ih =>
      rw [show (b :: t).join = b ++ t.join from rfl]
      rw [show (b :: t).map tokensText = tokensText b :: t.map tokensText
        from rfl]
      rw [show (tokensText b :: t.map tokensText).join =
        tokensText b ++ (t.map tokensText).join from rfl]
      rw [← ih]
      unfold tokensText
      simp [List.map_append]

theorem from_elements_eq_tokens (E : ElemMap) (c : Int) :
    from_elements E 1 c = join_charge (tokensText (hillTriples E)) c [] := by
  unfold from_elements
  dsimp only
  simp only [Nat.cast_one, Int.fdiv_one]
  congr 1
  unfold hillTriples
  rw [tokensText_join, List.map_map]
  apply congrArg List.join
  apply List.map_congr_left
  intro sym _
  simp only [Function.comp]
  cases hget : alistGet E sym with
  | none => rfl
  | some isotopes =>
      unfold tokensText
      rw [List.map_map]
      apply congrArg List.join
      apply List.map_congr_left
      intro mn _
      simp [tripleToken, elementToken]

theorem tripleCnt_join (sym : List Char) (mn : ℕ) :
    ∀ L : List (List (List Char × ℕ × ℕ)),
    tripleCnt L.join sym mn = (L.map (fun b => tripleCnt b sym mn)).sum := by
  intro L
  induction L with
  | nil => simp [tripleCnt]
  | cons b t ih => rw [show (b :: t).join = b ++ t.join from rfl,
      tripleCnt_append, ih, List.map_cons, List.sum_cons]

theorem tripleCnt_block (sym' : List Char) (f : ℕ → ℕ) (mns : List ℕ)
    (hnd : mns.Nodup) (sym : List Char) (mn : ℕ) :
    tripleCnt (mns.map (fun mn' => (sym', mn', f mn'))) sym mn =
      (if sym' = sym then (if mn ∈ mns then f mn else 0) else 0) := by
  unfold tripleCnt
  rw [List.map_map]
  by_cases hs : sym' = sym
  · subst hs
    rw [if_pos rfl]
    rw [show ((fun t : List Char × ℕ × ℕ =>
        if t.1 = sym' ∧ t.2.1 = mn then t.2.2 else 0) ∘
        (fun mn' => (sym', mn', f mn'))) =
        fun mn' => if mn' = mn then f mn' else 0 by
      funext mn'
      by_cases h : mn' = mn
      · subst h; simp
      · simp [h]]
    exact sum_map_ite_eq mn f mns hnd
  · rw [if_neg hs]
    rw [show ((fun t : List Char × ℕ × ℕ =>
        if t.1 = sym ∧ t.2.1 = mn then t.2.2 else 0) ∘
        (fun mn' => (sym', mn', f mn'))) = fun _ => 0 by
      funext mn'
      simp [hs]]
    simp

theorem hillTriples_cnt (E : ElemMap) (hnd : elemMapNodup E)
    (sym : List Char) (mn : ℕ) :
    tripleCnt (hillTriples E) sym mn = (lookup2 E sym mn).getD 0 := by
  obtain ⟨hkeys, hinner⟩ := hnd
  unfold hillTriples
  rw [tripleCnt_join, List.map_map]
  have hhnd : (hill_sorted (E.map (fun se => se.1))).Nodup :=
    hill_sorted_nodup hkeys
  have hpt : ∀ sym' ∈ hill_sorted (E.map (fun se => se.1)),
      ((fun b => tripleCnt b sym mn) ∘ (fun sym' =>
        match alistGet E sym' with
        | some isotopes =>
            (sortedNat (isotopes.map (fun ic => ic.1))).map (fun massnumber =>
              (sym', massnumber,
                (match alistGet isotopes massnumber with
                 | some cnt => cnt
                 | none => 0)))
        | none => [])) sym' =
      (if sym' = sym then
        (match alistGet E sym' with
         | some inner => (alistGet inner mn).getD 0
         | none => 0) else 0) := by
    intro sym' _
    simp only [Function.comp]
    cases hget : alistGet E sym' with
    | none => simp [tripleCnt]
    | some isotopes =>
        have hndmns : (sortedNat (isotopes.map (fun ic => ic.1))).Nodup :=
          ((sortedNat_perm _).nodup_iff).mpr
            (by simpa using hinner (sym', isotopes) (alistGet_mem hget))
        rw [tripleCnt_block sym' _ _ hndmns sym mn]
        by_cases hs : sym' = sym
        · rw [if_pos hs, if_pos hs]
          by_cases hm : mn ∈ sortedNat (isotopes.map (fun ic => ic.1))
          · rw [if_pos hm]
            cases hg : alistGet isotopes mn with
            | some cnt => simp [hg]
            | none => simp [hg]
          · rw [if_neg hm]
            have hnm : mn ∉ isotopes.map Prod.fst := fun hc =>
              hm ((sortedNat_perm _).mem_iff.mpr (by simpa using hc))
            simp [alistGet_not_mem_none hnm]
        · rw [if_neg hs, if_neg hs]
  rw [List.map_congr_left hpt, sum_map_ite_eq sym _ _ hhnd]
  by_cases hmem : sym ∈ hill_sorted (E.map (fun se => se.1))
  · rw [if_pos hmem]
    unfold lookup2
    cases hget : alistGet E sym with
    | some inner => rfl
    | none => rfl
  · rw [if_neg hmem]
    have hnk : sym ∉ E.map Prod.fst := fun hc =>
      hmem ((hill_sorted_mem _ _).mpr (by simpa using hc))
    have hget : alistGet E sym = none := alistGet_not_mem_none hnk
    unfold lookup2
    rw [hget]
    rfl


theorem hillTriples_ok (E : ElemMap) (hv : elemMapValid E = true)
    (hp : elemMapPos E = true) : ∀ t ∈ hillTriples E, tripleOk t := by
  intro t ht
  unfold hillTriples at ht
  rw [List.mem_join] at ht
  obtain ⟨blk, hblk, htb⟩ := ht
  rw [List.mem_map] at hblk
  obtain ⟨sym', hsym', rfl⟩ := hblk
  cases hget : alistGet E sym' with
  | none => rw [hget] at htb; exact absurd htb (List.not_mem_nil _)
  | some isotopes =>
      rw [hget] at htb
      rw [List.mem_map] at htb
      obtain ⟨mn', hmn', rfl⟩ := htb
      have hmemE : (sym', isotopes) ∈ E := alistGet_mem hget
      have hentry : entryOk (sym', isotopes) = true :=
        List.all_eq_true.mp hv _ hmemE
      unfold entryOk at hentry
      have hmk : mn' ∈ isotopes.map Prod.fst := by
        have := (sortedNat_perm _).mem_iff.mp hmn'
        simpa using this
      cases hfind : elementsFind sym' with
      | none => rw [hfind] at hentry; exact absurd hentry (by simp)
      | some e =>
          rw [hfind] at hentry
          constructor
          · refine ⟨e, hfind, ?_⟩
            intro hmn0
            obtain ⟨ic, hic, hfst⟩ := List.mem_map.mp hmk
            unfold innerOk at hentry
            have hic2 := List.all_eq_true.mp hentry _ hic
            simp only [Bool.or_eq_true, beq_iff_eq] at hic2
            rcases hic2 with h0 | hsome
            · rw [hfst] at h0
              exact absurd h0 hmn0
            · rw [hfst] at hsome
              exact hsome
          · show 1 ≤ (match alistGet isotopes mn' with
              | some cnt => cnt
              | none => 0)
            cases hg : alistGet isotopes mn' with
            | none => exact absurd hmk (alistGet_none_not_mem hg)
            | some cnt =>
                dsimp only
                have hmemI : (mn', cnt) ∈ isotopes := alistGet_mem hg
                unfold elemMapPos at hp
                have hpe := List.all_eq_true.mp hp _ hmemE
                simp only [Bool.and_eq_true] at hpe
                have hcp := List.all_eq_true.mp hpe.2 _ hmemI
                simp only [bne_iff_ne, ne_eq] at hcp
                omega

theorem tokenSteps_le (sym : List Char) (mn cnt : ℕ) :
    tokenSteps sym mn cnt ≤ (elementToken sym mn cnt).length := by
  have h1 : 1 ≤ (natChars mn).length :=
    List.length_pos.mpr (natChars_ne_nil mn)
  have h2 : 1 ≤ (natChars cnt).length :=
    List.length_pos.mpr (natChars_ne_nil cnt)
  unfold tokenSteps elementToken
  by_cases hmn : mn = 0 <;> by_cases hc : cnt = 1 <;>
    simp [hmn, hc, List.length_append] <;> omega

theorem tokensSteps_le (toks : List (List Char × ℕ × ℕ)) :
    tokensSteps toks ≤ (tokensText toks).length := by
  induction toks with
  | nil => simp [tokensSteps, tokensText]
  | cons t rest ih =>
      rw [tokensText_cons, List.length_append]
      unfold tokensSteps at ih ⊢
      rw [List.map_cons, List.sum_cons]
      have hthis := tokenSteps_le t.1 t.2.1 t.2.2
      have hlen : (tripleToken t).length =
          (elementToken t.1 t.2.1 t.2.2).length := rfl
      omega

theorem insertCount_res_ne_nil (E : ElemMap) (s : List Char) (i n : ℕ) :
    insertCount E s i n ≠ [] := by
  unfold insertCount
  cases hget : alistGet E s with
  | none => simp
  | some inner =>
      dsimp only
      cases hgi : alistGet inner i with
      | some old =>
          dsimp only
          exact alistSet_ne_nil _ _ _
      | none =>
          dsimp only
          exact alistSet_ne_nil _ _ _

theorem foldl_insertCount_ne_nil :
    ∀ (ts : List (List Char × ℕ × ℕ)) (E : ElemMap), E ≠ [] →
    ts.foldl (fun F t => insertCount F t.1 t.2.1 t.2.2) E ≠ [] := by
  intro ts
  induction ts with
  | nil => intro E h; exact h
  | cons t rest ih =>
      intro E _
      rw [List.foldl_cons]
      exact ih _ (insertCount_res_ne_nil _ _ _ _)

theorem elementToken_head (sym : List Char) (e : ElementData) (mn cnt : ℕ)
    (hfind : elementsFind sym = some e) :
    ∃ c rest, elementToken sym mn cnt = c :: rest ∧
      validFirstChars.contains c = true := by
  rcases elementsFind_shape hfind with ⟨u, rfl, hu, hufc⟩ |
    ⟨u, l, rfl, hu, hufc, hl, hlv⟩ <;> by_cases hmn : mn = 0 <;>
    by_cases hc : cnt = 1
  · exact ⟨u, [], by simp [elementToken, hmn, hc], hufc⟩
  · exact ⟨u, natChars cnt, by simp [elementToken, hmn, hc], hufc⟩
  · exact ⟨'[', natChars mn ++ [u] ++ [']'],
      by simp [elementToken, hmn, hc], by decide⟩
  · exact ⟨'[', (natChars mn ++ [u] ++ [']']) ++ natChars cnt,
      by simp [elementToken, hmn, hc], by decide⟩
  · exact ⟨u, [l], by simp [elementToken, hmn, hc], hufc⟩
  · exact ⟨u, l :: natChars cnt, by simp [elementToken, hmn, hc], hufc⟩
  · exact ⟨'[', natChars mn ++ [u, l] ++ [']'],
      by simp [elementToken, hmn, hc], by decide⟩
  · exact ⟨'[', (natChars mn ++ [u, l] ++ [']']) ++ natChars cnt,
      by simp [elementToken, hmn, hc], by decide⟩

theorem lookup2_pos {E : ElemMap} (hp : elemMapPos E = true)
    {sym : List Char} {mn c : ℕ} (h : lookup2 E sym mn = some c) :
    1 ≤ c := by
  unfold lookup2 at h
  cases hget : alistGet E sym with
  | none => rw [hget] at h; exact absurd h (by simp)
  | some inner =>
      rw [hget] at h
      dsimp only at h
      have hmemE : (sym, inner) ∈ E := alistGet_mem hget
      have hmemI : (mn, c) ∈ inner := alistGet_mem h
      unfold elemMapPos at hp
      have hpe := List.all_eq_true.mp hp _ hmemE
      simp only [Bool.and_eq_true] at hpe
      have hcp := List.all_eq_true.mp hpe.2 _ hmemI
      simp only [bne_iff_ne, ne_eq] at hcp
      omega


theorem lookup2_nil (sym : List Char) (mn : ℕ) :
    lookup2 [] sym mn = none := rfl

/-- Parsing the rendered Hill token text of a valid, positive, dict-faithful
element map succeeds and reproduces the map up to two-level lookup. -/
theorem parse_tokensText (E : ElemMap)
    (hv : elemMapValid E = true) (hp : elemMapPos E = true)
    (hnd : elemMapNodup E) (hin : ∀ se ∈ E, se.2 ≠ []) (hEne : E ≠ []) :
    ∃ E' : ElemMap,
      parseElements (tokensText (hillTriples E)) = .ok E' ∧
      ∀ (sym : List Char) (mn : ℕ), lookup2 E' sym mn = lookup2 E sym mn := by
  have hok : ∀ t ∈ hillTriples E, tripleOk t := hillTriples_ok E hv hp
  obtain ⟨se0, hse0⟩ : ∃ se, se ∈ E := by
    cases E with
    | nil => exact absurd rfl hEne
    | cons a t => exact ⟨a, List.mem_cons_self a t⟩
  have hkey0 : se0.1 ∈ E.map (fun se => se.1) :=
    List.mem_map.mpr ⟨se0, hse0, rfl⟩
  have hs0 : se0.1 ∈ hill_sorted (E.map (fun se => se.1)) :=
    (hill_sorted_mem _ _).mpr hkey0
  obtain ⟨inner0, hget0⟩ : ∃ i, alistGet E se0.1 = some i := by
    cases hx : alistGet E se0.1 with
    | none => exact absurd (by simpa using hkey0) (alistGet_none_not_mem hx)
    | some i => exact ⟨i, rfl⟩
  have hin0 : inner0 ≠ [] := hin _ (alistGet_mem hget0)
  obtain ⟨ic0, hic0⟩ : ∃ ic, ic ∈ inner0 := by
    cases inner0 with
    | nil => exact absurd rfl hin0
    | cons a t => exact ⟨a, List.mem_cons_self a t⟩
  have hmn0 : ic0.1 ∈ sortedNat (inner0.map (fun ic => ic.1)) :=
    (sortedNat_perm _).mem_iff.mpr (List.mem_map.mpr ⟨ic0, hic0, rfl⟩)
  have htmem : (se0.1, ic0.1,
      (match alistGet inner0 ic0.1 with | some cnt => cnt | none => 0)) ∈
      hillTriples E := by
    unfold hillTriples
    rw [List.mem_join]
    refine ⟨_, List.mem_map.mpr ⟨se0.1, hs0, rfl⟩, ?_⟩
    rw [hget0]
    exact List.mem_map.mpr ⟨ic0.1, hmn0, rfl⟩
  have htoks_ne : hillTriples E ≠ [] := List.ne_nil_of_mem htmem
  obtain ⟨t0, ttail, htoks⟩ : ∃ t0 ttail, hillTriples E = t0 :: ttail := by
    cases hx : hillTriples E with
    | nil => exact absurd hx htoks_ne
    | cons a t => exact ⟨a, t, rfl⟩
  obtain ⟨⟨e0, hfind0, _⟩, _⟩ := hok t0 (htoks ▸ List.mem_cons_self t0 ttail)
  obtain ⟨c0, crest, hcr, hcv⟩ :=
    elementToken_head t0.1 e0 t0.2.1 t0.2.2 hfind0
  have hbody : tokensText (hillTriples E) =
      c0 :: (crest ++ tokensText ttail) := by
    rw [htoks, tokensText_cons]
    rw [show tripleToken t0 = elementToken t0.1 t0.2.1 t0.2.2 from rfl, hcr]
    rfl
  have hbne : tokensText (hillTriples E) ≠ [] := by
    rw [hbody]
    simp
  have hE'ne : ((hillTriples E).reverse.foldl
      (fun F t => insertCount F t.1 t.2.1 t.2.2) ([] : ElemMap)) ≠ [] := by
    cases hrev : (hillTriples E).reverse with
    | nil => exact absurd (List.reverse_eq_nil_iff.mp hrev) htoks_ne
    | cons r rs =>
        rw [List.foldl_cons]
        exact foldl_insertCount_ne_nil rs _ (insertCount_res_ne_nil _ _ _ _)
  have hparse : parseElements (tokensText (hillTriples E)) =
      .ok ((hillTriples E).reverse.foldl
        (fun F t => insertCount F t.1 t.2.1 t.2.2) ([] : ElemMap)) := by
    unfold parseElements
    rw [if_neg (by
      rw [isEmpty_false_of_ne_nil hbne]
      exact Bool.false_ne_true)]
    have hhead : (tokensText (hillTriples E)).headD ' ' = c0 := by
      rw [hbody]
      rfl
    rw [if_neg (fun hno => hno (by rw [hhead]; exact hcv))]
    rw [show (tokensText (hillTriples E)).length =
        ((tokensText (hillTriples E)).length -
          tokensSteps (hillTriples E)) + tokensSteps (hillTriples E)
      from (Nat.sub_add_cancel (tokensSteps_le _)).symm]
    rw [tokens_step (hillTriples E) [] _ hok]
    rw [parseRev_nil]
    rw [if_neg (by simp), if_neg (by simp)]
    rw [if_neg (by
      rw [isEmpty_false_of_ne_nil hE'ne]
      exact Bool.false_ne_true)]
  refine ⟨_, hparse, ?_⟩
  intro sym mn
  rw [foldl_insertCount_lookup2 (hillTriples E).reverse [] sym mn
    (fun t ht => (hok t (List.mem_reverse.mp ht)).2)]
  rw [lookup2_nil]
  dsimp only
  rw [tripleCnt_reverse, hillTriples_cnt E hnd]
  cases hx : lookup2 E sym mn with
  | none => simp
  | some c =>
      have hc := lookup2_pos hp hx
      simp only [Option.getD_some]
      rw [if_neg (by omega)]


theorem isDigit_not_lower {c : Char} (h : c.isDigit = true) :
    c.isLower = false := by
  simp only [Char.isDigit, ge_iff_le, Bool.and_eq_true, decide_eq_true_eq] at h
  obtain ⟨h1, h2⟩ := h
  have a2 : c.val.toNat ≤ 57 := h2
  simp only [Char.isLower, ge_iff_le, Bool.and_eq_true, decide_eq_true_eq,
    Bool.and_eq_false_iff, Bool.not_eq_true]
  left
  rw [decide_eq_false_iff_not]
  exact fun hcon => absurd (show (97 : ℕ) ≤ c.val.toNat from hcon) (by omega)

theorem isDigit_not_space {c : Char} (h : c.isDigit = true) :
    pyIsSpace c = false := by
  by_contra hc
  simp only [Bool.not_eq_false] at hc
  simp [pyIsSpace] at hc
  rcases hc with ((((rfl | rfl) | rfl) | rfl) | rfl) | rfl <;>
    exact absurd h (by decide)

theorem isUpper_not_space {c : Char} (h : c.isUpper = true) :
    pyIsSpace c = false := by
  by_contra hc
  simp only [Bool.not_eq_false] at hc
  simp [pyIsSpace] at hc
  rcases hc with ((((rfl | rfl) | rfl) | rfl) | rfl) | rfl <;>
    exact absurd h (by decide)

theorem isLower_not_space {c : Char} (h : c.isLower = true) :
    pyIsSpace c = false := by
  by_contra hc
  simp only [Bool.not_eq_false] at hc
  simp [pyIsSpace] at hc
  rcases hc with ((((rfl | rfl) | rfl) | rfl) | rfl) | rfl <;>
    exact absurd h (by decide)

/-- The character classes that can occur in a rendered Hill formula body. -/
def hillChar (c : Char) : Bool :=
  (c == '[') || (c == ']') || c.isDigit || c.isUpper || c.isLower

/-- Every lowercase character must extend its predecessor to a known
two-letter element symbol; scanning guard used to show the group
abbreviations of `GROUPS` cannot occur inside a Hill formula. -/
def pairsOk : List Char → Bool
  | a :: b :: t =>
      (if b.isLower then a.isUpper && (elementsFind [a, b]).isSome else true)
      && pairsOk (b :: t)
  | _ => true

theorem pairsOk_cons_cons (a b : Char) (t : List Char) :
    pairsOk (a :: b :: t) =
      ((if b.isLower then a.isUpper && (elementsFind [a, b]).isSome else true)
       && pairsOk (b :: t)) := rfl

theorem pairsOk_suffix : ∀ {a t : List Char},
    pairsOk (a ++ t) = true → pairsOk t = true := by
  intro a
  induction a with
  | nil => intro t h; exact h
  | cons x xs ih =>
      intro t h
      apply ih
      cases hxt : xs ++ t with
      | nil =>
          obtain ⟨rfl, rfl⟩ := List.append_eq_nil.mp hxt
          rfl
      | cons y ys =>
          rw [show (x :: xs) ++ t = x :: (xs ++ t) from rfl, hxt,
            pairsOk_cons_cons] at h
          simp only [Bool.and_eq_true] at h
          exact h.2

theorem pairsOk_front : ∀ {t b : List Char},
    pairsOk (t ++ b) = true → pairsOk t = true := by
  intro t
  induction t with
  | nil => intro b _; rfl
  | cons x xs ih =>
      intro b h
      cases hxs : xs with
      | nil => rfl
      | cons y ys =>
          subst hxs
          rw [show (x :: y :: ys) ++ b = x :: y :: (ys ++ b) from rfl,
            pairsOk_cons_cons] at h
          simp only [Bool.and_eq_true] at h
          obtain ⟨h1, h2⟩ := h
          rw [pairsOk_cons_cons, h1]
          have h3 : pairsOk ((y :: ys) ++ b) = true := h2
          simp [ih h3]

theorem pairsOk_append {a b : List Char}
    (hb : ∀ x, b.head? = some x → x.isLower = false)
    (ha : pairsOk a = true) (hb2 : pairsOk b = true) :
    pairsOk (a ++ b) = true := by
  induction a with
  | nil => exact hb2
  | cons x xs ih =>
      cases hxs : xs with
      | nil =>
          subst hxs
          cases hbb : b with
          | nil => rfl
          | cons y ys =>
              subst hbb
              rw [show ([x] ++ (y :: ys)) = x :: y :: ys from rfl,
                pairsOk_cons_cons]
              have hy : y.isLower = false := hb y rfl
              rw [hy]
              simp [hb2]
      | cons y ys =>
          subst hxs
          rw [show (x :: y :: ys) ++ b = x :: y :: (ys ++ b) from rfl,
            pairsOk_cons_cons]
          rw [pairsOk_cons_cons] at ha
          simp only [Bool.and_eq_true] at ha
          obtain ⟨h1, h2⟩ := ha
          rw [h1]
          have h4 := ih h2
          rw [show (y :: ys) ++ b = y :: (ys ++ b) from rfl] at h4
          simp [h4]

/-- Every `D` must be followed by a lowercase letter (so the deuterium
substitution of `from_string` leaves the string unchanged). -/
def dOk : List Char → Bool
  | [] => true
  | c :: rest =>
      (if c = 'D' then
        (match rest.head? with | some x => x.isLower | none => false)
       else true) && dOk rest

theorem dOk_append {a b : List Char}
    (hlast : ∀ x, a.getLast? = some x → x ≠ 'D')
    (ha : dOk a = true) (hb : dOk b = true) : dOk (a ++ b) = true := by
  induction a with
  | nil => exact hb
  | cons c t ih =>
      cases ht : t with
      | nil =>
          subst ht
          have hc : c ≠ 'D' := hlast c rfl
          rw [show ([c] ++ b) = c :: b from rfl]
          unfold dOk
          rw [if_neg hc]
          simp [hb]
      | cons d ts =>
          subst ht
          rw [show ((c :: d :: ts) ++ b) = c :: ((d :: ts) ++ b) from rfl]
          unfold dOk
          unfold dOk at ha
          simp only [Bool.and_eq_true] at ha
          obtain ⟨h1, h2⟩ := ha
          have htail := ih (fun x hx => hlast x (by
            rw [List.getLast?_cons_cons]
            exact hx)) h2
          rw [show ((d :: ts) ++ b) = d :: (ts ++ b) from rfl] at htail ⊢
          rw [htail]
          rw [show (d :: (ts ++ b)).head? = some d from rfl]
          rw [show (d :: ts).head? = some d from rfl] at h1
          simp [h1]

theorem dOk_noD {s : List Char} (h : ∀ c ∈ s, c ≠ 'D') : dOk s = true := by
  induction s with
  | nil => rfl
  | cons c t ih =>
      unfold dOk
      rw [if_neg (h c (List.mem_cons_self c t))]
      simp [ih (fun x hx => h x (List.mem_cons_of_mem c hx))]

theorem pairsOk_nolower {s : List Char} (h : ∀ c ∈ s, c.isLower = false) :
    pairsOk s = true := by
  induction s with
  | nil => rfl
  | cons a t ih =>
      cases ht : t with
      | nil => rfl
      | cons b ts =>
          subst ht
          rw [pairsOk_cons_cons]
          rw [h b (List.mem_cons_of_mem a (List.mem_cons_self b ts))]
          simp [ih (fun x hx => h x (List.mem_cons_of_mem a hx))]

theorem deuteriumSub_noop : ∀ (fuel : ℕ) (s : List Char), dOk s = true →
    deuteriumSub fuel s = s := by
  intro fuel
  induction fuel with
  | zero => intro s _; rfl
  | succ n ih =>
      intro s hs
      cases s with
      | nil => rfl
      | cons c rest =>
          unfold deuteriumSub
          dsimp only
          unfold dOk at hs
          simp only [Bool.and_eq_true] at hs
          obtain ⟨h1, h2⟩ := hs
          rw [if_neg (by
            by_cases hc : c = 'D'
            · rw [if_pos hc] at h1
              simp [hc, h1]
            · simp [hc])]
          rw [ih rest h2]

theorem containsSub_decomp {s pat : List Char}
    (h : containsSub s pat = true) : ∃ a b, s = a ++ (pat ++ b) := by
  induction s with
  | nil =>
      unfold containsSub at h
      refine ⟨[], [], ?_⟩
      rw [List.isEmpty_iff.mp h]
      rfl
  | cons c t ih =>
      unfold containsSub at h
      have h' : pat.isPrefixOf (c :: t) = true ∨ containsSub t pat = true := by
        simpa using h
      rcases h' with hpre | hrest
      · obtain ⟨b, hb⟩ := List.isPrefixOf_iff_prefix.mp hpre
        exact ⟨[], b, by rw [← hb]; rfl⟩
      · obtain ⟨a, b, hab⟩ := ih hrest
        exact ⟨c :: a, b, by rw [hab]; rfl⟩

theorem containsSub_false_of_pairsBad {s K : List Char}
    (hs : pairsOk s = true) (hK : pairsOk K = false) :
    containsSub s K = false := by
  by_contra hc
  simp only [Bool.not_eq_false] at hc
  obtain ⟨a, b, rfl⟩ := containsSub_decomp hc
  rw [pairsOk_front (pairsOk_suffix hs)] at hK
  exact Bool.true_eq_false ▸ hK

theorem pyReplaceAux_noop (pat rep : List Char) :
    ∀ (fuel : ℕ) (s : List Char), containsSub s pat = false →
    pyReplaceAux pat rep fuel s = s := by
  intro fuel
  induction fuel with
  | zero => intro s _; rfl
  | succ n ih =>
      intro s hs
      cases s with
      | nil => rfl
      | cons c rest =>
          unfold pyReplaceAux
          dsimp only
          unfold containsSub at hs
          have hs' : pat.isPrefixOf (c :: rest) = false ∧
              containsSub rest pat = false := by simpa using hs
          obtain ⟨h1, h2⟩ := hs'
          rw [if_neg (by simp [h1])]
          rw [ih rest h2]

theorem pyReplace_noop {s pat rep : List Char}
    (h : containsSub s pat = false) : pyReplace s pat rep = s := by
  unfold pyReplace
  by_cases hp : pat.isEmpty = true
  · rw [if_pos hp]
  · rw [if_neg hp]
    exact pyReplaceAux_noop pat rep s.length s h

theorem containsSub_single_false {s : List Char} {c : Char} (h : c ∉ s) :
    containsSub s [c] = false := by
  induction s with
  | nil => rfl
  | cons x t ih =>
      unfold containsSub
      have hx : ¬ c = x := fun he => h (he ▸ List.mem_cons_self x t)
      have ht := ih (fun hm => h (List.mem_cons_of_mem x hm))
      simp [List.isPrefixOf, hx, ht]

theorem contains_false_of_not_mem {l : List Char} {c : Char} (h : c ∉ l) :
    l.contains c = false := by
  cases hx : l.contains c with
  | false => rfl
  | true => exact absurd (mem_of_contains hx) h

theorem findCaptures_nil (name : List Char) :
    ∀ (fuel : ℕ) (s : List Char), '(' ∉ s →
    findCaptures name fuel s = [] := by
  intro fuel
  induction fuel with
  | zero => intro s _; rfl
  | succ n ih =>
      intro s hs
      cases s with
      | nil => rfl
      | cons c rest =>
          unfold findCaptures
          dsimp only
          rw [if_neg (fun hpre => hs
            ((List.isPrefixOf_iff_prefix.mp hpre).subset
              (List.mem_append.mpr (Or.inr (List.mem_singleton.mpr rfl)))))]
          exact ih rest (fun hm => hs (List.mem_cons_of_mem c hm))

theorem preprocessAll_noop {f : List Char} (hf : '(' ∉ f) :
    preprocessAll f = .ok f := by
  unfold preprocessAll
  have hstep : ∀ name, findCaptures name f.length f = [] := fun name =>
    findCaptures_nil name _ _ hf
  simp [PREPROCESSOR_NAMES, hstep]

theorem head?_mem {α : Type} {l : List α} {x : α} (h : l.head? = some x) :
    x ∈ l := by
  cases l with
  | nil => simp at h
  | cons a t =>
      rw [show (a :: t).head? = some a from rfl] at h
      obtain rfl := Option.some.inj h
      exact List.mem_cons_self a t

theorem pyStrip_noop {s : List Char} (h : ∀ c ∈ s, pyIsSpace c = false) :
    pyStrip s = s := by
  unfold pyStrip
  have h1 : s.dropWhile pyIsSpace = s :=
    dropWhile_eq_self_of_head (fun x hx => h x (head?_mem hx))
  rw [h1]
  have h2 : s.reverse.dropWhile pyIsSpace = s.reverse :=
    dropWhile_eq_self_of_head (fun x hx =>
      h x (List.mem_reverse.mp (head?_mem hx)))
  rw [h2, List.reverse_reverse]

theorem arithExpand_noop {f : List Char} (h : '+' ∉ f) :
    arithExpand f = f := by
  unfold arithExpand
  rw [contains_false_of_not_mem h]
  simp

set_option maxRecDepth 40000 in
theorem GROUPS_keys_pairsBad : ∀ g ∈ GROUPS.map Prod.fst,
    pairsOk g = false := by decide

theorem groupsExpand_noop {f : List Char} (hf : pairsOk f = true) :
    groupsExpand f = f := by
  unfold groupsExpand
  have hkeys0 := GROUPS_keys_pairsBad
  have hkeys : ∀ g ∈ (sortedChars (GROUPS.map Prod.fst)).reverse,
      pairsOk g = false := fun g hg =>
    hkeys0 g ((sortedChars_perm _).mem_iff.mp (List.mem_reverse.mp hg))
  have hfold : ∀ l : List (List Char), (∀ g ∈ l, pairsOk g = false) →
      l.foldl (fun acc grp =>
        pyReplace acc grp ('(' :: ((alistGet GROUPS grp).getD [] ++ [')'])))
        f = f := by
    intro l
    induction l with
    | nil => intro _; rfl
    | cons g gs ih =>
        intro hl
        rw [List.foldl_cons,
          pyReplace_noop (containsSub_false_of_pairsBad hf
            (hl g (List.mem_cons_self g gs)))]
        exact ih (fun g' hg' => hl g' (List.mem_cons_of_mem g hg'))
  exact hfold _ hkeys


theorem hillChar_digit {c : Char} (h : c.isDigit = true) :
    hillChar c = true := by simp [hillChar, h]

theorem hillChar_upper {c : Char} (h : c.isUpper = true) :
    hillChar c = true := by simp [hillChar, h]

theorem hillChar_lower {c : Char} (h : c.isLower = true) :
    hillChar c = true := by simp [hillChar, h]

theorem sym_subset_token (sym : List Char) (mn cnt : ℕ) :
    ∀ x ∈ sym, x ∈ elementToken sym mn cnt := by
  intro x hx
  unfold elementToken
  by_cases hmn : mn ≠ 0 <;> by_cases hc : cnt = 1 <;> simp [hmn, hc, hx]

theorem token_char_origin {sym : List Char} {mn cnt : ℕ} {x : Char}
    (hx : x ∈ elementToken sym mn cnt) :
    x = '[' ∨ x = ']' ∨ x.isDigit = true ∨ x ∈ sym := by
  unfold elementToken at hx
  by_cases hmn : mn ≠ 0 <;> by_cases hc : cnt = 1 <;>
    simp [hmn, hc] at hx
  · rcases hx with rfl | h | h | rfl
    · exact Or.inl rfl
    · exact Or.inr (Or.inr (Or.inl (natChars_all_digit mn x h)))
    · exact Or.inr (Or.inr (Or.inr h))
    · exact Or.inr (Or.inl rfl)
  · rcases hx with rfl | h | h | rfl | h
    · exact Or.inl rfl
    · exact Or.inr (Or.inr (Or.inl (natChars_all_digit mn x h)))
    · exact Or.inr (Or.inr (Or.inr h))
    · exact Or.inr (Or.inl rfl)
    · exact Or.inr (Or.inr (Or.inl (natChars_all_digit cnt x h)))
  · exact Or.inr (Or.inr (Or.inr hx))
  · rcases hx with h | h
    · exact Or.inr (Or.inr (Or.inr h))
    · exact Or.inr (Or.inr (Or.inl (natChars_all_digit cnt x h)))

theorem body_char_origin {toks : List (List Char × ℕ × ℕ)} {x : Char}
    (hx : x ∈ tokensText toks) :
    ∃ t ∈ toks, x ∈ elementToken t.1 t.2.1 t.2.2 := by
  induction toks with
  | nil => exact absurd hx (by simp [tokensText])
  | cons t rest ih =>
      rw [tokensText_cons] at hx
      rcases List.mem_append.mp hx with h | h
      · exact ⟨t, List.mem_cons_self t rest, h⟩
      · obtain ⟨t', ht', hx'⟩ := ih h
        exact ⟨t', List.mem_cons_of_mem t ht', hx'⟩

theorem elementToken_chars {sym : List Char} {e : ElementData} {mn cnt : ℕ}
    (hfind : elementsFind sym = some e) :
    ∀ x ∈ elementToken sym mn cnt, hillChar x = true := by
  intro x hx
  rcases token_char_origin hx with rfl | rfl | h | h
  · rfl
  · rfl
  · exact hillChar_digit h
  · rcases elementsFind_shape hfind with ⟨u, rfl, hu, _⟩ |
      ⟨u, l, rfl, hu, _, hl, _⟩
    · rw [List.mem_singleton.mp h]
      exact hillChar_upper hu
    · rcases List.mem_cons.mp h with rfl | h
      · exact hillChar_upper hu
      · rw [List.mem_singleton.mp h]
        exact hillChar_lower hl

theorem tokensText_chars {toks : List (List Char × ℕ × ℕ)}
    (hok : ∀ t ∈ toks, tripleOk t) :
    ∀ x ∈ tokensText toks, hillChar x = true := by
  intro x hx
  obtain ⟨t, ht, hx'⟩ := body_char_origin hx
  obtain ⟨⟨e, hfind, _⟩, _⟩ := hok t ht
  exact elementToken_chars hfind x hx'

theorem validFirstChars_nolower : ∀ x ∈ validFirstChars,
    x.isLower = false := by decide

theorem elementToken_head_nolower {sym : List Char} {e : ElementData}
    {mn cnt : ℕ} (hfind : elementsFind sym = some e) :
    ∀ x, (elementToken sym mn cnt).head? = some x → x.isLower = false := by
  intro x hx
  obtain ⟨c0, crest, hcr, hcv⟩ := elementToken_head sym e mn cnt hfind
  rw [hcr] at hx
  obtain rfl := Option.some.inj hx
  exact validFirstChars_nolower _ (mem_of_contains hcv)

theorem tokensText_head_nolower {toks : List (List Char × ℕ × ℕ)}
    (hok : ∀ t ∈ toks, tripleOk t) :
    ∀ x, (tokensText toks).head? = some x → x.isLower = false := by
  intro x hx
  cases toks with
  | nil => exact absurd hx (by simp [tokensText])
  | cons t rest =>
      obtain ⟨⟨e, hfind, _⟩, _⟩ := hok t (List.mem_cons_self t rest)
      obtain ⟨c0, crest, hcr, hcv⟩ := elementToken_head t.1 e t.2.1 t.2.2 hfind
      rw [tokensText_cons] at hx
      rw [show tripleToken t = elementToken t.1 t.2.1 t.2.2 from rfl, hcr] at hx
      rw [show ((c0 :: crest) ++ tokensText rest).head? = some c0 from rfl] at hx
      obtain rfl := Option.some.inj hx
      exact validFirstChars_nolower _ (mem_of_contains hcv)

theorem head?_append_left {α : Type} {a b : List α} {x : α}
    (h : (a ++ b).head? = some x) :
    a.head? = some x ∨ (a = [] ∧ b.head? = some x) := by
  cases a with
  | nil => exact Or.inr ⟨rfl, h⟩
  | cons c t => exact Or.inl (Option.some.inj h ▸ rfl)

theorem natChars_head_nolower (n : ℕ) :
    ∀ x, (natChars n).head? = some x → x.isLower = false :=
  fun x hx => isDigit_not_lower (natChars_all_digit n x (head?_mem hx))

theorem elementToken_pairsOk {sym : List Char} {e : ElementData} (mn cnt : ℕ)
    (hfind : elementsFind sym = some e) :
    pairsOk (elementToken sym mn cnt) = true := by
  have hdig : ∀ n : ℕ, pairsOk (natChars n) = true :=
    fun n => pairsOk_nolower
      (fun x hx => isDigit_not_lower (natChars_all_digit n x hx))
  have hsymOk : pairsOk sym = true := by
    rcases elementsFind_shape hfind with ⟨u, rfl, hu, _⟩ |
      ⟨u, l, rfl, hu, _, hl, _⟩
    · rfl
    · rw [pairsOk_cons_cons, hl]
      simp [hu, hfind, show pairsOk [l] = true from rfl]
  have hsym_head : ∀ x, sym.head? = some x → x.isLower = false := by
    intro x hx
    rcases elementsFind_shape hfind with ⟨u, rfl, hu, _⟩ |
      ⟨u, l, rfl, hu, _, hl, _⟩ <;>
      (obtain rfl := Option.some.inj hx; exact isUpper_not_lower hu)
  have hclose : ∀ x, ([']'] : List Char).head? = some x → x.isLower = false :=
    fun x hx => by obtain rfl := Option.some.inj hx; decide
  have hA : pairsOk (natChars mn ++ sym) = true :=
    pairsOk_append hsym_head (hdig mn) hsymOk
  have hB : pairsOk ((natChars mn ++ sym) ++ [']']) = true :=
    pairsOk_append hclose hA rfl
  have hBhead : ∀ x, ((natChars mn ++ sym) ++ [']']).head? = some x →
      x.isLower = false := by
    intro x hx
    rcases head?_append_left hx with h | ⟨he, _⟩
    · rcases head?_append_left h with h2 | ⟨he2, h2⟩
      · exact natChars_head_nolower mn x h2
      · exact absurd he2 (natChars_ne_nil mn)
    · exact absurd (List.append_eq_nil.mp he).1 (natChars_ne_nil mn)
  have hBr : pairsOk ('[' :: ((natChars mn ++ sym) ++ [']'])) = true := by
    have hbr0 : pairsOk (['['] : List Char) = true := rfl
    have := pairsOk_append hBhead hbr0 hB
    simpa using this
  by_cases hmn : mn = 0 <;> by_cases hc : cnt = 1
  · rw [show elementToken sym mn cnt = sym by simp [elementToken, hmn, hc]]
    exact hsymOk
  · rw [show elementToken sym mn cnt = sym ++ natChars cnt by
      simp [elementToken, hmn, hc]]
    exact pairsOk_append (natChars_head_nolower cnt) hsymOk (hdig cnt)
  · rw [show elementToken sym mn cnt =
      '[' :: ((natChars mn ++ sym) ++ [']']) by
      simp [elementToken, hmn, hc]]
    exact hBr
  · rw [show elementToken sym mn cnt =
      ('[' :: ((natChars mn ++ sym) ++ [']'])) ++ natChars cnt by
      simp [elementToken, hmn, hc]]
    exact pairsOk_append (natChars_head_nolower cnt) hBr (hdig cnt)

theorem tokensText_pairsOk {toks : List (List Char × ℕ × ℕ)}
    (hok : ∀ t ∈ toks, tripleOk t) : pairsOk (tokensText toks) = true := by
  induction toks with
  | nil => rfl
  | cons t rest ih =>
      rw [tokensText_cons]
      obtain ⟨⟨e, hfind, _⟩, _⟩ := hok t (List.mem_cons_self t rest)
      exact pairsOk_append
        (tokensText_head_nolower (fun t' ht' =>
          hok t' (List.mem_cons_of_mem t ht')))
        (elementToken_pairsOk t.2.1 t.2.2 hfind)
        (ih (fun t' ht' => hok t' (List.mem_cons_of_mem t ht')))


/-- The classes a Hill token (hence the body text) can end in. -/
def lastClass (x : Char) : Prop :=
  x.isDigit = true ∨ x = ']' ∨ (x.isUpper = true ∧ x ≠ 'D') ∨
    x.isLower = true

theorem lastClass_ne_D {x : Char} (h : lastClass x) : x ≠ 'D' := by
  rcases h with h | rfl | ⟨_, h⟩ | h
  · exact fun he => by rw [he] at h; exact absurd h (by decide)
  · decide
  · exact h
  · exact fun he => by rw [he] at h; exact absurd h (by decide)

theorem lastClass_not_sign {x : Char} (h : lastClass x) :
    isSignChar x = false := by
  rcases h with h | rfl | ⟨h, _⟩ | h
  · exact isDigit_not_sign h
  · decide
  · by_contra hc
    simp only [Bool.not_eq_false, isSignChar, Bool.or_eq_true,
      decide_eq_true_eq] at hc
    rcases hc with rfl | rfl <;> exact absurd h (by decide)
  · by_contra hc
    simp only [Bool.not_eq_false, isSignChar, Bool.or_eq_true,
      decide_eq_true_eq] at hc
    rcases hc with rfl | rfl <;> exact absurd h (by decide)

theorem lastClass_ne_nl {x : Char} (h : lastClass x) : x ≠ '\n' := by
  rcases h with h | rfl | ⟨h, _⟩ | h
  · exact fun he => by rw [he] at h; exact absurd h (by decide)
  · decide
  · exact fun he => by rw [he] at h; exact absurd h (by decide)
  · exact fun he => by rw [he] at h; exact absurd h (by decide)

theorem natChars_last (n : ℕ) : ∃ x, (natChars n).getLast? = some x ∧
    lastClass x := by
  cases hx : (natChars n).getLast? with
  | none => exact absurd (List.getLast?_eq_none_iff.mp hx) (natChars_ne_nil n)
  | some x =>
      exact ⟨x, rfl, Or.inl (natChars_all_digit n x (getLast?_mem_of_eq hx))⟩

theorem elementsFind_D_none : elementsFind ['D'] = none := by decide

theorem elementToken_last {sym : List Char} {e : ElementData} (mn cnt : ℕ)
    (hfind : elementsFind sym = some e) :
    ∃ x, (elementToken sym mn cnt).getLast? = some x ∧ lastClass x := by
  by_cases hc : cnt = 1
  · by_cases hmn : mn = 0
    · rw [show elementToken sym mn cnt = sym by simp [elementToken, hmn, hc]]
      rcases elementsFind_shape hfind with ⟨u, rfl, hu, _⟩ |
        ⟨u, l, rfl, _, _, hl, _⟩
      · refine ⟨u, rfl, Or.inr (Or.inr (Or.inl ⟨hu, ?_⟩))⟩
        intro he
        rw [he] at hfind
        rw [elementsFind_D_none] at hfind
        exact Option.noConfusion hfind
      · exact ⟨l, rfl, Or.inr (Or.inr (Or.inr hl))⟩
    · rw [show elementToken sym mn cnt =
        ('[' :: (natChars mn ++ sym)) ++ [']'] by
        simp [elementToken, hmn, hc]]
      exact ⟨']', List.getLast?_concat _, Or.inr (Or.inl rfl)⟩
  · obtain ⟨x, hx, hcl⟩ := natChars_last cnt
    by_cases hmn : mn = 0
    · rw [show elementToken sym mn cnt = sym ++ natChars cnt by
        simp [elementToken, hmn, hc]]
      rw [List.getLast?_append_of_ne_nil _ (natChars_ne_nil cnt)]
      exact ⟨x, hx, hcl⟩
    · rw [show elementToken sym mn cnt =
        (('[' :: (natChars mn ++ sym)) ++ [']']) ++ natChars cnt by
        simp [elementToken, hmn, hc]]
      rw [List.getLast?_append_of_ne_nil _ (natChars_ne_nil cnt)]
      exact ⟨x, hx, hcl⟩

theorem elementToken_ne_nil {sym : List Char} {e : ElementData} (mn cnt : ℕ)
    (hfind : elementsFind sym = some e) :
    elementToken sym mn cnt ≠ [] := by
  obtain ⟨c0, crest, hcr, _⟩ := elementToken_head sym e mn cnt hfind
  rw [hcr]
  exact List.cons_ne_nil c0 crest

theorem tokensText_ne_nil {toks : List (List Char × ℕ × ℕ)}
    (hok : ∀ t ∈ toks, tripleOk t) (hne : toks ≠ []) :
    tokensText toks ≠ [] := by
  cases toks with
  | nil => exact absurd rfl hne
  | cons t rest =>
      obtain ⟨⟨e, hfind, _⟩, _⟩ := hok t (List.mem_cons_self t rest)
      rw [tokensText_cons]
      intro hcontra
      exact elementToken_ne_nil t.2.1 t.2.2 hfind
        (List.append_eq_nil.mp hcontra).1

theorem tokensText_append (a b : List (List Char × ℕ × ℕ)) :
    tokensText (a ++ b) = tokensText a ++ tokensText b := by
  unfold tokensText
  rw [List.map_append]
  simp

theorem tokensText_last {toks : List (List Char × ℕ × ℕ)}
    (hok : ∀ t ∈ toks, tripleOk t) (hne : toks ≠ []) :
    ∃ x, (tokensText toks).getLast? = some x ∧ lastClass x := by
  induction toks using List.reverseRecOn with
  | nil => exact absurd rfl hne
  | append_singleton init t _ =>
      obtain ⟨⟨e, hfind, _⟩, _⟩ := hok t (by simp)
      rw [tokensText_append]
      rw [List.getLast?_append_of_ne_nil _
        (by
          rw [show tokensText [t] = tripleToken t ++ [] from rfl]
          rw [List.append_nil]
          exact elementToken_ne_nil t.2.1 t.2.2 hfind)]
      rw [show tokensText [t] = tripleToken t ++ [] from rfl,
        List.append_nil]
      exact elementToken_last t.2.1 t.2.2 hfind

theorem elementToken_dOk {sym : List Char} {e : ElementData} (mn cnt : ℕ)
    (hfind : elementsFind sym = some e) :
    dOk (elementToken sym mn cnt) = true := by
  have hdigs : ∀ n : ℕ, dOk (natChars n) = true := fun n =>
    dOk_noD (fun x hx => fun he =>
      by rw [he] at hx; exact absurd (natChars_all_digit n _ hx) (by decide))
  have hsymOk : dOk sym = true := by
    rcases elementsFind_shape hfind with ⟨u, rfl, _, _⟩ |
      ⟨u, l, rfl, _, _, hl, _⟩
    · refine dOk_noD (fun x hx => ?_)
      rw [List.mem_singleton.mp hx]
      intro he
      rw [he] at hfind
      rw [elementsFind_D_none] at hfind
      exact Option.noConfusion hfind
    · have hlD : l ≠ 'D' := fun he =>
        by rw [he] at hl; exact absurd hl (by decide)
      have hform : dOk [u, l] =
          ((if u = 'D' then l.isLower else true) &&
           ((if l = 'D' then false else true) && true)) := rfl
      rw [hform, hl, if_neg hlD]
      simp
  have hsym_last : ∀ x, sym.getLast? = some x → x ≠ 'D' := by
    intro x hx
    rcases elementsFind_shape hfind with ⟨u, rfl, _, _⟩ |
      ⟨u, l, rfl, _, _, hl, _⟩
    · have hxu : x = u := List.mem_singleton.mp (getLast?_mem_of_eq hx)
      subst hxu
      intro he
      rw [he] at hfind
      rw [elementsFind_D_none] at hfind
      exact Option.noConfusion hfind
    · rw [show ([u, l] : List Char).getLast? = some l by rfl] at hx
      obtain rfl := Option.some.inj hx
      exact fun he => by rw [he] at hl; exact absurd hl (by decide)
  have hdig_last : ∀ n : ℕ, ∀ x, (natChars n).getLast? = some x →
      x ≠ 'D' := fun n x hx he => by
    rw [he] at hx
    exact absurd (natChars_all_digit n _ (getLast?_mem_of_eq hx)) (by decide)
  have hA : dOk (natChars mn ++ sym) = true :=
    dOk_append (hdig_last mn) (hdigs mn) hsymOk
  have hA_last : ∀ x, (natChars mn ++ sym).getLast? = some x → x ≠ 'D' := by
    intro x hx
    rcases elementsFind_shape hfind with ⟨u, rfl, _, _⟩ |
      ⟨u, l, rfl, _, _, _, _⟩ <;>
      rw [List.getLast?_append_of_ne_nil _ (by simp)] at hx <;>
      exact hsym_last x hx
  have hB : dOk ((natChars mn ++ sym) ++ [']']) = true :=
    dOk_append hA_last hA rfl
  have hBr : dOk ('[' :: ((natChars mn ++ sym) ++ [']'])) = true := by
    have h0 : dOk (['['] : List Char) = true := rfl
    have hl0 : ∀ x, (['['] : List Char).getLast? = some x → x ≠ 'D' :=
      fun x hx => by obtain rfl := Option.some.inj hx; decide
    have := dOk_append hl0 h0 hB
    simpa using this
  have hBr_last : ∀ x,
      ('[' :: ((natChars mn ++ sym) ++ [']'])).getLast? = some x →
      x ≠ 'D' := by
    intro x hx
    rw [show ('[' :: ((natChars mn ++ sym) ++ [']'])) =
      ('[' :: (natChars mn ++ sym)) ++ [']'] from rfl,
      List.getLast?_concat] at hx
    obtain rfl := Option.some.inj hx
    decide
  by_cases hmn : mn = 0 <;> by_cases hc : cnt = 1
  · rw [show elementToken sym mn cnt = sym by simp [elementToken, hmn, hc]]
    exact hsymOk
  · rw [show elementToken sym mn cnt = sym ++ natChars cnt by
      simp [elementToken, hmn, hc]]
    exact dOk_append hsym_last hsymOk (hdigs cnt)
  · rw [show elementToken sym mn cnt =
      '[' :: ((natChars mn ++ sym) ++ [']']) by simp [elementToken, hmn, hc]]
    exact hBr
  · rw [show elementToken sym mn cnt =
      ('[' :: ((natChars mn ++ sym) ++ [']'])) ++ natChars cnt by
      simp [elementToken, hmn, hc]]
    exact dOk_append hBr_last hBr (hdigs cnt)

theorem tokensText_dOk {toks : List (List Char × ℕ × ℕ)}
    (hok : ∀ t ∈ toks, tripleOk t) : dOk (tokensText toks) = true := by
  induction toks with
  | nil => rfl
  | cons t rest ih =>
      rw [tokensText_cons]
      obtain ⟨⟨e, hfind, _⟩, _⟩ := hok t (List.mem_cons_self t rest)
      refine dOk_append (fun x hx =>
        lastClass_ne_D (elementToken_last t.2.1 t.2.2 hfind).choose_spec.2
        |> fun hd => ?_) (elementToken_dOk t.2.1 t.2.2 hfind)
        (ih (fun t' ht' => hok t' (List.mem_cons_of_mem t ht')))
      obtain ⟨y, hy, hcl⟩ := elementToken_last t.2.1 t.2.2 hfind
      rw [show tripleToken t = elementToken t.1 t.2.1 t.2.2 from rfl] at hx
      rw [hy] at hx
      obtain rfl := Option.some.inj hx
      exact lastClass_ne_D hcl


theorem formulaHill_eq (E : ElemMap) (c : Int) :
    formulaHill E c = join_charge (tokensText (hillTriples E)) c [] := by
  unfold formulaHill
  exact from_elements_eq_tokens E c

theorem join_charge_zero (b : List Char) : join_charge b 0 [] = b := by
  simp [join_charge]

theorem join_charge_shape (b : List Char) {c : Int} (hc : c ≠ 0) :
    join_charge b c [] = ['['] ++ b ++ [']'] ++ format_charge c [] := by
  simp [join_charge, hc]

theorem format_charge_chars (c : Int) :
    ∀ x ∈ format_charge c [], x.isDigit = true ∨ isSignChar x = true := by
  intro x hx
  unfold format_charge at hx
  by_cases hc : c = 0
  · rw [if_pos hc] at hx
    rw [List.mem_singleton.mp hx]
    exact Or.inl (by decide)
  · rw [if_neg hc] at hx
    by_cases hb : 1 < c.natAbs <;> by_cases hp : c > 0 <;>
      simp [hb, hp] at hx
    · rcases hx with h | rfl
      · exact Or.inl (natChars_all_digit _ _ h)
      · exact Or.inr (by decide)
    · rcases hx with h | rfl
      · exact Or.inl (natChars_all_digit _ _ h)
      · exact Or.inr (by decide)
    · rw [hx]
      exact Or.inr (by decide)
    · rw [hx]
      exact Or.inr (by decide)

theorem formulaHill_chars {E : ElemMap} {c : Int}
    (hok : ∀ t ∈ hillTriples E, tripleOk t) :
    ∀ x ∈ formulaHill E c, hillChar x = true ∨ isSignChar x = true := by
  intro x hx
  rw [formulaHill_eq] at hx
  by_cases hc : c = 0
  · subst hc
    rw [join_charge_zero] at hx
    exact Or.inl (tokensText_chars hok x hx)
  · rw [join_charge_shape _ hc] at hx
    simp only [List.append_assoc, List.mem_append, List.mem_singleton] at hx
    rcases hx with rfl | h | rfl | h
    · exact Or.inl rfl
    · exact Or.inl (tokensText_chars hok x h)
    · exact Or.inl rfl
    · rcases format_charge_chars c x h with hd | hs
      · exact Or.inl (hillChar_digit hd)
      · exact Or.inr hs

theorem hillChar_not_space {x : Char} (h : hillChar x = true) :
    pyIsSpace x = false := by
  simp only [hillChar, Bool.or_eq_true, beq_iff_eq] at h
  rcases h with (((rfl | rfl) | hd) | hu) | hl
  · decide
  · decide
  · exact isDigit_not_space hd
  · exact isUpper_not_space hu
  · exact isLower_not_space hl

theorem sign_not_space {x : Char} (h : isSignChar x = true) :
    pyIsSpace x = false := by
  simp only [isSignChar, Bool.or_eq_true, decide_eq_true_eq] at h
  rcases h with rfl | rfl <;> decide

theorem token_subset_body {toks : List (List Char × ℕ × ℕ)}
    {t : List Char × ℕ × ℕ} (ht : t ∈ toks) :
    ∀ x ∈ elementToken t.1 t.2.1 t.2.2, x ∈ tokensText toks := by
  intro x hx
  induction toks with
  | nil => exact absurd ht (List.not_mem_nil t)
  | cons t0 rest ih =>
      rw [tokensText_cons]
      rcases List.mem_cons.mp ht with rfl | hmem
      · exact List.mem_append.mpr (Or.inl hx)
      · exact List.mem_append.mpr (Or.inr (ih hmem))

/-- A membership witness of a trigger set of the DNA/RNA/peptide branch
guards of `from_string` cannot occur in a Hill body: its possible
positions are all refuted. -/
theorem hill_any_kill {toks : List (List Char × ℕ × ℕ)}
    (hok : ∀ t ∈ toks, tripleOk t) (Sb Tb : Char → Bool)
    (hSbr1 : Sb '[' = false) (hSbr2 : Sb ']' = false)
    (hSlow : ∀ x, x.isLower = true → Sb x = false)
    (hTelem : ∀ x, Tb x = true → elementsFind [x] = none)
    (hTdig : ∀ x, x.isDigit = true → Tb x = false)
    (hTlow : ∀ x, x.isLower = true → Tb x = false)
    (hall : ∀ x ∈ tokensText toks, Sb x = true)
    (hany : ∃ x ∈ tokensText toks, Tb x = true) : False := by
  obtain ⟨c0, hc0mem, hc0T⟩ := hany
  obtain ⟨t, ht, hx⟩ := body_char_origin hc0mem
  obtain ⟨⟨e, hfind, _⟩, _⟩ := hok t ht
  rcases token_char_origin hx with rfl | rfl | hd | hsym
  · rw [hall '[' hc0mem] at hSbr1
    exact Bool.true_eq_false ▸ hSbr1
  · rw [hall ']' hc0mem] at hSbr2
    exact Bool.true_eq_false ▸ hSbr2
  · rw [hTdig c0 hd] at hc0T
    exact Bool.noConfusion hc0T
  · rcases elementsFind_shape hfind with ⟨u, hsymu, hu, _⟩ |
      ⟨u, l, hsymul, hu, _, hl, _⟩
    · rw [hsymu] at hsym
      obtain rfl := List.mem_singleton.mp hsym
      rw [hsymu] at hfind
      rw [hTelem c0 hc0T] at hfind
      exact Option.noConfusion hfind
    · rw [hsymul] at hsym
      rcases List.mem_cons.mp hsym with rfl | hsym2
      · have hlsym : l ∈ t.1 := by
          rw [hsymul]
          exact List.mem_cons_of_mem c0 (List.mem_singleton.mpr rfl)
        have hlmem : l ∈ tokensText toks :=
          token_subset_body ht l (sym_subset_token t.1 t.2.1 t.2.2 l hlsym)
        have h1 := hall l hlmem
        rw [hSlow l hl] at h1
        exact Bool.noConfusion h1
      · obtain rfl := List.mem_singleton.mp hsym2
        rw [hTlow c0 hl] at hc0T
        exact Bool.noConfusion hc0T


theorem contains_false_of_all_prop {l : List Char} {x : Char}
    (P : Char → Bool) (hall : ∀ y ∈ l, P y = false) (hx : P x = true) :
    l.contains x = false := by
  apply contains_false_of_not_mem
  intro hm
  rw [hall x hm] at hx
  exact Bool.noConfusion hx

theorem elementsFind_none_of_mem {l : List Char}
    (hl : ∀ y ∈ l, elementsFind [y] = none) {x : Char}
    (h : l.contains x = true) : elementsFind [x] = none :=
  hl x (mem_of_contains h)

theorem aa_keys_upper : ∀ kv ∈ AMINOACIDS, ∀ ch ∈ kv.1,
    ch.isUpper = true := by decide

theorem aaS_upper (x : Char) (h : (alistGet AMINOACIDS [x]).isSome = true) :
    x.isUpper = true := by
  cases hg : alistGet AMINOACIDS [x] with
  | none => rw [hg] at h; exact Bool.noConfusion h
  | some v =>
      exact aa_keys_upper _ (alistGet_mem hg) x (List.mem_singleton.mpr rfl)

theorem aaS_lower {x : Char} (hl : x.isLower = true) :
    (alistGet AMINOACIDS [x]).isSome = false := by
  cases hs : (alistGet AMINOACIDS [x]).isSome with
  | false => rfl
  | true =>
      rw [isUpper_not_lower (aaS_upper x hs)] at hl
      exact Bool.noConfusion hl

theorem hill_all_any_false {E : ElemMap} {c : Int}
    (hok : ∀ t ∈ hillTriples E, tripleOk t) (Sb Tb : Char → Bool)
    (hSbr1 : Sb '[' = false) (hSbr2 : Sb ']' = false)
    (hSlow : ∀ x, x.isLower = true → Sb x = false)
    (hTelem : ∀ x, Tb x = true → elementsFind [x] = none)
    (hTdig : ∀ x, x.isDigit = true → Tb x = false)
    (hTlow : ∀ x, x.isLower = true → Tb x = false) :
    ((formulaHill E c).all Sb && (formulaHill E c).any Tb) = false := by
  cases hall : (formulaHill E c).all Sb with
  | false => simp
  | true =>
      cases hany : (formulaHill E c).any Tb with
      | false => simp
      | true =>
          exfalso
          have hallm := List.all_eq_true.mp hall
          have hanym := List.any_eq_true.mp hany
          by_cases hc : c = 0
          · subst hc
            rw [formulaHill_eq, join_charge_zero] at hallm hanym
            exact hill_any_kill hok Sb Tb hSbr1 hSbr2 hSlow hTelem hTdig
              hTlow hallm hanym
          · have hbr : '[' ∈ formulaHill E c := by
              rw [formulaHill_eq, join_charge_shape _ hc]
              simp
            have h1 := hallm '[' hbr
            rw [hSbr1] at h1
            exact Bool.noConfusion h1

theorem format_charge_nolower (c : Int) :
    ∀ x ∈ format_charge c [], x.isLower = false := by
  intro x hx
  rcases format_charge_chars c x hx with hd | hs
  · exact isDigit_not_lower hd
  · simp only [isSignChar, Bool.or_eq_true, decide_eq_true_eq] at hs
    rcases hs with rfl | rfl <;> decide

theorem format_charge_noD (c : Int) :
    ∀ x ∈ format_charge c [], x ≠ 'D' := by
  intro x hx
  rcases format_charge_chars c x hx with hd | hs
  · exact fun he => by rw [he] at hd; exact absurd hd (by decide)
  · simp only [isSignChar, Bool.or_eq_true, decide_eq_true_eq] at hs
    rcases hs with rfl | rfl <;> decide

theorem formulaHill_pairsOk {E : ElemMap} {c : Int}
    (hok : ∀ t ∈ hillTriples E, tripleOk t) :
    pairsOk (formulaHill E c) = true := by
  rw [formulaHill_eq]
  by_cases hc : c = 0
  · subst hc
    rw [join_charge_zero]
    exact tokensText_pairsOk hok
  · rw [join_charge_shape _ hc]
    have h1 : pairsOk (['['] ++ tokensText (hillTriples E)) = true := by
      have h0 : pairsOk (['['] : List Char) = true := rfl
      exact pairsOk_append (tokensText_head_nolower hok) h0
        (tokensText_pairsOk hok)
    have h2 : pairsOk ((['['] ++ tokensText (hillTriples E)) ++ [']']) =
        true := by
      refine pairsOk_append (fun x hx => ?_) h1 rfl
      obtain rfl := Option.some.inj hx
      decide
    exact pairsOk_append
      (fun x hx => format_charge_nolower c x (head?_mem hx)) h2
      (pairsOk_nolower (format_charge_nolower c))

theorem tokensText_last_neD {toks : List (List Char × ℕ × ℕ)}
    (hok : ∀ t ∈ toks, tripleOk t) :
    ∀ x, (tokensText toks).getLast? = some x → x ≠ 'D' := by
  intro x hx
  by_cases hne : toks = []
  · subst hne
    exact absurd hx (by simp [tokensText])
  · obtain ⟨y, hy, hcl⟩ := tokensText_last hok hne
    rw [hy] at hx
    obtain rfl := Option.some.inj hx
    exact lastClass_ne_D hcl

theorem formulaHill_dOk {E : ElemMap} {c : Int}
    (hok : ∀ t ∈ hillTriples E, tripleOk t) :
    dOk (formulaHill E c) = true := by
  rw [formulaHill_eq]
  by_cases hc : c = 0
  · subst hc
    rw [join_charge_zero]
    exact tokensText_dOk hok
  · rw [join_charge_shape _ hc]
    have h1 : dOk (['['] ++ tokensText (hillTriples E)) = true := by
      have h0 : dOk (['['] : List Char) = true := rfl
      refine dOk_append (fun x hx => ?_) h0 (tokensText_dOk hok)
      obtain rfl := Option.some.inj hx
      decide
    have h1last : ∀ x,
        (['['] ++ tokensText (hillTriples E)).getLast? = some x →
        x ≠ 'D' := by
      intro x hx
      cases hbl : (tokensText (hillTriples E)).getLast? with
      | some y =>
          rw [List.getLast?_append, hbl] at hx
          obtain rfl := Option.some.inj hx
          exact tokensText_last_neD hok y hbl
      | none =>
          rw [List.getLast?_append, hbl] at hx
          obtain rfl := Option.some.inj hx
          decide
    have h2 : dOk ((['['] ++ tokensText (hillTriples E)) ++ [']']) = true :=
      dOk_append h1last h1 rfl
    have h2last : ∀ x,
        ((['['] ++ tokensText (hillTriples E)) ++ [']']).getLast? = some x →
        x ≠ 'D' := by
      intro x hx
      rw [List.getLast?_concat] at hx
      obtain rfl := Option.some.inj hx
      decide
    exact dOk_append h2last h2 (dOk_noD (format_charge_noD c))

theorem formulaHill_no_space {E : ElemMap} {c : Int}
    (hok : ∀ t ∈ hillTriples E, tripleOk t) :
    ∀ x ∈ formulaHill E c, pyIsSpace x = false := by
  intro x hx
  rcases formulaHill_chars hok x hx with h | h
  · exact hillChar_not_space h
  · exact sign_not_space h

theorem split_charge_nosign {b : List Char}
    (hlast : ∀ x, b.getLast? = some x →
      isSignChar x = false ∧ x ≠ '\n') :
    split_charge b = .ok (b, 0) := by
  have hchop : chopNl b = b := by
    unfold chopNl
    rw [if_neg (fun he => (hlast '\n' he).2 rfl)]
  unfold split_charge
  dsimp only
  rw [hchop, spanEnd_no_suffix (fun x hx => (hlast x hx).1)]
  rw [if_pos rfl]


theorem tokensText_last_facts {toks : List (List Char × ℕ × ℕ)}
    (hok : ∀ t ∈ toks, tripleOk t) :
    ∀ x, (tokensText toks).getLast? = some x →
      isSignChar x = false ∧ x ≠ '\n' := by
  intro x hx
  by_cases hne : toks = []
  · subst hne
    exact absurd hx (by simp [tokensText])
  · obtain ⟨y, hy, hcl⟩ := tokensText_last hok hne
    rw [hy] at hx
    obtain rfl := Option.some.inj hx
    exact ⟨lastClass_not_sign hcl, lastClass_ne_nl hcl⟩

theorem split_charge_hill {E : ElemMap} {c : Int}
    (hok : ∀ t ∈ hillTriples E, tripleOk t) :
    split_charge (formulaHill E c) =
      .ok (tokensText (hillTriples E), c) := by
  rw [formulaHill_eq]
  by_cases hc : c = 0
  · subst hc
    rw [join_charge_zero]
    exact split_charge_nosign (tokensText_last_facts hok)
  · exact split_charge_join _ c hc

/-- `from_string` leaves a rendered Hill formula unchanged: every
normalization pass (strip, spaces, group abbreviations, sequence
detection, preprocessors, deuterium, hydrate dot, arithmetic) is a no-op
on it, and the split-off charge is re-joined verbatim. -/
theorem fromString_hill (FB : List Char → Except PyErr (List Char))
    (E : ElemMap) (c : Int)
    (hok : ∀ t ∈ hillTriples E, tripleOk t) :
    fromString FB (formulaHill E c) = .ok (formulaHill E c) := by
  have hchars : ∀ x ∈ formulaHill E c,
      hillChar x = true ∨ isSignChar x = true := formulaHill_chars hok
  have hsp : (' ' : Char) ∉ formulaHill E c := fun hm => by
    have h1 := formulaHill_no_space hok ' ' hm
    exact absurd h1 (by decide)
  have hcolon : (formulaHill E c).contains ':' = false :=
    contains_false_of_not_mem (fun hm => by
      rcases hchars ':' hm with h | h <;> exact absurd h (by decide))
  have hparen : ('(' : Char) ∉ formulaHill E c := fun hm => by
    rcases hchars '(' hm with h | h <;> exact absurd h (by decide)
  have hg1 : ((formulaHill E c).all
      (fun ch => (['A', 'T', 'C', 'G'] : List Char).contains ch) &&
      (formulaHill E c).any
      (fun ch => (['A', 'T', 'G'] : List Char).contains ch)) = false :=
    hill_all_any_false hok _ _ (by decide) (by decide)
      (fun x hx => contains_false_of_all_prop Char.isLower (by decide) hx)
      (fun x hx => elementsFind_none_of_mem (by decide) hx)
      (fun x hx => contains_false_of_all_prop Char.isDigit (by decide) hx)
      (fun x hx => contains_false_of_all_prop Char.isLower (by decide) hx)
  have hg2 : ((formulaHill E c).all
      (fun ch => (['A', 'U', 'C', 'G'] : List Char).contains ch) &&
      (formulaHill E c).any
      (fun ch => (['A', 'G'] : List Char).contains ch)) = false :=
    hill_all_any_false hok _ _ (by decide) (by decide)
      (fun x hx => contains_false_of_all_prop Char.isLower (by decide) hx)
      (fun x hx => elementsFind_none_of_mem (by decide) hx)
      (fun x hx => contains_false_of_all_prop Char.isDigit (by decide) hx)
      (fun x hx => contains_false_of_all_prop Char.isLower (by decide) hx)
  have hg3 : ((formulaHill E c).all
      (fun ch => (alistGet AMINOACIDS [ch]).isSome) &&
      (formulaHill E c).any
      (fun ch =>
        (['A', 'E', 'G', 'M', 'L', 'Q', 'R', 'T'] : List Char).contains ch))
      = false :=
    hill_all_any_false hok _ _ (by decide) (by decide)
      (fun x hx => aaS_lower hx)
      (fun x hx => elementsFind_none_of_mem (by decide) hx)
      (fun x hx => contains_false_of_all_prop Char.isDigit (by decide) hx)
      (fun x hx => contains_false_of_all_prop Char.isLower (by decide) hx)
  have hdot : ('.' : Char) ∉ tokensText (hillTriples E) := fun hm => by
    have h1 := tokensText_chars hok '.' hm
    exact absurd h1 (by decide)
  have hplus : ('+' : Char) ∉ tokensText (hillTriples E) := fun hm => by
    have h1 := tokensText_chars hok '+' hm
    exact absurd h1 (by decide)
  have hpre : (if 1 < (formulaHill E c).length
      then preprocessAll (formulaHill E c)
      else .ok (formulaHill E c)) = .ok (formulaHill E c) := by
    split
    · exact preprocessAll_noop hparen
    · rfl
  unfold fromString
  dsimp only
  rw [pyStrip_noop (formulaHill_no_space hok)]
  rw [pyReplace_noop (containsSub_single_false hsp)]
  rw [groupsExpand_noop (formulaHill_pairsOk hok)]
  rw [if_neg (fun hcond => by
    rw [Bool.and_eq_true, hcolon] at hcond
    exact Bool.noConfusion hcond.1)]
  rw [if_neg (fun hcond => by
    rw [Bool.and_eq_true, hg1] at hcond
    exact Bool.noConfusion hcond.2)]
  rw [if_neg (fun hcond => by
    rw [Bool.and_eq_true, hg2] at hcond
    exact Bool.noConfusion hcond.2)]
  rw [if_neg (fun hcond => by
    rw [Bool.and_eq_true, hg3] at hcond
    exact Bool.noConfusion hcond.2)]
  rw [hpre]
  dsimp only
  rw [deuteriumSub_noop _ _ (formulaHill_dOk hok)]
  rw [split_charge_hill hok]
  dsimp only
  rw [pyReplace_noop (containsSub_single_false hdot)]
  rw [arithExpand_noop hplus]
  by_cases hc : c = 0
  · subst hc
    rw [if_neg (by simp)]
    rw [formulaHill_eq, join_charge_zero]
  · rw [if_pos hc]
    rw [formulaHill_eq, join_charge_shape _ hc]
    simp

/-!  ### C2: Hill round trip  -/

/-- C2: round-trip idempotence of Hill notation.  For every formula body
that parses into element map `E` and every charge `c`, constructing a new
Formula from the rendered `formula` string (Hill notation with the
charge) reproduces the identical element map: `from_string` returns the
Hill string unchanged (for every implementation of the mass-fraction
branch), `split_charge` recovers the Hill body together with the same
charge, and parsing the body succeeds with a map whose symbol key set
equals that of `E` and whose two-level lookup agrees with `E`
everywhere — which is dict equality of the dict-of-dicts, since equal
lookups force equal selector key sets and equal counts inside every
symbol. -/
theorem C2_hill_roundtrip (FB : List Char → Except PyErr (List Char))
    (s : List Char) (E : ElemMap) (c : Int)
    (h : parseElements s = .ok E) :
    ∃ E' : ElemMap,
      fromString FB (formulaHill E c) = .ok (formulaHill E c) ∧
      split_charge (formulaHill E c) =
        .ok (tokensText (hillTriples E), c) ∧
      parseElements (tokensText (hillTriples E)) = .ok E' ∧
      (∀ sym : List Char,
        (alistGet E' sym).isSome = (alistGet E sym).isSome) ∧
      (∀ (sym : List Char) (mn : ℕ),
        lookup2 E' sym mn = lookup2 E sym mn) := by
  have hv := parseElements_valid h
  have hp := parseElements_pos h
  have hnd := parseElements_nodup h
  have hin := parseElements_inner_ne_nil h
  have hEne := parseElements_ne_nil h
  have hok := hillTriples_ok E hv hp
  obtain ⟨E', hparse, hlk⟩ := parse_tokensText E hv hp hnd hin hEne
  refine ⟨E', fromString_hill FB E c hok, split_charge_hill hok, hparse,
    ?_, hlk⟩
  intro sym
  cases hE' : alistGet E' sym with
  | some inner' =>
      cases hE : alistGet E sym with
      | some inner => rfl
      | none =>
          exfalso
          have hmem : (sym, inner') ∈ E' := alistGet_mem hE'
          have hne : inner' ≠ [] := parseElements_inner_ne_nil hparse _ hmem
          obtain ⟨ic, hic⟩ : ∃ ic, ic ∈ inner' := by
            cases inner' with
            | nil => exact absurd rfl hne
            | cons a t => exact ⟨a, List.mem_cons_self a t⟩
          have hkm : ic.1 ∈ inner'.map Prod.fst :=
            List.mem_map.mpr ⟨ic, hic, rfl⟩
          have hsome := alistGet_isSome_of_mem_keys hkm
          have hl1 : lookup2 E' sym ic.1 = alistGet inner' ic.1 := by
            unfold lookup2
            rw [hE']
          have hl2 : lookup2 E sym ic.1 = none := by
            unfold lookup2
            rw [hE]
          rw [hlk sym ic.1, hl2] at hl1
          rw [← hl1] at hsome
          exact Bool.noConfusion hsome
  | none =>
      cases hE : alistGet E sym with
      | none => rfl
      | some inner =>
          exfalso
          have hmem : (sym, inner) ∈ E := alistGet_mem hE
          have hne : inner ≠ [] := hin _ hmem
          obtain ⟨ic, hic⟩ : ∃ ic, ic ∈ inner := by
            cases inner with
            | nil => exact absurd rfl hne
            | cons a t => exact ⟨a, List.mem_cons_self a t⟩
          have hkm : ic.1 ∈ inner.map Prod.fst :=
            List.mem_map.mpr ⟨ic, hic, rfl⟩
          have hsome := alistGet_isSome_of_mem_keys hkm
          have hl1 : lookup2 E sym ic.1 = alistGet inner ic.1 := by
            unfold lookup2
            rw [hE]
          have hl2 : lookup2 E' sym ic.1 = none := by
            unfold lookup2
            rw [hE']
          rw [← hlk sym ic.1, hl2] at hl1
          rw [← hl1] at hsome
          exact Bool.noConfusion hsome

theorem C2_hill_roundtrip_witness :
    parseElements (String.toList "H2O") =
      .ok [(['O'], [(0, 1)]), (['H'], [(0, 2)])] ∧
    ∃ E' : ElemMap,
      fromString noFractions
          (formulaHill [(['O'], [(0, 1)]), (['H'], [(0, 2)])] 0) =
        .ok (formulaHill [(['O'], [(0, 1)]), (['H'], [(0, 2)])] 0) ∧
      split_charge (formulaHill [(['O'], [(0, 1)]), (['H'], [(0, 2)])] 0) =
        .ok (tokensText
          (hillTriples [(['O'], [(0, 1)]), (['H'], [(0, 2)])]), 0) ∧
      parseElements (tokensText
          (hillTriples [(['O'], [(0, 1)]), (['H'], [(0, 2)])])) = .ok E' ∧
      (∀ sym : List Char, (alistGet E' sym).isSome =
        (alistGet ([(['O'], [(0, 1)]), (['H'], [(0, 2)])] : ElemMap)
          sym).isSome) ∧
      (∀ (sym : List Char) (mn : ℕ), lookup2 E' sym mn =
        lookup2 [(['O'], [(0, 1)]), (['H'], [(0, 2)])] sym mn) :=
  ⟨by decide, C2_hill_roundtrip noFractions (String.toList "H2O")
    [(['O'], [(0, 1)]), (['H'], [(0, 2)])] 0 (by decide)⟩

end Molmass
